import Mathlib

/-!
Verification of the content-derived Knowledge Graph Engine of the
youtube-study-app repository.

The development shallowly embeds, in Lean 4:
  * `backend/src/services/llm.service.js` (`KnowledgeGraphService`):
    entity extraction from key points, entity deduplication,
    entity/video relationship building and graph assembly
    (namespace `KG`);
  * the co-occurrence projection of `frontend/app/graph/page.tsx`
    (`buildCooccurrenceGraph`, namespace `Proj`);
  * the RAG service (`RAGService`): simple term-frequency embeddings,
    cosine similarity, common-theme detection and per-document
    relationship building (namespace `RAG`).

JavaScript floating point arithmetic on the backend weights is exact
on the values the code produces (small rationals), so those weights
are modelled as `ℚ`.  The RAG similarity values involve `Math.sqrt`,
so they are modelled as real numbers.  JavaScript `Map`s are modelled
as insertion-ordered association lists; `undefined` fields are
modelled with `Option`; statements that can throw are modelled with
`Except Unit`.
-/

set_option maxHeartbeats 1000000

deriving instance DecidableEq for Except

/-! ## JS string primitives shared by the services -/

/-- `pat` occurs as a contiguous substring of `s` (JS `String.prototype.includes`),
on character lists. -/
def listContainsSeq (pat : List Char) : List Char → Bool
  | [] => pat.isPrefixOf []
  | c :: rest => pat.isPrefixOf (c :: rest) || listContainsSeq pat rest

/-- JS `s.includes(pat)`. -/
def jsIncludes (s pat : String) : Bool :=
  listContainsSeq pat.data s.data

/-- JS `s.toLowerCase()` (the sources only feed ASCII text). -/
def toLowerStr (s : String) : String :=
  ⟨s.data.map Char.toLower⟩

/-- A regex `\w` character: alphanumeric or underscore. -/
def isWordChar (c : Char) : Bool :=
  c.isAlphanum || c = '_'

/-- JS `s.replace(/[^\w\s]/g, '')`: drop every character that is neither
a word character nor whitespace. -/
def stripNonWord (s : String) : String :=
  ⟨s.data.filter (fun c => isWordChar c || c.isWhitespace)⟩

/-- Split a character list on whitespace.  JS `split(/\s+/)` merges
separator runs while this version produces empty pieces between
consecutive separators; every caller filters the pieces by a length
bound, which removes the empty pieces, so the two agree after the
filter. -/
def splitWsAux (acc : List Char) : List Char → List (List Char)
  | [] => [acc.reverse]
  | c :: rest =>
    if c.isWhitespace then acc.reverse :: splitWsAux [] rest
    else splitWsAux (c :: acc) rest

/-- JS `s.split(/\s+/)` (up to empty pieces, see `splitWsAux`). -/
def splitWs (s : String) : List String :=
  (splitWsAux [] s.data).map String.mk

/-- Split a character list at every occurrence of the character `sep`
(JS `s.split(sep)`): empty pieces are kept. -/
def splitCharAux (sep : Char) (acc : List Char) : List Char → List (List Char)
  | [] => [acc.reverse]
  | c :: rest =>
    if c = sep then acc.reverse :: splitCharAux sep [] rest
    else splitCharAux sep (c :: acc) rest

/-- JS `word.charAt(0).toUpperCase() + word.slice(1)`. -/
def capitalize (w : String) : String :=
  match w.data with
  | [] => ""
  | c :: rest => ⟨c.toUpper :: rest⟩

/-- JS `s.split(' ').join(' ')` combinator for `capitalizePhrase`. -/
def capitalizePhrase (p : String) : String :=
  ⟨List.intercalate [' '] (((splitCharAux ' ' [] p.data).map String.mk).map
      (fun w => (capitalize w).data))⟩

/-- JS `arr.join(' ')`. -/
def joinSpace (l : List String) : String :=
  String.intercalate " " l

/-! ## Backend knowledge-graph service (`llm.service.js`) -/

namespace KG

/-- The stop-word set of `extractEntitiesFromKeyPoints`. -/
def stopWords : List String :=
  ["the", "a", "an", "and", "or", "but", "in", "on", "at", "to", "for",
   "of", "with", "by", "from", "as", "is", "are", "was", "were", "been",
   "be", "have", "has", "had", "do", "does", "did", "will", "would",
   "should", "could", "may", "might", "can", "this", "that", "these",
   "those", "it", "its", "they", "their", "them"]

/-- Tokenisation of one key point:
`point.toLowerCase().replace(/[^\w\s]/g,'').split(/\s+/)
     .filter(w => w.length > 2 && !stopWords.has(w))`. -/
def tokenize (point : String) : List String :=
  ((splitWs (stripNonWord (toLowerStr point))).filter
    (fun w => w.length > 2 && !(stopWords.contains w)))

/-- An entity record: both the raw mentions pushed by
`extractEntitiesFromKeyPoints` and the merged records produced by
`deduplicateEntities` have this shape.  A raw mention carries
`sourceVideos = none` (the JS field is `undefined` until the first
merge). -/
structure Entity where
  id : String
  label : String
  type : String
  description : String
  sourceVideo : String
  sourceVideoTitle : String
  keyPointIndex : Nat
  sourceVideos : Option (List String) := none
deriving DecidableEq, Repr

/-- `detectEntityType(phrase, context)`: first-match heuristic. -/
def detectEntityType (phrase context : String) : String :=
  let lowerPhrase := toLowerStr phrase
  let lowerContext := toLowerStr context
  if jsIncludes lowerContext "version" || jsIncludes lowerContext "update" ||
     jsIncludes lowerContext "release" || jsIncludes lowerPhrase "ai" ||
     jsIncludes lowerPhrase "model" || jsIncludes lowerPhrase "api" then
    "technology"
  else if jsIncludes lowerContext "feature" || jsIncludes lowerContext "capability" ||
     jsIncludes lowerContext "functionality" || jsIncludes lowerContext "mode" then
    "feature"
  else if jsIncludes lowerContext "tool" || jsIncludes lowerContext "platform" ||
     jsIncludes lowerContext "service" || jsIncludes lowerContext "application" then
    "tool"
  else if jsIncludes lowerContext "author" || jsIncludes lowerContext "creator" ||
     jsIncludes lowerContext "developer" then
    "person"
  else
    "concept"

/-- The `/\d+\.\d+/` test: some consecutive `digit '.' digit`. -/
def hasVersionPattern : List Char → Bool
  | a :: b :: c :: rest =>
    (a.isDigit && b = '.' && c.isDigit) || hasVersionPattern (b :: c :: rest)
  | _ => false

/-- The `/[A-Z]{2,}/` test: two consecutive uppercase letters. -/
def hasAcronym : List Char → Bool
  | a :: b :: rest => (a.isUpper && b.isUpper) || hasAcronym (b :: rest)
  | _ => false

/-- The `/api|sdk|llm|ai|ml/i` test. -/
def hasTechStem (phrase : String) : Bool :=
  let lp := toLowerStr phrase
  jsIncludes lp "api" || jsIncludes lp "sdk" || jsIncludes lp "llm" ||
  jsIncludes lp "ai" || jsIncludes lp "ml"

/-- `isSignificantPhrase(phrase, context)`. -/
def isSignificantPhrase (phrase context : String) : Bool :=
  jsIncludes context (capitalizePhrase phrase) ||
  hasVersionPattern phrase.data || hasAcronym phrase.data || hasTechStem phrase

/-- Raw mention constructor shared by the unigram/bigram/trigram pushes. -/
def mkMention (id label type description sourceVideo sourceVideoTitle : String)
    (keyPointIndex : Nat) : Entity :=
  { id := id, label := label, type := type, description := description,
    sourceVideo := sourceVideo, sourceVideoTitle := sourceVideoTitle,
    keyPointIndex := keyPointIndex, sourceVideos := none }

/-- The body of the `for (let i = 0; …)` loop of
`extractEntitiesFromKeyPoints`, recursing over positions of the
filtered word list.  At each position it pushes, in order: the
unigram candidate, the bigram candidate and the trigram candidate. -/
def extractFromWords (point vid title : String) (idx : Nat) :
    List String → List Entity
  | [] => []
  | w :: rest =>
    let uni :=
      if jsIncludes point (capitalize w) then
        [mkMention ("entity_" ++ w) (capitalize w) (detectEntityType w point)
          point vid title idx]
      else []
    let bi :=
      match rest with
      | w2 :: _ =>
        let bigram := w ++ " " ++ w2
        if isSignificantPhrase bigram point then
          [mkMention ("entity_" ++ w ++ "_" ++ w2) (capitalizePhrase bigram)
            (detectEntityType bigram point) point vid title idx]
        else []
      | [] => []
    let tri :=
      match rest with
      | w2 :: w3 :: _ =>
        let trigram := w ++ " " ++ w2 ++ " " ++ w3
        if isSignificantPhrase trigram point then
          [mkMention ("entity_" ++ w ++ "_" ++ w2 ++ "_" ++ w3)
            (capitalizePhrase trigram) (detectEntityType trigram point)
            point vid title idx]
        else []
      | _ => []
    uni ++ bi ++ tri ++ extractFromWords point vid title idx rest

/-- Merge a colliding mention into an existing record
(the body of the `if (existing)` branch of `deduplicateEntities`). -/
def mergeInto (existing e : Entity) : Entity :=
  let description :=
    if jsIncludes existing.description e.description then existing.description
    else existing.description ++ " | " ++ e.description
  let svs := existing.sourceVideos.getD [existing.sourceVideo]
  let svs' := if svs.contains e.sourceVideo then svs else svs ++ [e.sourceVideo]
  { existing with description := description, sourceVideos := some svs' }

/-- One step of `deduplicateEntities`: merge into the record with the
same id if present, otherwise append the mention (JS `Map` keeps
insertion order). -/
def dedupStep (acc : List Entity) (e : Entity) : List Entity :=
  if acc.any (fun x => x.id == e.id) then
    acc.map (fun x => if x.id == e.id then mergeInto x e else x)
  else
    acc ++ [e]

/-- `deduplicateEntities(entities)`. -/
def deduplicateEntities (entities : List Entity) : List Entity :=
  entities.foldl dedupStep []

/-- `extractEntitiesFromKeyPoints(keyPoints, videoId, videoTitle)` for a
well-formed (array-of-strings) key-point list. -/
def extractEntitiesFromKeyPoints (keyPoints : List String)
    (videoId videoTitle : String) : List Entity :=
  deduplicateEntities
    ((keyPoints.enum).flatMap
      (fun p => extractFromWords p.2 videoId videoTitle p.1 (tokenize p.2)))

/-- The set of source documents of an entity record:
`entity.sourceVideos || [entity.sourceVideo]`. -/
def sourceDocs (e : Entity) : List String :=
  e.sourceVideos.getD [e.sourceVideo]

/-- A graph edge / relationship produced by the backend.  Fields that
only some edge kinds carry are `Option`s. -/
structure Edge where
  source : String
  target : String
  type : String
  weight : ℚ
  context : Option String := none
  sharedEntities : Option Nat := none
  reason : Option String := none
deriving DecidableEq, Repr

/-- Append `x` to the list stored under `k`, or create the entry at the
end (`Map.get(k).push(x)` after the `if (!m.has(k)) m.set(k, [])`
idiom; a JS `Map` has unique keys and keeps insertion order). -/
def mapPush {κ α : Type} [DecidableEq κ] :
    List (κ × List α) → κ → α → List (κ × List α)
  | [], k, x => [(k, [x])]
  | p :: rest, k, x =>
    if p.1 = k then (p.1, p.2 ++ [x]) :: rest
    else p :: mapPush rest k x

/-- Look a key up in an association list (JS `Map.get`). -/
def lookup {κ α : Type} [DecidableEq κ] (m : List (κ × α)) (k : κ) : Option α :=
  (m.find? (fun p => p.1 = k)).map (·.2)

/-- `Map.get(k) || []`. -/
def lookupL {κ α : Type} [DecidableEq κ] (m : List (κ × List α)) (k : κ) : List α :=
  (lookup m k).getD []

/-- All ordered pairs `(l[i], l[j])` with `i < j`, in the nested-loop
order used by the source (`forEach` with `slice(i + 1)`). -/
def listPairs {α : Type} : List α → List (α × α)
  | [] => []
  | x :: rest => (rest.map (fun y => (x, y))) ++ listPairs rest

/-- The `entitiesByVideo` map of `buildEntityRelationships`: entities
grouped by their (first-seen) `sourceVideo`. -/
def entitiesByVideo (entities : List Entity) : List (String × List Entity) :=
  entities.foldl (fun m e => mapPush m e.sourceVideo e) []

/-- The co-occurrence edges of one video's entity group. -/
def coocEdgesOfGroup (videoId : String) (videoEntities : List Entity) :
    List Edge :=
  (listPairs videoEntities).filterMap (fun p =>
    let keyPointDistance := ((p.1.keyPointIndex : ℤ) - p.2.keyPointIndex).natAbs
    if keyPointDistance ≤ 2 then
      some { source := p.1.id, target := p.2.id, type := "co-occurs",
             weight := 1 / ((keyPointDistance : ℚ) + 1),
             context := some videoId }
    else none)

/-- One `appears-in` edge push of the cross-video loop. -/
def appearsInEdge (e : Entity) (v : String) : Edge :=
  { source := e.id, target := "video_" ++ v, type := "appears-in",
    weight := 8/10, context := some "cross-video" }

/-- The cross-video `appears-in` edges pushed for one entity: for every
ordered pair of its source videos, one edge to each element of the
pair. -/
def crossVideoEdges (e : Entity) : List Edge :=
  match e.sourceVideos with
  | some svs =>
    if svs.length > 1 then
      (listPairs svs).flatMap (fun p =>
        [appearsInEdge e p.1, appearsInEdge e p.2])
    else []
  | none => []

/-- `buildEntityRelationships(entities)`. -/
def buildEntityRelationships (entities : List Entity) : List Edge :=
  ((entitiesByVideo entities).flatMap (fun g => coocEdgesOfGroup g.1 g.2)) ++
  entities.flatMap crossVideoEdges

/-- A video category (`video.category`). -/
structure Category where
  name : String
  color : String
deriving DecidableEq, Repr

/-- An element of a parsed `keyPoints` array.  The extraction only
distinguishes strings (usable) from any other value (on which
`point.toLowerCase()` throws a `TypeError`). -/
inductive JElem where
  | str (s : String)
  | nonStr
deriving DecidableEq, Repr

/-- A parsed JSON value, as far as the dynamic behaviour of
`buildGraphFromVideos` distinguishes values stored under
`summaryJson.keyPoints`. -/
inductive JVal where
  | jnull
  | jbool (b : Bool)
  | jnum (n : ℤ)
  | jstr (s : String)
  | jarr (elems : List JElem)
  | jobj
deriving DecidableEq, Repr

/-- JS truthiness of a `JVal`. -/
def jTruthy : JVal → Bool
  | .jnull => false
  | .jbool b => b
  | .jnum n => n ≠ 0
  | .jstr s => s ≠ ""
  | .jarr _ => true
  | .jobj => true

/-- The `.length` property of a `JVal` (`none` = `undefined`, and
`undefined > 0` is false in JS). -/
def jLength : JVal → Option Nat
  | .jstr s => some s.length
  | .jarr l => some l.length
  | _ => none

/-- Outcome of the `summaryJson` handling at the head of the
per-video loop of `buildGraphFromVideos`: the field may be absent,
`JSON.parse` may throw (the catch logs and skips the video), or it
parses and its `keyPoints` member is some `JVal` (or absent). -/
inductive SummaryField where
  | missing
  | parseFail
  | parsed (keyPoints : Option JVal)
deriving DecidableEq, Repr

/-- A stored video record, as read by `buildGraphFromVideos`. -/
structure Video where
  id : String
  title : String
  author : String
  youtubeId : String
  thumbnail : String
  watchStatus : String
  category : Option Category
  summaryJson : SummaryField
deriving DecidableEq, Repr

/-- A video node of the assembled snapshot. -/
structure VideoNode where
  id : String
  videoId : String
  label : String
  title : String
  author : String
  type : String
  youtubeId : String
  thumbnail : String
  watchStatus : String
  category : String
  categoryColor : String
deriving DecidableEq, Repr

/-- `videoNodes.push({...})` of `buildGraphFromVideos`. -/
def mkVideoNode (v : Video) : VideoNode :=
  { id := "video_" ++ v.id, videoId := v.id, label := v.title,
    title := v.title, author := v.author, type := "video",
    youtubeId := v.youtubeId, thumbnail := v.thumbnail,
    watchStatus := v.watchStatus,
    category := ((v.category.map Category.name).getD "Uncategorized"),
    categoryColor := ((v.category.map Category.color).getD "#6b7280") }

/-- A node of the assembled snapshot: `allNodes = [...videoNodes,
...uniqueEntities]` mixes the two record shapes. -/
inductive GNode where
  | videoNode (v : VideoNode)
  | entityNode (e : Entity)
deriving DecidableEq, Repr

/-- The `id` field of a node. -/
def GNode.id : GNode → String
  | .videoNode v => v.id
  | .entityNode e => e.id

/-- The `type` field of a node. -/
def GNode.type : GNode → String
  | .videoNode v => v.type
  | .entityNode e => e.type

/-- The `stats` object of the snapshot. -/
structure Stats where
  totalNodes : Nat
  totalEdges : Nat
  videoNodes : Nat
  entityNodes : Nat
deriving DecidableEq, Repr

/-- The assembled graph snapshot. -/
structure Snapshot where
  nodes : List GNode
  edges : List Edge
  stats : Stats
deriving DecidableEq, Repr

/-- Elements of a parsed `keyPoints` array must be strings: the
extraction calls `point.toLowerCase()` on each and throws otherwise. -/
def asStringList : List JElem → Except Unit (List String)
  | [] => .ok []
  | .str s :: rest => (asStringList rest).map (s :: ·)
  | .nonStr :: _ => .error ()

/-- The entity mentions one video contributes, or a thrown
`TypeError`: a truthy non-array `keyPoints` with positive `.length`
(e.g. a string) reaches `keyPoints.forEach` and throws. -/
def videoMentions (v : Video) : Except Unit (List Entity) :=
  match v.summaryJson with
  | .missing => .ok []
  | .parseFail => .ok []
  | .parsed kp =>
    match kp with
    | none => .ok []
    | some jv =>
      if jTruthy jv then
        match jLength jv with
        | some len =>
          if len > 0 then
            match jv with
            | .jarr elems =>
              (asStringList elems).map
                (fun pts => extractEntitiesFromKeyPoints pts v.id v.title)
            | _ => .error ()
          else .ok []
        | none => .ok []
      else .ok []

/-- The `videoEntityMap` of `buildVideoRelationships`: entity ids
listed per source video. -/
def videoEntityMap (entities : List Entity) : List (String × List String) :=
  entities.foldl
    (fun m e => (sourceDocs e).foldl (fun m' vid => mapPush m' vid e.id) m) []

/-- The entity-id list the `videoEntityMap` associates with one video
(`videoEntityMap.get(v) || []`). -/
def videoEntityIds (entities : List Entity) (v : String) : List String :=
  lookupL (videoEntityMap entities) v

/-- The `intersection` of one iteration of `buildVideoRelationships`:
`entities1.filter(e => entities2.includes(e))`. -/
def sharedEntityIds (entities : List Entity) (v1 v2 : String) : List String :=
  (videoEntityIds entities v1).filter
    (fun x => (videoEntityIds entities v2).contains x)

/-- The `union` of one iteration: `new Set([...entities1, ...entities2])`. -/
def entityIdUnion (entities : List Entity) (v1 v2 : String) : List String :=
  ((videoEntityIds entities v1) ++ (videoEntityIds entities v2)).dedup

/-- The Jaccard `similarity`: `intersection.length / union.size`. -/
def jaccard (entities : List Entity) (v1 v2 : String) : ℚ :=
  ((sharedEntityIds entities v1 v2).length : ℚ) /
    ((entityIdUnion entities v1 v2).length : ℚ)

/-- The relationship record pushed for one qualifying video pair. -/
def videoRelEdge (entities : List Entity) (v1 v2 : String) : Edge :=
  { source := "video_" ++ v1, target := "video_" ++ v2,
    type := if jaccard entities v1 v2 > 3/10 then "strong" else "moderate",
    weight := jaccard entities v1 v2,
    sharedEntities := some (sharedEntityIds entities v1 v2).length,
    reason := some (toString (sharedEntityIds entities v1 v2).length ++
      " shared concepts") }

/-- `buildVideoRelationships(videos, entities)`. -/
def buildVideoRelationships (videos : List Video) (entities : List Entity) :
    List Edge :=
  (listPairs videos).filterMap (fun p =>
    if 0 < (sharedEntityIds entities p.1.id p.2.id).length then
      some (videoRelEdge entities p.1.id p.2.id)
    else none)

/-- `buildGraphFromVideos(videos)`: a `TypeError` thrown by the
extraction of any video propagates and aborts the whole build. -/
def buildGraphFromVideos (videos : List Video) : Except Unit Snapshot := do
  let mentionLists ← videos.mapM videoMentions
  let allEntities := mentionLists.flatten
  let videoNodes := videos.map mkVideoNode
  let uniqueEntities := deduplicateEntities allEntities
  let entityRelationships := buildEntityRelationships uniqueEntities
  let allNodes := videoNodes.map GNode.videoNode ++
    uniqueEntities.map GNode.entityNode
  let videoRelationships := buildVideoRelationships videos uniqueEntities
  let allEdges := entityRelationships ++ videoRelationships
  .ok { nodes := allNodes, edges := allEdges,
        stats := { totalNodes := allNodes.length, totalEdges := allEdges.length,
                   videoNodes := videoNodes.length,
                   entityNodes := uniqueEntities.length } }

end KG

/-! ## Frontend co-occurrence projection (`app/graph/page.tsx`) -/

namespace Proj

/-- An edge of the co-occurrence projection.  The raw pair count is
stored in `weight`; the normalised value in `similarity`. -/
structure CoEdge where
  source : String
  target : String
  type : String
  similarity : ℚ
  weight : Nat
  reason : String
deriving DecidableEq, Repr

/-- The projection's `stats` object: a spread of the base snapshot's
stats plus the projection's own counts. -/
structure ProjStats where
  base : KG.Stats
  nodes : Nat
  edges : Nat
  graphType : String
deriving DecidableEq, Repr

/-- The graph value returned by `buildCooccurrenceGraph`. -/
structure ProjGraph where
  nodes : List KG.GNode
  edges : List CoEdge
  stats : ProjStats
deriving DecidableEq, Repr

/-- `data.nodes.find(n => n.id === i)`. -/
def findNode (nodes : List KG.GNode) (i : String) : Option KG.GNode :=
  nodes.find? (fun n => n.id == i)

/-- The two `if` statements of the edge loop: which map key gets which
value pushed (`none` = `undefined`: a dangling endpoint id found no
node, and JS happily pushes `undefined` into the per-video list). -/
def pushOf (nodes : List KG.GNode) (e : KG.Edge) :
    Option (String × Option KG.GNode) :=
  let source := findNode nodes e.source
  let target := findNode nodes e.target
  match source with
  | some s =>
    if s.type = "video" ∧ (target.map KG.GNode.type) ≠ some "video" then
      some (s.id, target)
    else
      match target with
      | some t =>
        if t.type = "video" ∧ s.type ≠ "video" then some (t.id, source)
        else none
      | none => none
  | none =>
    match target with
    | some t =>
      if t.type = "video" then some (t.id, source) else none
    | none => none

/-- The `entityByVideo` map: per video node id, the list of co-listed
(entity) nodes pushed by the edge loop. -/
def entityByVideo (nodes : List KG.GNode) (edges : List KG.Edge) :
    List (String × List (Option KG.GNode)) :=
  edges.foldl
    (fun m e =>
      match pushOf nodes e with
      | some kv => KG.mapPush m kv.1 kv.2
      | none => m) []

/-- JS string `<`: lexicographic comparison of the code units. -/
def strLtb : List Char → List Char → Bool
  | [], [] => false
  | [], _ :: _ => true
  | _ :: _, [] => false
  | c :: cs, d :: ds =>
    if c.val < d.val then true
    else if d.val < c.val then false
    else strLtb cs ds

/-- `[id1, id2].sort().join('-')`, kept as an ordered pair (entity ids
contain no `'-'`, so the join/split round-trip is the identity; the
default JS sort compares the two strings code-unit-wise). -/
def pairKey (a b : String) : String × String :=
  if strLtb b.data a.data then (b, a) else (a, b)

/-- Increment the counter stored under `k`, or create it with count 1
(insertion-ordered map with unique keys). -/
def bumpCount : List ((String × String) × Nat) → (String × String) →
    List ((String × String) × Nat)
  | [], k => [(k, 1)]
  | p :: rest, k =>
    if p.1 = k then (p.1, p.2 + 1) :: rest
    else p :: bumpCount rest k

/-- The nested `for i / for j` pair-counting loops over one video's
entity list (already resolved to ids). -/
def foldPairs (m : List ((String × String) × Nat)) :
    List String → List ((String × String) × Nat)
  | [] => m
  | x :: rest => foldPairs (rest.foldl (fun m' y => bumpCount m' (pairKey x y)) m) rest

/-- Resolve a pushed list to entity ids; reading `.id` of a pushed
`undefined` throws. -/
def idsOf : List (Option KG.GNode) → Except Unit (List String)
  | [] => .ok []
  | some n :: rest => (idsOf rest).map (n.id :: ·)
  | none :: _ => .error ()

/-- Pair counting for one video's list: a list with fewer than two
elements is never dereferenced. -/
def countStep (m : List ((String × String) × Nat))
    (l : List (Option KG.GNode)) : Except Unit (List ((String × String) × Nat)) :=
  if l.length < 2 then .ok m
  else (idsOf l).map (foldPairs m)

/-- The whole `cooccurrenceCount` map. -/
def buildCounts (entries : List (String × List (Option KG.GNode))) :
    Except Unit (List ((String × String) × Nat)) :=
  entries.foldlM (fun m p => countStep m p.2) []

/-- One `cooccurrenceEdges.push({...})`. -/
def mkCoEdge (p : (String × String) × Nat) : CoEdge :=
  { source := p.1.1, target := p.1.2, type := "cooccurs",
    similarity := min ((p.2 : ℚ) / 3) 1, weight := p.2,
    reason := "Co-occur in " ++ toString p.2 ++ " video(s)" }

/-- The `connectedNodeIds` set. -/
def connectedNodeIds (edges : List CoEdge) : List String :=
  edges.flatMap (fun e => [e.source, e.target])

/-- `buildCooccurrenceGraph(data)`. -/
def buildCooccurrenceGraph (data : KG.Snapshot) : Except Unit ProjGraph := do
  let entityNodes := data.nodes.filter (fun n => n.type != "video")
  let counts ← buildCounts (entityByVideo data.nodes data.edges)
  let cooccurrenceEdges := counts.map mkCoEdge
  let connected := connectedNodeIds cooccurrenceEdges
  let connectedNodes := entityNodes.filter (fun n => connected.contains n.id)
  .ok { nodes := connectedNodes, edges := cooccurrenceEdges,
        stats := { base := data.stats, nodes := connectedNodes.length,
                   edges := cooccurrenceEdges.length,
                   graphType := "Co-occurrence" } }

end Proj

/-! ## RAG service (`rag.service.js`, `src/unnamed/part_005`) -/

namespace RAG

/-- The stop-word set of `findCommonThemes` (a distinct, shorter set than
the extraction's). -/
def themeStopWords : List String :=
  ["the", "a", "an", "and", "or", "but", "in", "on", "at", "to", "for",
   "of", "with", "by", "from", "as", "is", "are", "was", "were", "been",
   "be", "have", "has", "had", "do", "does", "did", "will", "would",
   "should", "could", "may", "might", "can", "this", "that", "these",
   "those"]

/-- A term-frequency embedding: insertion-ordered `(word, count)` map. -/
abbrev Emb := List (String × Nat)

/-- Increment the frequency of `w`, or append it with count 1
(`frequency[word] = (frequency[word] || 0) + 1`, object keys keep
insertion order). -/
def bumpFreq : Emb → String → Emb
  | [], w => [(w, 1)]
  | (k, c) :: rest, w =>
    if k = w then (k, c + 1) :: rest else (k, c) :: bumpFreq rest w

/-- Stable insertion for the descending sort by count
(`.sort((a, b) => b[1] - a[1])`). -/
def insertByCount (p : String × Nat) : Emb → Emb
  | [] => [p]
  | q :: qs => if q.2 < p.2 then p :: q :: qs else q :: insertByCount p qs

/-- Stable sort by descending count. -/
def sortByCountDesc (l : Emb) : Emb :=
  l.foldr insertByCount []

/-- `generateSimpleEmbedding(text)`: word frequencies of the words of
length > 3, top 100 by frequency. -/
def generateSimpleEmbedding (text : String) : Emb :=
  let words := (splitWs (stripNonWord (toLowerStr text))).filter
    (fun w => w.length > 3)
  let frequency := words.foldl bumpFreq []
  (sortByCountDesc frequency).take 100

/-- The keys of an embedding. -/
def embKeys (e : Emb) : List String := e.map (·.1)

/-- `new Set([...embedding1.keys(), ...embedding2.keys()])`. -/
def allWords (e1 e2 : Emb) : List String :=
  (embKeys e1 ++ embKeys e2).dedup

/-- `embedding.get(word) || 0`. -/
def embVal (e : Emb) (w : String) : Nat :=
  ((e.find? (fun p => p.1 == w)).map (·.2)).getD 0

/-- The `dotProduct` accumulator of `cosineSimilarity`. -/
def dotProduct (e1 e2 : Emb) (ws : List String) : Nat :=
  (ws.map (fun w => embVal e1 w * embVal e2 w)).sum

/-- One of the squared-magnitude accumulators of `cosineSimilarity`. -/
def magSq (e : Emb) (ws : List String) : Nat :=
  (ws.map (fun w => embVal e w * embVal e w)).sum

/-- `cosineSimilarity(embedding1, embedding2)`; JS numbers and
`Math.sqrt` are modelled as exact reals.  The loop accumulates
`dotProduct`, `magnitude1` and `magnitude2` over the union of the two
key sets before the `magnitude === 0` guard and the final division. -/
noncomputable def cosineSimilarity (e1 e2 : Emb) : ℝ :=
  if magSq e1 (allWords e1 e2) = 0 ∨ magSq e2 (allWords e1 e2) = 0 then 0
  else (dotProduct e1 e2 (allWords e1 e2) : ℝ) /
    (Real.sqrt (magSq e1 (allWords e1 e2)) *
      Real.sqrt (magSq e2 (allWords e1 e2)))

/-- First-occurrence deduplication (JS `Set` insertion order). -/
def jsSetAux (seen : List String) : List String → List String
  | [] => []
  | x :: rest =>
    if seen.contains x then jsSetAux seen rest
    else x :: jsSetAux (x :: seen) rest

/-- The `extractKeywords` closure of `findCommonThemes`: stop-word
filtered words of length > 3 from all key points, as a set. -/
def extractKeywords (points : List String) : List String :=
  jsSetAux []
    (points.flatMap (fun point =>
      (splitWs (stripNonWord (toLowerStr point))).filter
        (fun w => w.length > 3 && !(themeStopWords.contains w))))

/-- `findCommonThemes(keyPoints1, keyPoints2)`. -/
def findCommonThemes (keyPoints1 keyPoints2 : List String) : List String :=
  (extractKeywords keyPoints1).filter
    (fun keyword => (extractKeywords keyPoints2).contains keyword)

/-- Indexed content of one video, as read by `buildRelationships`. -/
structure Content where
  title : String
  author : String
  transcription : String
  keyPoints : List String
deriving DecidableEq, Repr

/-- The `summaryJson` argument of `buildRelationships` (`keyPoints`
may be absent). -/
structure Summary where
  keyPoints : Option (List String)
deriving DecidableEq, Repr

/-- A per-document relationship record. -/
structure Rel where
  targetVideoId : String
  title : String
  similarity : ℝ
  type : String
  reason : String
  commonThemes : Option (List String) := none

/-- The in-memory state of the service: the `index` and `embeddings`
maps. -/
structure RAGState where
  index : List (String × Content)
  embeddings : List (String × Emb)

section
open Classical

/-- Insertion step of the final `.sort((a, b) => b.similarity - a.similarity)`. -/
noncomputable def insertBySim (r : Rel) : List Rel → List Rel
  | [] => [r]
  | x :: xs =>
    if x.similarity < r.similarity then r :: x :: xs else x :: insertBySim r xs

/-- Sort a relationship list by non-increasing similarity. -/
noncomputable def sortRels (l : List Rel) : List Rel :=
  l.foldr insertBySim []

/-- The embedding-fallback loop (no key points for this video).
`videoEmbedding` was fetched before the loop and may be `undefined`;
the first `cosineSimilarity(undefined, other)` call throws. -/
noncomputable def embeddingRels (videoId : String) (vemb : Option Emb)
    (embeddings : List (String × Emb)) :
    List (String × Content) → Except Unit (List Rel)
  | [] => .ok []
  | (otherId, otherContent) :: rest =>
    if otherId = videoId then embeddingRels videoId vemb embeddings rest
    else
      match KG.lookup embeddings otherId with
      | none => embeddingRels videoId vemb embeddings rest
      | some otherEmbedding =>
        match vemb with
        | none => .error ()
        | some videoEmbedding =>
          let similarity := cosineSimilarity videoEmbedding otherEmbedding
          (embeddingRels videoId vemb embeddings rest).map (fun tail =>
            (if similarity > 0.3 then
              [{ targetVideoId := otherId, title := otherContent.title,
                 similarity := similarity,
                 type := if similarity > 0.6 then "strong" else "moderate",
                 reason := "Content similarity" }]
             else []) ++ tail)

/-- The records pushed for one other video inside the key-points loop:
compare key points to content (when the other video has no key points)
or key points to key points. -/
noncomputable def keyPointRecs (videoId : String) (videoKeyPoints : List String)
    (videoKeyPointsEmbedding : Emb) (embeddings : List (String × Emb))
    (otherId : String) (otherContent : Content) : List Rel :=
  if otherContent.keyPoints.length = 0 then
    match KG.lookup embeddings otherId with
    | none => []
    | some otherEmbedding =>
      if cosineSimilarity videoKeyPointsEmbedding otherEmbedding > 0.2 then
        [{ targetVideoId := otherId, title := otherContent.title,
           similarity := cosineSimilarity videoKeyPointsEmbedding otherEmbedding,
           type := if cosineSimilarity videoKeyPointsEmbedding otherEmbedding > 0.5
             then "strong" else "moderate",
           reason := "Key points to content similarity" }]
      else []
  else
    if cosineSimilarity videoKeyPointsEmbedding
        (generateSimpleEmbedding (toLowerStr (joinSpace otherContent.keyPoints)))
        > 0.2 ∨
        (findCommonThemes videoKeyPoints otherContent.keyPoints).length > 0 then
      [{ targetVideoId := otherId, title := otherContent.title,
         similarity := max (cosineSimilarity videoKeyPointsEmbedding
           (generateSimpleEmbedding (toLowerStr (joinSpace otherContent.keyPoints))))
           (((findCommonThemes videoKeyPoints otherContent.keyPoints).length : ℝ) * 0.2),
         type := if cosineSimilarity videoKeyPointsEmbedding
             (generateSimpleEmbedding (toLowerStr (joinSpace otherContent.keyPoints)))
             > 0.5 ∨
             (findCommonThemes videoKeyPoints otherContent.keyPoints).length ≥ 2
           then "strong" else "moderate",
         reason := if (findCommonThemes videoKeyPoints otherContent.keyPoints).length > 0
           then "Common themes: " ++ String.intercalate ", "
             ((findCommonThemes videoKeyPoints otherContent.keyPoints).take 3)
           else "Key points similarity",
         commonThemes := some (findCommonThemes videoKeyPoints otherContent.keyPoints) }]
    else []

/-- The key-points loop over the index entries. -/
noncomputable def keyPointRels (videoId : String) (videoKeyPoints : List String)
    (videoKeyPointsEmbedding : Emb) (embeddings : List (String × Emb)) :
    List (String × Content) → List Rel
  | [] => []
  | (otherId, otherContent) :: rest =>
    if otherId = videoId then
      keyPointRels videoId videoKeyPoints videoKeyPointsEmbedding embeddings rest
    else
      keyPointRecs videoId videoKeyPoints videoKeyPointsEmbedding embeddings
        otherId otherContent ++
      keyPointRels videoId videoKeyPoints videoKeyPointsEmbedding embeddings rest

end

/-- The `videoKeyPoints` initialisation of `buildRelationships`:
`if (summaryJson && summaryJson.keyPoints) videoKeyPoints = summaryJson.keyPoints`. -/
def summaryKeyPoints (summaryJson : Option Summary) : List String :=
  match summaryJson with
  | some s => s.keyPoints.getD []
  | none => []

/-- `buildRelationships(videoId, summaryJson)`. -/
noncomputable def buildRelationships (st : RAGState) (videoId : String)
    (summaryJson : Option Summary) : Except Unit (List Rel) :=
  match KG.lookup st.index videoId with
  | none => .ok []
  | some _content =>
    let videoKeyPoints := summaryKeyPoints summaryJson
    if videoKeyPoints.length = 0 then
      (embeddingRels videoId (KG.lookup st.embeddings videoId) st.embeddings
        st.index).map sortRels
    else
      .ok (sortRels (keyPointRels videoId videoKeyPoints
        (generateSimpleEmbedding (toLowerStr (joinSpace videoKeyPoints)))
        st.embeddings st.index))

end RAG

/-! ## Concrete inputs used by witnesses and counterexamples -/

namespace KG

/-- A well-formed stored video with string key points. -/
def sampleVideo (i title : String) (kps : List String) : Video :=
  { id := i, title := title, author := "author", youtubeId := "yt",
    thumbnail := "th", watchStatus := "unwatched", category := none,
    summaryJson := .parsed (some (.jarr (kps.map .str))) }

/-- Two documents; `entity_alpha` is first seen in document 1 and also
mentioned in document 2, next to `entity_beta`. -/
def videosTwoDocs : List Video :=
  [sampleVideo "1" "T1" ["Alpha runs"],
   sampleVideo "2" "T2" ["Alpha and Beta"]]

/-- Three documents giving `entity_alpha` three source documents and
`entity_beta` two. -/
def videosThreeDocs : List Video :=
  [sampleVideo "1" "T1" ["Alpha and Beta"],
   sampleVideo "2" "T2" ["Alpha and Beta"],
   sampleVideo "3" "T3" ["Alpha runs"]]

/-- An entity record with three source documents, as produced by
deduplication of mentions from three videos. -/
def sampleEntityZ : Entity :=
  { id := "entity_z", label := "Z", type := "concept", description := "d",
    sourceVideo := "a", sourceVideoTitle := "T", keyPointIndex := 0,
    sourceVideos := some ["a", "b", "c"] }

/-- A stored video whose `summaryJson` parses to
`{"keyPoints": "abc"}`: the `keyPoints` value is a non-empty string,
not an array. -/
def videoStringKeyPoints : Video :=
  { id := "9", title := "Bad", author := "author", youtubeId := "yt",
    thumbnail := "th", watchStatus := "unwatched", category := none,
    summaryJson := .parsed (some (.jstr "abc")) }

end KG

namespace Proj

/-- Specification-level pair tally: how often the unordered pair `k` is
counted across the per-document association lists. -/
def pairTally (lists : List (List String)) (k : String × String) : Nat :=
  (lists.map (fun l => (KG.listPairs l).countP (fun p => pairKey p.1 p.2 == k))).sum

/-- The per-document association lists of a snapshot, resolved to
entity ids (in map insertion order). -/
def assocIdLists (data : KG.Snapshot) : Except Unit (List (List String)) :=
  (entityByVideo data.nodes data.edges).mapM (fun p => idsOf p.2)

end Proj

namespace RAG

/-- A key-point list sharing six long keywords with itself. -/
def themesKeyPoints : List String :=
  ["quantum neural tensor graph vector matrix"]

/-- Indexed content holding `themesKeyPoints`. -/
def themesContent : Content :=
  { title := "T", author := "A", transcription := "t",
    keyPoints := themesKeyPoints }

/-- Two indexed videos with identical six-keyword key points. -/
def themesState : RAGState :=
  { index := [("v1", themesContent), ("v2", themesContent)],
    embeddings := [] }

/-- Indexed content with the single key point `"quantum"`. -/
def quantumContent : Content :=
  { title := "Q", author := "A", transcription := "t",
    keyPoints := ["quantum"] }

/-- Two indexed videos with the identical key point `"quantum"`. -/
def quantumState : RAGState :=
  { index := [("v1", quantumContent), ("v2", quantumContent)],
    embeddings := [] }

end RAG

/-! ## Association-map lemmas -/

namespace KG

theorem lookup_nil {κ α : Type} [DecidableEq κ] (k : κ) :
    lookup ([] : List (κ × α)) k = none := rfl

theorem lookup_cons {κ α : Type} [DecidableEq κ] (p : κ × α)
    (rest : List (κ × α)) (k : κ) :
    lookup (p :: rest) k = if p.1 = k then some p.2 else lookup rest k := by
  by_cases h : p.1 = k
  · simp [lookup, List.find?_cons_of_pos, h]
  · simp [lookup, List.find?_cons_of_neg, h]

theorem mem_of_lookup_eq_some {κ α : Type} [DecidableEq κ]
    {m : List (κ × α)} {k : κ} {x : α} (h : lookup m k = some x) :
    (k, x) ∈ m := by
  induction m with
  | nil => simp [lookup_nil] at h
  | cons p rest ih =>
    rw [lookup_cons] at h
    by_cases hk : p.1 = k
    · rw [if_pos hk] at h
      obtain ⟨p1, p2⟩ := p
      injection h with h2
      subst h2
      subst hk
      exact List.mem_cons_self _ _
    · rw [if_neg hk] at h
      exact List.mem_cons_of_mem _ (ih h)

theorem lookup_mapPush {κ α : Type} [DecidableEq κ] (m : List (κ × List α))
    (k k' : κ) (x : α) :
    lookup (mapPush m k x) k' =
      if k' = k then some (lookupL m k ++ [x]) else lookup m k' := by
  induction m with
  | nil =>
    simp only [mapPush]
    rw [lookup_cons]
    by_cases h : k' = k
    · subst h; simp [lookupL, lookup_nil]
    · rw [if_neg (fun hh => h hh.symm), if_neg h, lookup_nil]
  | cons p rest ih =>
    simp only [mapPush]
    by_cases hp : p.1 = k
    · rw [if_pos hp, lookup_cons]
      by_cases h : k' = k
      · subst h
        rw [if_pos hp, if_pos rfl, lookupL, lookup_cons, if_pos hp]
        rfl
      · have hp' : ¬ p.1 = k' := fun hh => h ((hp.symm.trans hh).symm)
        rw [if_neg hp', if_neg h, lookup_cons, if_neg hp']
    · rw [if_neg hp, lookup_cons]
      by_cases h : k' = k
      · subst h
        have hp' : ¬ p.1 = k' := hp
        rw [if_neg hp', ih, if_pos rfl, if_pos rfl]
        simp [lookupL, lookup_cons, hp']
      · by_cases hp2 : p.1 = k'
        · rw [if_pos hp2, if_neg h, lookup_cons, if_pos hp2]
        · rw [if_neg hp2, ih, if_neg h, if_neg h, lookup_cons, if_neg hp2]

theorem lookupL_mapPush {κ α : Type} [DecidableEq κ] (m : List (κ × List α))
    (k k' : κ) (x : α) :
    lookupL (mapPush m k x) k' =
      if k' = k then lookupL m k ++ [x] else lookupL m k' := by
  unfold lookupL
  rw [lookup_mapPush]
  by_cases h : k' = k
  · rw [if_pos h, if_pos h]; rfl
  · rw [if_neg h, if_neg h]

end KG

/-! ## `listPairs` lemmas -/

namespace KG

theorem mem_of_mem_listPairs {α : Type} {l : List α} {p : α × α}
    (h : p ∈ listPairs l) : p.1 ∈ l ∧ p.2 ∈ l := by
  induction l with
  | nil => simp [listPairs] at h
  | cons x rest ih =>
    rcases List.mem_append.1 h with h1 | h2
    · rcases List.mem_map.1 h1 with ⟨y, hy, hp⟩
      subst hp
      exact ⟨List.mem_cons_self _ _, List.mem_cons_of_mem _ hy⟩
    · exact ⟨List.mem_cons_of_mem _ (ih h2).1, List.mem_cons_of_mem _ (ih h2).2⟩

theorem listPairs_of_mem {α : Type} {l : List α} {a b : α}
    (ha : a ∈ l) (hb : b ∈ l) (hab : a ≠ b) :
    (a, b) ∈ listPairs l ∨ (b, a) ∈ listPairs l := by
  induction l with
  | nil => simp at ha
  | cons x rest ih =>
    rcases List.mem_cons.1 ha with rfl | ha'
    · have hb' : b ∈ rest := by
        rcases List.mem_cons.1 hb with rfl | hb'
        · exact absurd rfl hab
        · exact hb'
      exact Or.inl (List.mem_append_left _ (List.mem_map.2 ⟨b, hb', rfl⟩))
    · rcases List.mem_cons.1 hb with rfl | hb'
      · exact Or.inr (List.mem_append_left _ (List.mem_map.2 ⟨a, ha', rfl⟩))
      · rcases ih ha' hb' with h | h
        · exact Or.inl (List.mem_append_right _ h)
        · exact Or.inr (List.mem_append_right _ h)

theorem ne_of_mem_listPairs {α : Type} {l : List α} (hl : l.Nodup)
    {p : α × α} (h : p ∈ listPairs l) : p.1 ≠ p.2 := by
  induction l with
  | nil => simp [listPairs] at h
  | cons x rest ih =>
    rcases List.mem_append.1 h with h1 | h2
    · rcases List.mem_map.1 h1 with ⟨y, hy, hp⟩
      subst hp
      intro hxy
      apply (List.nodup_cons.1 hl).1
      rw [show x = y from hxy]
      exact hy
    · exact ih (List.nodup_cons.1 hl).2 h2

theorem listPairs_length {α : Type} (l : List α) :
    2 * (listPairs l).length + l.length = l.length * l.length := by
  induction l with
  | nil => rfl
  | cons x rest ih =>
    simp only [listPairs, List.length_append, List.length_map, List.length_cons]
    calc 2 * (rest.length + (listPairs rest).length) + (rest.length + 1)
        = (2 * (listPairs rest).length + rest.length) + (2 * rest.length + 1) := by
          ring
      _ = rest.length * rest.length + (2 * rest.length + 1) := by rw [ih]
      _ = (rest.length + 1) * (rest.length + 1) := by ring

theorem listPairs_length_pred {α : Type} (l : List α) :
    2 * (listPairs l).length = l.length * (l.length - 1) := by
  rcases l with _ | ⟨x, rest⟩
  · rfl
  · have h := listPairs_length (x :: rest)
    have hl : (x :: rest).length = rest.length + 1 := rfl
    rw [hl] at h ⊢
    rw [Nat.add_sub_cancel]
    have h2 : (rest.length + 1) * (rest.length + 1) =
        (rest.length + 1) * rest.length + (rest.length + 1) := by ring
    omega

end KG

/-! ## Deduplication lemmas -/

namespace KG

theorem mergeInto_id (x e : Entity) : (mergeInto x e).id = x.id := rfl

theorem mergeInto_type (x e : Entity) : (mergeInto x e).type = x.type := rfl

theorem mergeInto_sourceVideo (x e : Entity) :
    (mergeInto x e).sourceVideo = x.sourceVideo := rfl

theorem mergeInto_keyPointIndex (x e : Entity) :
    (mergeInto x e).keyPointIndex = x.keyPointIndex := rfl

theorem sourceDocs_mergeInto (x e : Entity) :
    sourceDocs (mergeInto x e) =
      if e.sourceVideo ∈ sourceDocs x then sourceDocs x
      else sourceDocs x ++ [e.sourceVideo] := by
  simp only [mergeInto, sourceDocs, Option.getD_some, List.contains]
  by_cases h : e.sourceVideo ∈ x.sourceVideos.getD [x.sourceVideo]
  · rw [if_pos ((List.elem_iff).2 h), if_pos h]
  · rw [if_neg (fun hh => h ((List.elem_iff).1 hh)), if_neg h]

theorem mem_sourceDocs_mergeInto (x e : Entity) (v : String) :
    v ∈ sourceDocs (mergeInto x e) ↔ v ∈ sourceDocs x ∨ v = e.sourceVideo := by
  rw [sourceDocs_mergeInto]
  by_cases h : e.sourceVideo ∈ sourceDocs x
  · rw [if_pos h]
    constructor
    · exact fun hv => Or.inl hv
    · rintro (hv | rfl)
      · exact hv
      · exact h
  · rw [if_neg h]
    simp [List.mem_append]

theorem sourceDocs_nodup_mergeInto (x e : Entity)
    (h : (sourceDocs x).Nodup) : (sourceDocs (mergeInto x e)).Nodup := by
  rw [sourceDocs_mergeInto]
  by_cases hc : e.sourceVideo ∈ sourceDocs x
  · rwa [if_pos hc]
  · rw [if_neg hc]
    simp [List.nodup_append, h, hc]

theorem mem_dedupStep {acc : List Entity} {m e' : Entity}
    (h : e' ∈ dedupStep acc m) :
    (∃ x ∈ acc, e' = x ∨ (x.id = m.id ∧ e' = mergeInto x m)) ∨ e' = m := by
  unfold dedupStep at h
  split at h
  · rcases List.mem_map.1 h with ⟨x, hx, he⟩
    left
    refine ⟨x, hx, ?_⟩
    by_cases hid : x.id == m.id
    · rw [if_pos hid] at he
      exact Or.inr ⟨eq_of_beq hid, he.symm⟩
    · rw [if_neg hid] at he
      exact Or.inl he.symm
  · rcases List.mem_append.1 h with h1 | h2
    · left; exact ⟨e', h1, Or.inl rfl⟩
    · right; exact (List.mem_singleton.1 h2)

theorem mem_foldl_dedupStep_pred (P : Entity → Prop)
    (hmerge : ∀ x m, P x → P m → P (mergeInto x m)) :
    ∀ (l acc : List Entity), (∀ x ∈ acc, P x) → (∀ m ∈ l, P m) →
      ∀ e ∈ l.foldl dedupStep acc, P e := by
  intro l
  induction l with
  | nil => exact fun acc hacc _ e he => hacc e he
  | cons m rest ih =>
    intro acc hacc hl e he
    rw [List.foldl_cons] at he
    refine ih (dedupStep acc m) ?_ (fun m' hm' => hl m' (List.mem_cons_of_mem _ hm')) e he
    intro x hx
    rcases mem_dedupStep hx with ⟨y, hy, heq | ⟨_, heq⟩⟩ | heq
    · rw [heq]; exact hacc y hy
    · rw [heq]; exact hmerge y m (hacc y hy) (hl m (List.mem_cons_self _ _))
    · rw [heq]; exact hl m (List.mem_cons_self _ _)

theorem mem_dedup_pred (P : Entity → Prop)
    (hmerge : ∀ x m, P x → P m → P (mergeInto x m))
    (l : List Entity) (hl : ∀ m ∈ l, P m) :
    ∀ e ∈ deduplicateEntities l, P e :=
  mem_foldl_dedupStep_pred P hmerge l [] (by simp) hl

theorem dedupStep_id_iff (acc : List Entity) (m : Entity) (k : String) :
    (∃ e ∈ dedupStep acc m, e.id = k) ↔
      (∃ e ∈ acc, e.id = k) ∨ m.id = k := by
  constructor
  · rintro ⟨e, he, rfl⟩
    rcases mem_dedupStep he with ⟨y, hy, heq | ⟨_, heq⟩⟩ | heq
    · exact Or.inl ⟨y, hy, by rw [heq]⟩
    · exact Or.inl ⟨y, hy, by rw [heq, mergeInto_id]⟩
    · exact Or.inr (by rw [heq])
  · unfold dedupStep
    rintro (⟨e, he, rfl⟩ | hm)
    · split
      · refine ⟨if e.id == m.id then mergeInto e m else e, List.mem_map.2 ⟨e, he, rfl⟩, ?_⟩
        by_cases hid : e.id == m.id
        · rw [if_pos hid, mergeInto_id]
        · rw [if_neg hid]
      · exact ⟨e, List.mem_append_left _ he, rfl⟩
    · split
      next hany =>
        rcases List.any_eq_true.1 hany with ⟨x, hx, hxid⟩
        refine ⟨if x.id == m.id then mergeInto x m else x, List.mem_map.2 ⟨x, hx, rfl⟩, ?_⟩
        rw [if_pos hxid, mergeInto_id]
        exact (eq_of_beq hxid).trans hm
      next =>
        exact ⟨m, List.mem_append_right _ (List.mem_singleton.2 rfl), hm⟩

theorem foldl_dedupStep_id_iff (l : List Entity) (acc : List Entity) (k : String) :
    (∃ e ∈ l.foldl dedupStep acc, e.id = k) ↔
      (∃ e ∈ acc, e.id = k) ∨ ∃ m ∈ l, m.id = k := by
  induction l generalizing acc with
  | nil => simp
  | cons m rest ih =>
    rw [List.foldl_cons, ih, dedupStep_id_iff]
    simp only [List.mem_cons]
    constructor
    · rintro ((h | h) | h)
      · exact Or.inl h
      · exact Or.inr ⟨m, Or.inl rfl, h⟩
      · rcases h with ⟨m', hm', hk⟩
        exact Or.inr ⟨m', Or.inr hm', hk⟩
    · rintro (h | ⟨m', hm' | hm', hk⟩)
      · exact Or.inl (Or.inl h)
      · exact Or.inl (Or.inr (hm' ▸ hk))
      · exact Or.inr ⟨m', hm', hk⟩

theorem dedup_id_iff (l : List Entity) (k : String) :
    (∃ e ∈ deduplicateEntities l, e.id = k) ↔ ∃ m ∈ l, m.id = k := by
  rw [deduplicateEntities, foldl_dedupStep_id_iff]
  simp

theorem dedupStep_map_id_of_any (acc : List Entity) (m : Entity)
    (h : acc.any (fun x => x.id == m.id) = true) :
    (dedupStep acc m).map Entity.id = acc.map Entity.id := by
  unfold dedupStep
  rw [if_pos h, List.map_map]
  refine List.map_congr_left ?_
  intro x _
  by_cases hid : x.id == m.id
  · simp only [Function.comp_apply, if_pos hid, mergeInto_id]
  · simp only [Function.comp_apply, if_neg hid]

theorem dedupStep_ids_nodup (acc : List Entity) (m : Entity)
    (h : (acc.map Entity.id).Nodup) :
    ((dedupStep acc m).map Entity.id).Nodup := by
  by_cases hany : acc.any (fun x => x.id == m.id) = true
  · rwa [dedupStep_map_id_of_any acc m hany]
  · unfold dedupStep
    rw [if_neg hany, List.map_append]
    simp only [List.map_cons, List.map_nil]
    rw [List.nodup_append]
    refine ⟨h, List.nodup_singleton _, ?_⟩
    intro a ha hb
    rcases List.mem_map.1 ha with ⟨x, hx, rfl⟩
    have hxm := List.mem_singleton.1 hb
    exact hany (List.any_eq_true.2 ⟨x, hx, beq_iff_eq.2 hxm⟩)

theorem foldl_dedupStep_ids_nodup (l acc : List Entity)
    (h : (acc.map Entity.id).Nodup) :
    (((l.foldl dedupStep acc)).map Entity.id).Nodup := by
  induction l generalizing acc with
  | nil => exact h
  | cons m rest ih => exact ih _ (dedupStep_ids_nodup acc m h)

theorem dedup_ids_nodup (l : List Entity) :
    ((deduplicateEntities l).map Entity.id).Nodup :=
  foldl_dedupStep_ids_nodup l [] (by simp)

theorem dedupStep_docs_iff (acc : List Entity) (m : Entity) (k v : String)
    (hm : sourceDocs m = [m.sourceVideo]) :
    (∃ e ∈ dedupStep acc m, e.id = k ∧ v ∈ sourceDocs e) ↔
      (∃ e ∈ acc, e.id = k ∧ v ∈ sourceDocs e) ∨
        (m.id = k ∧ m.sourceVideo = v) := by
  constructor
  · rintro ⟨e, he, hk, hv⟩
    rcases mem_dedupStep he with ⟨y, hy, heq | ⟨hyid, heq⟩⟩ | heq
    · rw [heq] at hk hv
      exact Or.inl ⟨y, hy, hk, hv⟩
    · rw [heq] at hk hv
      rw [mergeInto_id] at hk
      rcases (mem_sourceDocs_mergeInto y m v).1 hv with hv' | hveq
      · exact Or.inl ⟨y, hy, hk, hv'⟩
      · exact Or.inr ⟨hyid.symm.trans hk, hveq.symm⟩
    · rw [heq] at hk hv
      rw [hm] at hv
      exact Or.inr ⟨hk, (List.mem_singleton.1 hv).symm⟩
  · unfold dedupStep
    rintro (⟨e, he, hk, hv⟩ | ⟨hk, hv⟩)
    · split
      · refine ⟨if e.id == m.id then mergeInto e m else e,
          List.mem_map.2 ⟨e, he, rfl⟩, ?_⟩
        by_cases hid : e.id == m.id
        · rw [if_pos hid, mergeInto_id]
          exact ⟨hk, (mem_sourceDocs_mergeInto e m v).2 (Or.inl hv)⟩
        · rw [if_neg hid]
          exact ⟨hk, hv⟩
      · exact ⟨e, List.mem_append_left _ he, hk, hv⟩
    · split
      next hany =>
        rcases List.any_eq_true.1 hany with ⟨x, hx, hxid⟩
        refine ⟨if x.id == m.id then mergeInto x m else x,
          List.mem_map.2 ⟨x, hx, rfl⟩, ?_⟩
        rw [if_pos hxid, mergeInto_id]
        refine ⟨(eq_of_beq hxid).trans hk, ?_⟩
        exact (mem_sourceDocs_mergeInto x m v).2 (Or.inr hv.symm)
      next =>
        refine ⟨m, List.mem_append_right _ (List.mem_singleton.2 rfl), hk, ?_⟩
        rw [hm]
        exact List.mem_singleton.2 hv.symm

theorem foldl_dedupStep_docs_iff (l acc : List Entity) (k v : String)
    (hl : ∀ m ∈ l, sourceDocs m = [m.sourceVideo]) :
    (∃ e ∈ l.foldl dedupStep acc, e.id = k ∧ v ∈ sourceDocs e) ↔
      (∃ e ∈ acc, e.id = k ∧ v ∈ sourceDocs e) ∨
        ∃ m ∈ l, m.id = k ∧ m.sourceVideo = v := by
  induction l generalizing acc with
  | nil => simp
  | cons m rest ih =>
    rw [List.foldl_cons,
      ih _ (fun m' hm' => hl m' (List.mem_cons_of_mem _ hm')),
      dedupStep_docs_iff acc m k v (hl m (List.mem_cons_self _ _))]
    simp only [List.mem_cons]
    constructor
    · rintro ((h | h) | h)
      · exact Or.inl h
      · exact Or.inr ⟨m, Or.inl rfl, h⟩
      · rcases h with ⟨m', hm', hk⟩
        exact Or.inr ⟨m', Or.inr hm', hk⟩
    · rintro (h | ⟨m', hm' | hm', hk⟩)
      · exact Or.inl (Or.inl h)
      · exact Or.inl (Or.inr (hm' ▸ hk))
      · exact Or.inr ⟨m', hm', hk⟩

theorem dedup_docs_iff (l : List Entity) (k v : String)
    (hl : ∀ m ∈ l, sourceDocs m = [m.sourceVideo]) :
    (∃ e ∈ deduplicateEntities l, e.id = k ∧ v ∈ sourceDocs e) ↔
      ∃ m ∈ l, m.id = k ∧ m.sourceVideo = v := by
  rw [deduplicateEntities, foldl_dedupStep_docs_iff l [] k v hl]
  simp

end KG

/-! ## Grouping lemmas for `buildEntityRelationships` -/

namespace KG

theorem lookupL_foldl_mapPush {β : Type} (f : β → String) (l : List β)
    (m0 : List (String × List β)) (k : String) :
    lookupL (l.foldl (fun m e => mapPush m (f e) e) m0) k =
      lookupL m0 k ++ l.filter (fun e => f e = k) := by
  induction l generalizing m0 with
  | nil => simp
  | cons e rest ih =>
    rw [List.foldl_cons, ih, lookupL_mapPush]
    by_cases h : k = f e
    · rw [if_pos h, List.filter_cons, if_pos (by simp [h])]
      subst h
      simp
    · have hne : ¬ f e = k := fun hh => h hh.symm
      rw [if_neg h, List.filter_cons, if_neg (by simpa using hne)]

theorem entitiesByVideo_lookupL (entities : List Entity) (v : String) :
    lookupL (entitiesByVideo entities) v =
      entities.filter (fun e => e.sourceVideo = v) := by
  have h := lookupL_foldl_mapPush Entity.sourceVideo entities [] v
  rw [entitiesByVideo]
  rw [show (fun (m : List (String × List Entity)) (e : Entity) =>
    mapPush m e.sourceVideo e) = fun m e => mapPush m (Entity.sourceVideo e) e
    from rfl]
  rw [h]
  simp [lookupL, lookup_nil]

theorem mem_entitiesByVideo (entities : List Entity) (v : String)
    (h : entities.filter (fun e => e.sourceVideo = v) ≠ []) :
    (v, entities.filter (fun e => e.sourceVideo = v)) ∈ entitiesByVideo entities := by
  have hl := entitiesByVideo_lookupL entities v
  rcases hlk : lookup (entitiesByVideo entities) v with _ | x
  · rw [lookupL, hlk] at hl
    exact absurd hl.symm h
  · rw [lookupL, hlk] at hl
    rw [Option.getD_some] at hl
    rw [← hl]
    exact mem_of_lookup_eq_some hlk

theorem cooc_edge_mem (entities : List Entity) (v : String) (e1 e2 : Entity)
    (hpair : (e1, e2) ∈ listPairs (entities.filter (fun e => e.sourceVideo = v)))
    (d : Nat) (hd : d = ((e1.keyPointIndex : ℤ) - e2.keyPointIndex).natAbs)
    (hle : d ≤ 2) :
    ({ source := e1.id, target := e2.id, type := "co-occurs",
       weight := 1 / ((d : ℚ) + 1), context := some v } : Edge) ∈
      buildEntityRelationships entities := by
  have hne : entities.filter (fun e => e.sourceVideo = v) ≠ [] := by
    intro hnil
    rw [hnil] at hpair
    simp [listPairs] at hpair
  apply List.mem_append_left
  apply List.mem_flatMap.2
  refine ⟨(v, entities.filter (fun e => e.sourceVideo = v)),
    mem_entitiesByVideo entities v hne, ?_⟩
  apply List.mem_filterMap.2
  refine ⟨(e1, e2), hpair, ?_⟩
  rw [← hd, if_pos hle]

end KG

/-! ## Claim C1 -/

/-- C1 (counterexample): in the two-document input `videosTwoDocs`,
`entity_alpha` and `entity_beta` are both mentioned in document 2 at
key-point index 0 (distance 0 ≤ 2), yet the assembled graph contains
no edge at all between them in either direction (in particular no
co-occurs edge): the builder groups each deduplicated entity only
under its first-seen document, and `entity_alpha` was first seen in
document 1. -/
theorem c1_counterexample :
    ((KG.extractEntitiesFromKeyPoints ["Alpha and Beta"] "2" "T2").any
      (fun e => e.id == "entity_alpha" && e.keyPointIndex == 0) = true)
  ∧ ((KG.extractEntitiesFromKeyPoints ["Alpha and Beta"] "2" "T2").any
      (fun e => e.id == "entity_beta" && e.keyPointIndex == 0) = true)
  ∧ (KG.buildGraphFromVideos KG.videosTwoDocs).map (fun s => s.edges.any
      (fun e =>
        ((e.source == "entity_alpha" && e.target == "entity_beta") ||
         (e.source == "entity_beta" && e.target == "entity_alpha")))) =
      .ok false :=
  ⟨by decide, by decide, by decide⟩

/-- C1 (amended): co-occurrence edges are emitted per pair of
deduplicated entity records grouped under the record's first-seen
source document (`entity.sourceVideo`), using each record's first-seen
key-point index: for every pair of records grouped under document `v`
(first one listed before the second) whose key-point-index distance is
at most 2, the relationship builder emits a co-occurs edge from the
first to the second with weight `1 / (distance + 1)`. -/
theorem c1_amended (entities : List KG.Entity) (v : String)
    (e1 e2 : KG.Entity)
    (hpair : (e1, e2) ∈ KG.listPairs
      (entities.filter (fun e => e.sourceVideo = v)))
    (d : Nat) (hd : d = ((e1.keyPointIndex : ℤ) - e2.keyPointIndex).natAbs)
    (hle : d ≤ 2) :
    ({ source := e1.id, target := e2.id, type := "co-occurs",
       weight := 1 / ((d : ℚ) + 1), context := some v } : KG.Edge) ∈
      KG.buildEntityRelationships entities :=
  KG.cooc_edge_mem entities v e1 e2 hpair d hd hle

/-- Witness for C1 (amended) at a concrete two-entity input. -/
theorem c1_witness :
    ((KG.mkMention "entity_x" "X" "concept" "d1" "v1" "T1" 0,
      KG.mkMention "entity_y" "Y" "concept" "d2" "v1" "T1" 1) ∈ KG.listPairs
        (([KG.mkMention "entity_x" "X" "concept" "d1" "v1" "T1" 0,
           KG.mkMention "entity_y" "Y" "concept" "d2" "v1" "T1" 1]).filter
          (fun e => e.sourceVideo = "v1")))
  ∧ ({ source := "entity_x", target := "entity_y", type := "co-occurs",
       weight := 1 / ((1 : ℚ) + 1), context := some "v1" } : KG.Edge) ∈
      KG.buildEntityRelationships
        [KG.mkMention "entity_x" "X" "concept" "d1" "v1" "T1" 0,
         KG.mkMention "entity_y" "Y" "concept" "d2" "v1" "T1" 1] :=
  ⟨by decide,
   c1_amended
     [KG.mkMention "entity_x" "X" "concept" "d1" "v1" "T1" 0,
      KG.mkMention "entity_y" "Y" "concept" "d2" "v1" "T1" 1] "v1"
     (KG.mkMention "entity_x" "X" "concept" "d1" "v1" "T1" 0)
     (KG.mkMention "entity_y" "Y" "concept" "d2" "v1" "T1" 1)
     (by decide) 1 (by decide) (by decide)⟩

/-! ## Claim C2 -/

/-- C2 (counterexample): resolution is not order-independent in entity
`type`: the two raw mentions of `entity_alpha` extracted from
`"Alpha feature"` (typed `feature`) and `"Alpha tool"` (typed `tool`)
resolve to a record whose type depends on the arrival order. -/
theorem c2_counterexample :
    ((KG.extractEntitiesFromKeyPoints ["Alpha feature"] "d1" "T1") ++
     (KG.extractEntitiesFromKeyPoints ["Alpha tool"] "d2" "T2")).Perm
      ((KG.extractEntitiesFromKeyPoints ["Alpha tool"] "d2" "T2") ++
       (KG.extractEntitiesFromKeyPoints ["Alpha feature"] "d1" "T1"))
  ∧ (KG.deduplicateEntities
      ((KG.extractEntitiesFromKeyPoints ["Alpha feature"] "d1" "T1") ++
       (KG.extractEntitiesFromKeyPoints ["Alpha tool"] "d2" "T2"))).map
        KG.Entity.type = ["feature"]
  ∧ (KG.deduplicateEntities
      ((KG.extractEntitiesFromKeyPoints ["Alpha tool"] "d2" "T2") ++
       (KG.extractEntitiesFromKeyPoints ["Alpha feature"] "d1" "T1"))).map
        KG.Entity.type = ["tool"]
  ∧ ("feature" : String) ≠ "tool" :=
  ⟨by decide, by decide, by decide, by decide⟩

/-- C2 (amended): resolving the same multiset of raw mentions in any
two input orders produces entity sets with duplicate-free and
identical id sets, and, per id, identical source-document sets; the
resolved `type` (and the accumulated description text) follow the
first-seen mention and may differ between orders. -/
theorem c2_amended (l₁ l₂ : List KG.Entity) (hperm : l₁.Perm l₂)
    (hraw : ∀ m ∈ l₁, KG.sourceDocs m = [m.sourceVideo]) :
    (((KG.deduplicateEntities l₁).map KG.Entity.id).Nodup ∧
     ((KG.deduplicateEntities l₂).map KG.Entity.id).Nodup) ∧
    ∀ k : String,
      ((∃ e ∈ KG.deduplicateEntities l₁, e.id = k) ↔
        (∃ e ∈ KG.deduplicateEntities l₂, e.id = k)) ∧
      ∀ v : String,
        ((∃ e ∈ KG.deduplicateEntities l₁, e.id = k ∧ v ∈ KG.sourceDocs e) ↔
          (∃ e ∈ KG.deduplicateEntities l₂, e.id = k ∧ v ∈ KG.sourceDocs e)) := by
  have hraw₂ : ∀ m ∈ l₂, KG.sourceDocs m = [m.sourceVideo] :=
    fun m hm => hraw m (hperm.mem_iff.2 hm)
  refine ⟨⟨KG.dedup_ids_nodup l₁, KG.dedup_ids_nodup l₂⟩, fun k => ⟨?_, fun v => ?_⟩⟩
  · rw [KG.dedup_id_iff, KG.dedup_id_iff]
    constructor
    · rintro ⟨m, hm, hk⟩
      exact ⟨m, hperm.mem_iff.1 hm, hk⟩
    · rintro ⟨m, hm, hk⟩
      exact ⟨m, hperm.mem_iff.2 hm, hk⟩
  · rw [KG.dedup_docs_iff l₁ k v hraw, KG.dedup_docs_iff l₂ k v hraw₂]
    constructor
    · rintro ⟨m, hm, hk⟩
      exact ⟨m, hperm.mem_iff.1 hm, hk⟩
    · rintro ⟨m, hm, hk⟩
      exact ⟨m, hperm.mem_iff.2 hm, hk⟩

/-- Witness for C2 (amended) at a concrete two-mention input. -/
theorem c2_witness :
    (([KG.mkMention "entity_x" "X" "feature" "da" "v1" "T1" 0,
       KG.mkMention "entity_x" "X" "tool" "db" "v2" "T2" 0]).Perm
      ([KG.mkMention "entity_x" "X" "tool" "db" "v2" "T2" 0,
        KG.mkMention "entity_x" "X" "feature" "da" "v1" "T1" 0]) ∧
     (∀ m ∈ [KG.mkMention "entity_x" "X" "feature" "da" "v1" "T1" 0,
             KG.mkMention "entity_x" "X" "tool" "db" "v2" "T2" 0],
        KG.sourceDocs m = [m.sourceVideo]))
  ∧ ((((KG.deduplicateEntities
        [KG.mkMention "entity_x" "X" "feature" "da" "v1" "T1" 0,
         KG.mkMention "entity_x" "X" "tool" "db" "v2" "T2" 0]).map
          KG.Entity.id).Nodup ∧
      ((KG.deduplicateEntities
        [KG.mkMention "entity_x" "X" "tool" "db" "v2" "T2" 0,
         KG.mkMention "entity_x" "X" "feature" "da" "v1" "T1" 0]).map
          KG.Entity.id).Nodup) ∧
     ∀ k : String,
      ((∃ e ∈ KG.deduplicateEntities
          [KG.mkMention "entity_x" "X" "feature" "da" "v1" "T1" 0,
           KG.mkMention "entity_x" "X" "tool" "db" "v2" "T2" 0], e.id = k) ↔
        (∃ e ∈ KG.deduplicateEntities
          [KG.mkMention "entity_x" "X" "tool" "db" "v2" "T2" 0,
           KG.mkMention "entity_x" "X" "feature" "da" "v1" "T1" 0], e.id = k)) ∧
      ∀ v : String,
        ((∃ e ∈ KG.deduplicateEntities
            [KG.mkMention "entity_x" "X" "feature" "da" "v1" "T1" 0,
             KG.mkMention "entity_x" "X" "tool" "db" "v2" "T2" 0],
            e.id = k ∧ v ∈ KG.sourceDocs e) ↔
          (∃ e ∈ KG.deduplicateEntities
            [KG.mkMention "entity_x" "X" "tool" "db" "v2" "T2" 0,
             KG.mkMention "entity_x" "X" "feature" "da" "v1" "T1" 0],
            e.id = k ∧ v ∈ KG.sourceDocs e))) :=
  ⟨⟨by decide, by decide⟩, c2_amended _ _ (by decide) (by decide)⟩

/-! ## Claim C8 -/

/-- C8: the claim says extraction never throws and a malformed
key-points value contributes zero mentions without aborting the
rebuild; but on a stored summary that parses to
`{"keyPoints": "abc"}` (a truthy, non-array value with positive
`.length`) the extraction reaches `keyPoints.forEach` and throws a
`TypeError`, aborting the whole `buildGraphFromVideos` call. -/
theorem c8_code_divergence :
    KG.buildGraphFromVideos [KG.videoStringKeyPoints] = .error () := by
  decide

/-! ## Appears-in edge counting lemmas -/

namespace KG

theorem video_prefix_cancel (a b : String) :
    ("video_" ++ a : String) = "video_" ++ b ↔ a = b := by
  constructor
  · intro h
    have hd := congrArg String.data h
    simp only [String.data_append] at hd
    exact String.ext (List.append_cancel_left hd)
  · rintro rfl; rfl

theorem crossVideoEdges_some (e : Entity) {svs : List String}
    (hsv : e.sourceVideos = some svs) :
    crossVideoEdges e =
      if svs.length > 1 then
        (listPairs svs).flatMap (fun p => [appearsInEdge e p.1, appearsInEdge e p.2])
      else [] := by
  unfold crossVideoEdges
  rw [hsv]

theorem crossVideoEdges_none (e : Entity) (hsv : e.sourceVideos = none) :
    crossVideoEdges e = [] := by
  unfold crossVideoEdges
  rw [hsv]

theorem mem_appearsInEdge_fields (e : Entity) {svs : List String}
    (hsv : e.sourceVideos = some svs) {ed : Edge}
    (hed : ed ∈ crossVideoEdges e) :
    ed.source = e.id ∧ ed.type = "appears-in" ∧ ed.weight = 8/10 ∧
      ∃ v ∈ svs, ed.target = "video_" ++ v := by
  rw [crossVideoEdges_some e hsv] at hed
  by_cases hlen : svs.length > 1
  · rw [if_pos hlen] at hed
    rcases List.mem_flatMap.1 hed with ⟨p, hp, hin⟩
    have hmem := mem_of_mem_listPairs hp
    rcases List.mem_cons.1 hin with h1 | h1
    · subst h1
      exact ⟨rfl, rfl, rfl, p.1, hmem.1, rfl⟩
    · have h2 := List.mem_singleton.1 h1
      subst h2
      exact ⟨rfl, rfl, rfl, p.2, hmem.2, rfl⟩
  · rw [if_neg hlen] at hed
    simp at hed

theorem crossVideoEdges_length (e : Entity) {svs : List String}
    (hsv : e.sourceVideos = some svs) (hlen : 1 < svs.length) :
    (crossVideoEdges e).length = svs.length * (svs.length - 1) := by
  rw [crossVideoEdges_some e hsv, if_pos hlen, List.length_flatMap]
  have hmap : List.map (List.length ∘ fun p : String × String =>
      [appearsInEdge e p.1, appearsInEdge e p.2]) (listPairs svs) =
      List.replicate (listPairs svs).length 2 := by
    rw [← List.map_const]
    exact List.map_congr_left (fun p _ => rfl)
  rw [hmap, List.sum_replicate, smul_eq_mul, Nat.mul_comm,
    listPairs_length_pred]

theorem crossVideoEdges_empty_of_small (e : Entity)
    (h : (sourceDocs e).length ≤ 1) : crossVideoEdges e = [] := by
  rcases hsv : e.sourceVideos with _ | svs
  · exact crossVideoEdges_none e hsv
  · rw [crossVideoEdges_some e hsv, if_neg]
    rw [sourceDocs, hsv, Option.getD_some] at h
    omega

theorem countP_pairEdges (e : Entity) (prs : List (String × String)) (d : String) :
    ((prs.flatMap (fun p => [appearsInEdge e p.1, appearsInEdge e p.2])).countP
      (fun ed => ed.target == "video_" ++ d)) =
      prs.countP (fun p => p.1 == d) + prs.countP (fun p => p.2 == d) := by
  induction prs with
  | nil => rfl
  | cons pr rest ih =>
    rw [List.flatMap_cons, List.countP_append, ih, List.countP_cons,
      List.countP_cons, List.countP_cons, List.countP_cons, List.countP_nil]
    have h1 : ((appearsInEdge e pr.1).target == "video_" ++ d) =
        (pr.1 == d) := by
      rcases hb : pr.1 == d with _ | _
      · simp only [appearsInEdge, beq_eq_false_iff_ne, ne_eq] at hb ⊢
        exact fun hh => hb ((video_prefix_cancel pr.1 d).1 hh)
      · simp only [appearsInEdge, beq_iff_eq] at hb ⊢
        rw [hb]
    have h2 : ((appearsInEdge e pr.2).target == "video_" ++ d) =
        (pr.2 == d) := by
      rcases hb : pr.2 == d with _ | _
      · simp only [appearsInEdge, beq_eq_false_iff_ne, ne_eq] at hb ⊢
        exact fun hh => hb ((video_prefix_cancel pr.2 d).1 hh)
      · simp only [appearsInEdge, beq_iff_eq] at hb ⊢
        rw [hb]
    rw [h1, h2]
    omega

theorem listPairs_countP_zero_fst {l : List String} {d : String}
    (hd : d ∉ l) : (listPairs l).countP (fun p => p.1 == d) = 0 :=
  List.countP_eq_zero.2 (fun p hp hb =>
    hd (beq_iff_eq.1 hb ▸ (mem_of_mem_listPairs hp).1))

theorem listPairs_countP_zero_snd {l : List String} {d : String}
    (hd : d ∉ l) : (listPairs l).countP (fun p => p.2 == d) = 0 :=
  List.countP_eq_zero.2 (fun p hp hb =>
    hd (beq_iff_eq.1 hb ▸ (mem_of_mem_listPairs hp).2))

theorem listPairs_countP_mem (l : List String) (hnd : l.Nodup) (d : String)
    (hd : d ∈ l) :
    (listPairs l).countP (fun p => p.1 == d) +
      (listPairs l).countP (fun p => p.2 == d) = l.length - 1 := by
  induction l with
  | nil => simp at hd
  | cons x rest ih =>
    have hx := List.nodup_cons.1 hnd
    simp only [listPairs, List.countP_append, List.countP_map]
    rcases List.mem_cons.1 hd with rfl | hd'
    · have hrest : d ∉ rest := hx.1
      have hfst : List.countP ((fun p : String × String => p.1 == d) ∘
          fun y => (d, y)) rest = rest.length := by
        rw [List.countP_eq_length]
        intro a _
        simp
      have hsnd : List.countP ((fun p : String × String => p.2 == d) ∘
          fun y => (d, y)) rest = 0 := by
        rw [List.countP_eq_zero]
        intro a ha hb
        simp only [Function.comp_apply, beq_iff_eq] at hb
        exact hrest (hb ▸ ha)
      rw [hfst, hsnd, listPairs_countP_zero_fst hrest,
        listPairs_countP_zero_snd hrest]
      simp
    · have hxd : x ≠ d := fun hh => hx.1 (hh ▸ hd')
      have hfst : List.countP ((fun p : String × String => p.1 == d) ∘
          fun y => (x, y)) rest = 0 := by
        rw [List.countP_eq_zero]
        intro a _ hb
        simp only [Function.comp_apply, beq_iff_eq] at hb
        exact hxd hb
      have hsnd : List.countP ((fun p : String × String => p.2 == d) ∘
          fun y => (x, y)) rest = 1 := by
        have : List.countP ((fun p : String × String => p.2 == d) ∘
            fun y => (x, y)) rest = List.count d rest := by
          rw [List.count]
          rfl
        rw [this]
        exact List.count_eq_one_of_mem hx.2 hd'
      rw [hfst, hsnd]
      have hres := ih hx.2 hd'
      have hlen : 1 ≤ rest.length := List.length_pos.2 (by
        rintro rfl
        simp at hd')
      simp only [List.length_cons]
      omega

theorem crossVideoEdges_target_count (e : Entity) {svs : List String}
    (hsv : e.sourceVideos = some svs) (hlen : 1 < svs.length)
    (hnd : svs.Nodup) (d : String) (hd : d ∈ svs) :
    ((crossVideoEdges e).filter
      (fun ed => ed.target == "video_" ++ d)).length = svs.length - 1 := by
  rw [crossVideoEdges_some e hsv, if_pos hlen, ← List.countP_eq_length_filter,
    countP_pairEdges, listPairs_countP_mem svs hnd d hd]

end KG

namespace KG

theorem cross_fields (a : Entity) :
    ∀ ed ∈ crossVideoEdges a, ed.source = a.id ∧ ed.type = "appears-in" := by
  intro ed hed
  rcases hsv : a.sourceVideos with _ | svs
  · rw [crossVideoEdges_none a hsv] at hed
    simp at hed
  · have h := mem_appearsInEdge_fields a hsv hed
    exact ⟨h.1, h.2.1⟩

theorem cooc_type (entities : List Entity) :
    ∀ ed ∈ (entitiesByVideo entities).flatMap
      (fun g => coocEdgesOfGroup g.1 g.2), ed.type = "co-occurs" := by
  intro ed hed
  rcases List.mem_flatMap.1 hed with ⟨g, _, hin⟩
  rcases List.mem_filterMap.1 hin with ⟨pr, _, hsome⟩
  by_cases hc : ((pr.1.keyPointIndex : ℤ) - pr.2.keyPointIndex).natAbs ≤ 2
  · rw [if_pos hc] at hsome
    cases hsome
    rfl
  · rw [if_neg hc] at hsome
    cases hsome

theorem filter_flatMap_cross (entities : List Entity) (e : Entity)
    (he : e ∈ entities) (hids : (entities.map Entity.id).Nodup) :
    (entities.flatMap crossVideoEdges).filter
      (fun ed => ed.source == e.id && ed.type == "appears-in") =
      crossVideoEdges e := by
  induction entities with
  | nil => simp at he
  | cons a rest ih =>
    have hnd := List.nodup_cons.1 hids
    rw [List.flatMap_cons, List.filter_append]
    rcases List.mem_cons.1 he with rfl | he'
    · have h1 : (crossVideoEdges e).filter
          (fun ed => ed.source == e.id && ed.type == "appears-in") =
          crossVideoEdges e :=
        List.filter_eq_self.2 (fun ed hed => by
          have h := cross_fields e ed hed
          simp [h.1, h.2])
      have h2 : (rest.flatMap crossVideoEdges).filter
          (fun ed => ed.source == e.id && ed.type == "appears-in") = [] := by
        apply List.filter_eq_nil_iff.2
        intro ed hed
        rcases List.mem_flatMap.1 hed with ⟨e', he'', hin⟩
        have h := cross_fields e' ed hin
        have hne : e'.id ≠ e.id := by
          intro heq
          exact hnd.1 (heq ▸ List.mem_map.2 ⟨e', he'', rfl⟩)
        simp [h.1, hne]
      rw [h1, h2, List.append_nil]
    · have h1 : (crossVideoEdges a).filter
          (fun ed => ed.source == e.id && ed.type == "appears-in") = [] := by
        apply List.filter_eq_nil_iff.2
        intro ed hed
        have h := cross_fields a ed hed
        have hne : a.id ≠ e.id := by
          intro heq
          exact hnd.1 (heq ▸ List.mem_map.2 ⟨e, he', rfl⟩)
        simp [h.1, hne]
      rw [h1, List.nil_append, ih he' hnd.2]

theorem appears_filter_eq (entities : List Entity) (e : Entity)
    (he : e ∈ entities) (hids : (entities.map Entity.id).Nodup) :
    (buildEntityRelationships entities).filter
      (fun ed => ed.source == e.id && ed.type == "appears-in") =
      crossVideoEdges e := by
  unfold buildEntityRelationships
  rw [List.filter_append]
  have h1 : ((entitiesByVideo entities).flatMap
      (fun g => coocEdgesOfGroup g.1 g.2)).filter
      (fun ed => ed.source == e.id && ed.type == "appears-in") = [] := by
    apply List.filter_eq_nil_iff.2
    intro ed hed
    have ht := cooc_type entities ed hed
    simp [ht]
  rw [h1, List.nil_append]
  exact filter_flatMap_cross entities e he hids

end KG

/-! ## Claim C5 -/

/-- C5: for every entity record whose source-document set has size
`k > 1`, the relationship builder emits exactly `k·(k−1)` `appears-in`
edges for it, each with weight exactly 0.8 and each directed from the
entity to one of its source documents, and each source document is
the target of exactly `k−1` of them (one per unordered document pair
it belongs to); an entity with a single source document gets none. -/
theorem c5_appears_in_edges (entities : List KG.Entity) (e : KG.Entity)
    (he : e ∈ entities) (hids : (entities.map KG.Entity.id).Nodup)
    (hnd : (KG.sourceDocs e).Nodup) :
    (((KG.buildEntityRelationships entities).filter
        (fun ed => ed.source == e.id && ed.type == "appears-in")).length =
      if 2 ≤ (KG.sourceDocs e).length then
        (KG.sourceDocs e).length * ((KG.sourceDocs e).length - 1)
      else 0) ∧
    (∀ ed ∈ (KG.buildEntityRelationships entities).filter
        (fun ed => ed.source == e.id && ed.type == "appears-in"),
      ed.weight = 8/10 ∧ ∃ v ∈ KG.sourceDocs e, ed.target = "video_" ++ v) ∧
    (2 ≤ (KG.sourceDocs e).length → ∀ v ∈ KG.sourceDocs e,
      (((KG.buildEntityRelationships entities).filter
          (fun ed => ed.source == e.id && ed.type == "appears-in")).filter
        (fun ed => ed.target == "video_" ++ v)).length =
        (KG.sourceDocs e).length - 1) := by
  rw [KG.appears_filter_eq entities e he hids]
  rcases hsv : e.sourceVideos with _ | svs
  · have hdocs : KG.sourceDocs e = [e.sourceVideo] := by
      rw [KG.sourceDocs, hsv]
      rfl
    rw [KG.crossVideoEdges_none e hsv, hdocs]
    refine ⟨by simp, by simp, ?_⟩
    intro h2
    simp at h2
  · have hdocs : KG.sourceDocs e = svs := by
      rw [KG.sourceDocs, hsv]
      rfl
    rw [hdocs]
    by_cases hlen : 2 ≤ svs.length
    · refine ⟨?_, ?_, ?_⟩
      · rw [if_pos hlen, KG.crossVideoEdges_length e hsv (by omega)]
      · intro ed hed
        have h := KG.mem_appearsInEdge_fields e hsv hed
        exact ⟨h.2.2.1, h.2.2.2⟩
      · intro _ v hv
        exact KG.crossVideoEdges_target_count e hsv (by omega)
          (hdocs ▸ hnd) v hv
    · rw [KG.crossVideoEdges_empty_of_small e (by rw [hdocs]; omega)]
      refine ⟨by rw [if_neg hlen]; simp, by simp, ?_⟩
      intro h2
      exact absurd h2 hlen

/-- Witness for C5 at an entity with three source documents. -/
theorem c5_witness :
    (KG.sampleEntityZ ∈ [KG.sampleEntityZ] ∧
     (([KG.sampleEntityZ]).map KG.Entity.id).Nodup ∧
     (KG.sourceDocs KG.sampleEntityZ).Nodup)
  ∧ ((KG.buildEntityRelationships [KG.sampleEntityZ]).filter
        (fun ed => ed.source == KG.sampleEntityZ.id &&
          ed.type == "appears-in")).length =
      if 2 ≤ (KG.sourceDocs KG.sampleEntityZ).length then
        (KG.sourceDocs KG.sampleEntityZ).length *
          ((KG.sourceDocs KG.sampleEntityZ).length - 1)
      else 0 :=
  ⟨⟨by decide, by decide, by decide⟩,
   (c5_appears_in_edges [KG.sampleEntityZ] KG.sampleEntityZ
     (by decide) (by decide) (by decide)).1⟩

/-! ## Video-relationship (Jaccard) lemmas -/

namespace KG

theorem lookupL_docsFold (x : String) (docs : List String)
    (m : List (String × List String)) (k : String) (hnd : docs.Nodup) :
    lookupL (docs.foldl (fun m' vid => mapPush m' vid x) m) k =
      lookupL m k ++ (if k ∈ docs then [x] else []) := by
  induction docs generalizing m with
  | nil => simp
  | cons d ds ih =>
    have hnd' := List.nodup_cons.1 hnd
    rw [List.foldl_cons, ih _ hnd'.2, lookupL_mapPush]
    by_cases hk : k = d
    · subst hk
      rw [if_pos rfl, if_pos (List.mem_cons_self _ _), if_neg hnd'.1]
      simp
    · rw [if_neg hk]
      by_cases hk2 : k ∈ ds
      · rw [if_pos hk2, if_pos (List.mem_cons_of_mem _ hk2)]
      · rw [if_neg hk2, if_neg (by simp [hk, hk2])]

theorem videoEntityIds_aux (entities : List Entity) :
    ∀ (m : List (String × List String)) (v : String),
      (∀ e ∈ entities, (sourceDocs e).Nodup) →
      lookupL (entities.foldl (fun macc e => (sourceDocs e).foldl
        (fun m' vid => mapPush m' vid e.id) macc) m) v =
      lookupL m v ++
        (entities.filter (fun e => (sourceDocs e).contains v)).map Entity.id := by
  induction entities with
  | nil =>
    intro m v _
    simp
  | cons e rest ih =>
    intro m v hd
    rw [List.foldl_cons,
      ih _ v (fun x hx => hd x (List.mem_cons_of_mem _ hx)),
      lookupL_docsFold e.id (sourceDocs e) m v (hd e (List.mem_cons_self _ _)),
      List.filter_cons]
    by_cases hv : v ∈ sourceDocs e
    · rw [if_pos hv, if_pos (by simpa [List.elem_iff] using hv)]
      simp
    · rw [if_neg hv, if_neg (by simpa [List.elem_iff] using hv), List.append_nil]

theorem videoEntityIds_eq (entities : List Entity)
    (hdocs : ∀ e ∈ entities, (sourceDocs e).Nodup) (v : String) :
    videoEntityIds entities v =
      (entities.filter (fun e => (sourceDocs e).contains v)).map Entity.id := by
  have h := videoEntityIds_aux entities [] v hdocs
  simpa [videoEntityIds, videoEntityMap, lookupL, lookup_nil] using h

theorem videoEntityIds_nodup (entities : List Entity)
    (hids : (entities.map Entity.id).Nodup)
    (hdocs : ∀ e ∈ entities, (sourceDocs e).Nodup) (v : String) :
    (videoEntityIds entities v).Nodup := by
  rw [videoEntityIds_eq entities hdocs v]
  exact ((List.filter_sublist entities).map Entity.id).nodup hids

theorem list_inter_toFinset (s1 s2 : List String) :
    (s1.filter (fun x => s2.contains x)).toFinset = s1.toFinset ∩ s2.toFinset := by
  ext x
  simp [List.mem_toFinset, List.mem_filter, List.elem_iff]

theorem list_union_toFinset (s1 s2 : List String) :
    ((s1 ++ s2).dedup).toFinset = s1.toFinset ∪ s2.toFinset := by
  ext x
  simp [List.mem_toFinset, List.mem_dedup, List.mem_append]

theorem inter_length_card (s1 s2 : List String) (h1 : s1.Nodup) :
    (s1.filter (fun x => s2.contains x)).length =
      (s1.toFinset ∩ s2.toFinset).card := by
  rw [← list_inter_toFinset, List.toFinset_card_of_nodup (h1.filter _)]

theorem union_length_card (s1 s2 : List String) :
    ((s1 ++ s2).dedup).length = (s1.toFinset ∪ s2.toFinset).card := by
  rw [← list_union_toFinset]
  exact (List.toFinset_card_of_nodup (List.nodup_dedup _)).symm

theorem sharedEntityIds_length_card (entities : List Entity)
    (hids : (entities.map Entity.id).Nodup)
    (hdocs : ∀ e ∈ entities, (sourceDocs e).Nodup) (v1 v2 : String) :
    (sharedEntityIds entities v1 v2).length =
      ((videoEntityIds entities v1).toFinset ∩
        (videoEntityIds entities v2).toFinset).card :=
  inter_length_card _ _ (videoEntityIds_nodup entities hids hdocs v1)

theorem entityIdUnion_length_card (entities : List Entity) (v1 v2 : String) :
    (entityIdUnion entities v1 v2).length =
      ((videoEntityIds entities v1).toFinset ∪
        (videoEntityIds entities v2).toFinset).card :=
  union_length_card _ _

theorem sharedEntityIds_length_comm (entities : List Entity)
    (hids : (entities.map Entity.id).Nodup)
    (hdocs : ∀ e ∈ entities, (sourceDocs e).Nodup) (v1 v2 : String) :
    (sharedEntityIds entities v1 v2).length =
      (sharedEntityIds entities v2 v1).length := by
  rw [sharedEntityIds_length_card entities hids hdocs v1 v2,
    sharedEntityIds_length_card entities hids hdocs v2 v1,
    Finset.inter_comm]

theorem entityIdUnion_length_comm (entities : List Entity) (v1 v2 : String) :
    (entityIdUnion entities v1 v2).length =
      (entityIdUnion entities v2 v1).length := by
  rw [entityIdUnion_length_card, entityIdUnion_length_card, Finset.union_comm]

theorem jaccard_comm (entities : List Entity)
    (hids : (entities.map Entity.id).Nodup)
    (hdocs : ∀ e ∈ entities, (sourceDocs e).Nodup) (v1 v2 : String) :
    jaccard entities v1 v2 = jaccard entities v2 v1 := by
  unfold jaccard
  rw [sharedEntityIds_length_comm entities hids hdocs v1 v2,
    entityIdUnion_length_comm entities v1 v2]

theorem jaccard_nonneg (entities : List Entity) (v1 v2 : String) :
    0 ≤ jaccard entities v1 v2 := by
  unfold jaccard
  positivity

theorem jaccard_le_one (entities : List Entity)
    (hids : (entities.map Entity.id).Nodup)
    (hdocs : ∀ e ∈ entities, (sourceDocs e).Nodup) (v1 v2 : String) :
    jaccard entities v1 v2 ≤ 1 := by
  unfold jaccard
  have hle : (sharedEntityIds entities v1 v2).length ≤
      (entityIdUnion entities v1 v2).length := by
    rw [sharedEntityIds_length_card entities hids hdocs v1 v2,
      entityIdUnion_length_card]
    exact Finset.card_le_card (Finset.inter_subset_union)
  rcases Nat.eq_zero_or_pos (entityIdUnion entities v1 v2).length with h0 | hpos
  · rw [h0]
    simp
  · rw [div_le_one (by exact_mod_cast hpos)]
    exact_mod_cast hle

theorem jaccard_eq_one_iff (entities : List Entity)
    (hids : (entities.map Entity.id).Nodup)
    (hdocs : ∀ e ∈ entities, (sourceDocs e).Nodup) (v1 v2 : String) :
    jaccard entities v1 v2 = 1 ↔
      ((∀ x, x ∈ videoEntityIds entities v1 ↔ x ∈ videoEntityIds entities v2) ∧
        videoEntityIds entities v1 ≠ []) := by
  unfold jaccard
  constructor
  · intro h
    have hu : (entityIdUnion entities v1 v2).length ≠ 0 := by
      intro h0
      rw [h0] at h
      simp at h
    rw [div_eq_one_iff_eq (by exact_mod_cast hu)] at h
    have hlen : (sharedEntityIds entities v1 v2).length =
        (entityIdUnion entities v1 v2).length := by exact_mod_cast h
    rw [sharedEntityIds_length_card entities hids hdocs v1 v2,
      entityIdUnion_length_card] at hlen
    have hsub : (videoEntityIds entities v1).toFinset ∩
        (videoEntityIds entities v2).toFinset ⊆
        (videoEntityIds entities v1).toFinset ∪
          (videoEntityIds entities v2).toFinset :=
      Finset.inter_subset_union
    have heq := Finset.eq_of_subset_of_card_le hsub (le_of_eq hlen.symm)
    have hset : (videoEntityIds entities v1).toFinset =
        (videoEntityIds entities v2).toFinset := by
      apply Finset.Subset.antisymm
      · intro x hx
        have : x ∈ (videoEntityIds entities v1).toFinset ∩
            (videoEntityIds entities v2).toFinset := by
          rw [heq]
          exact Finset.mem_union_left _ hx
        exact (Finset.mem_inter.1 this).2
      · intro x hx
        have : x ∈ (videoEntityIds entities v1).toFinset ∩
            (videoEntityIds entities v2).toFinset := by
          rw [heq]
          exact Finset.mem_union_right _ hx
        exact (Finset.mem_inter.1 this).1
    constructor
    · intro x
      constructor
      · intro hx
        have := hset ▸ (List.mem_toFinset.2 hx)
        exact List.mem_toFinset.1 this
      · intro hx
        have := hset.symm ▸ (List.mem_toFinset.2 hx)
        exact List.mem_toFinset.1 this
    · intro hnil
      rw [entityIdUnion_length_card] at hu
      rw [hnil] at hset
      apply hu
      have : (videoEntityIds entities v2).toFinset = ∅ := by
        rw [← hset]
        simp
      rw [hnil, this]
      simp
  · rintro ⟨hiff, hne⟩
    have hset : (videoEntityIds entities v1).toFinset =
        (videoEntityIds entities v2).toFinset := by
      ext x
      simp only [List.mem_toFinset]
      exact hiff x
    rw [sharedEntityIds_length_card entities hids hdocs v1 v2,
      entityIdUnion_length_card, hset, Finset.inter_self, Finset.union_self]
    have hpos : 0 < (videoEntityIds entities v2).toFinset.card := by
      rw [← hset]
      rw [Finset.card_pos]
      rcases (List.exists_mem_of_ne_nil _ hne) with ⟨x, hx⟩
      exact ⟨x, List.mem_toFinset.2 hx⟩
    rw [div_self (by exact_mod_cast hpos.ne')]

end KG

namespace KG

theorem mem_buildVideoRel (videos : List Video) (entities : List Entity)
    (ed : Edge) :
    ed ∈ buildVideoRelationships videos entities ↔
      ∃ p ∈ listPairs videos,
        0 < (sharedEntityIds entities p.1.id p.2.id).length ∧
        ed = videoRelEdge entities p.1.id p.2.id := by
  unfold buildVideoRelationships
  rw [List.mem_filterMap]
  constructor
  · rintro ⟨p, hp, hsome⟩
    by_cases hc : 0 < (sharedEntityIds entities p.1.id p.2.id).length
    · rw [if_pos hc] at hsome
      exact ⟨p, hp, hc, (Option.some_inj.1 hsome).symm⟩
    · rw [if_neg hc] at hsome
      cases hsome
  · rintro ⟨p, hp, hc, rfl⟩
    exact ⟨p, hp, by rw [if_pos hc]⟩

theorem videoRelEdge_type_strong_iff (entities : List Entity) (v1 v2 : String) :
    (videoRelEdge entities v1 v2).type = "strong" ↔
      3/10 < jaccard entities v1 v2 := by
  show (if jaccard entities v1 v2 > 3/10 then "strong" else "moderate") =
    "strong" ↔ _
  by_cases hgt : jaccard entities v1 v2 > 3/10
  · rw [if_pos hgt]
    exact ⟨fun _ => hgt, fun _ => rfl⟩
  · rw [if_neg hgt]
    constructor
    · intro h
      exact absurd h (by decide)
    · intro h
      exact absurd h hgt

theorem videoRelEdge_type_cases (entities : List Entity) (v1 v2 : String) :
    (videoRelEdge entities v1 v2).type = "strong" ∨
      (videoRelEdge entities v1 v2).type = "moderate" := by
  show (if jaccard entities v1 v2 > 3/10 then "strong" else "moderate") =
    "strong" ∨ (if jaccard entities v1 v2 > 3/10 then "strong"
      else "moderate") = "moderate"
  by_cases hgt : jaccard entities v1 v2 > 3/10
  · rw [if_pos hgt]
    exact Or.inl rfl
  · rw [if_neg hgt]
    exact Or.inr rfl

end KG

/-! ## Claim C6 -/

/-- C6: for a pair of distinct documents, the shared-entity similarity
equals the Jaccard ratio of the two documents' entity-id sets; it lies
in `[0,1]` and equals 1 exactly when the two id sets are identical and
non-empty; a document-similarity edge between the pair is emitted iff
the intersection is non-empty, carrying the Jaccard ratio as weight,
`sharedEntities` = intersection size, and typed `strong` iff the ratio
exceeds 0.3, else `moderate`. -/
theorem c6_jaccard_similarity (videos : List KG.Video)
    (entities : List KG.Entity)
    (hids : (entities.map KG.Entity.id).Nodup)
    (hdocs : ∀ e ∈ entities, (KG.sourceDocs e).Nodup)
    (va vb : KG.Video) (hva : va ∈ videos) (hvb : vb ∈ videos)
    (hne : va.id ≠ vb.id) :
    (0 ≤ KG.jaccard entities va.id vb.id ∧
      KG.jaccard entities va.id vb.id ≤ 1) ∧
    (KG.jaccard entities va.id vb.id = 1 ↔
      ((∀ x, x ∈ KG.videoEntityIds entities va.id ↔
          x ∈ KG.videoEntityIds entities vb.id) ∧
        KG.videoEntityIds entities va.id ≠ [])) ∧
    ((∃ ed ∈ KG.buildVideoRelationships videos entities,
        ((ed.source = "video_" ++ va.id ∧ ed.target = "video_" ++ vb.id) ∨
         (ed.source = "video_" ++ vb.id ∧ ed.target = "video_" ++ va.id)) ∧
        ed.weight = KG.jaccard entities va.id vb.id ∧
        ed.sharedEntities = some (KG.sharedEntityIds entities va.id vb.id).length ∧
        (ed.type = "strong" ↔ 3/10 < KG.jaccard entities va.id vb.id) ∧
        (ed.type = "strong" ∨ ed.type = "moderate")) ↔
      KG.sharedEntityIds entities va.id vb.id ≠ []) := by
  refine ⟨⟨KG.jaccard_nonneg entities va.id vb.id,
    KG.jaccard_le_one entities hids hdocs va.id vb.id⟩,
    KG.jaccard_eq_one_iff entities hids hdocs va.id vb.id, ?_⟩
  constructor
  · rintro ⟨ed, hed, hor, -, -, -, -⟩
    rcases (KG.mem_buildVideoRel videos entities ed).1 hed with ⟨p, -, hc, rfl⟩
    rcases hor with ⟨hs, ht⟩ | ⟨hs, ht⟩
    · have h1 : p.1.id = va.id := (KG.video_prefix_cancel _ _).1 hs
      have h2 : p.2.id = vb.id := (KG.video_prefix_cancel _ _).1 ht
      rw [h1, h2] at hc
      exact List.ne_nil_of_length_pos hc
    · have h1 : p.1.id = vb.id := (KG.video_prefix_cancel _ _).1 hs
      have h2 : p.2.id = va.id := (KG.video_prefix_cancel _ _).1 ht
      rw [h1, h2] at hc
      rw [KG.sharedEntityIds_length_comm entities hids hdocs vb.id va.id] at hc
      exact List.ne_nil_of_length_pos hc
  · intro hinter
    have hcount : 0 < (KG.sharedEntityIds entities va.id vb.id).length :=
      List.length_pos.2 hinter
    have hvav : va ≠ vb := fun hh => hne (hh ▸ rfl)
    have hjc := KG.jaccard_comm entities hids hdocs va.id vb.id
    have hsc := KG.sharedEntityIds_length_comm entities hids hdocs va.id vb.id
    rcases KG.listPairs_of_mem hva hvb hvav with hp | hp
    · refine ⟨KG.videoRelEdge entities va.id vb.id,
        (KG.mem_buildVideoRel videos entities _).2 ⟨(va, vb), hp, hcount, rfl⟩,
        Or.inl ⟨rfl, rfl⟩, rfl, rfl,
        KG.videoRelEdge_type_strong_iff entities va.id vb.id,
        KG.videoRelEdge_type_cases entities va.id vb.id⟩
    · refine ⟨KG.videoRelEdge entities vb.id va.id,
        (KG.mem_buildVideoRel videos entities _).2 ⟨(vb, va), hp, ?_, rfl⟩,
        Or.inr ⟨rfl, rfl⟩, ?_, ?_, ?_,
        KG.videoRelEdge_type_cases entities vb.id va.id⟩
      · rw [← hsc]
        exact hcount
      · show KG.jaccard entities vb.id va.id = _
        rw [hjc]
      · show some (KG.sharedEntityIds entities vb.id va.id).length = _
        rw [hsc]
      · rw [KG.videoRelEdge_type_strong_iff entities vb.id va.id, ← hjc]

/-- Witness for C6: two documents sharing the entity `entity_z`. -/
theorem c6_witness :
    ((([KG.sampleEntityZ]).map KG.Entity.id).Nodup ∧
     (∀ e ∈ [KG.sampleEntityZ], (KG.sourceDocs e).Nodup) ∧
     KG.sampleVideo "a" "TA" [] ∈
       [KG.sampleVideo "a" "TA" [], KG.sampleVideo "b" "TB" []] ∧
     KG.sampleVideo "b" "TB" [] ∈
       [KG.sampleVideo "a" "TA" [], KG.sampleVideo "b" "TB" []] ∧
     (KG.sampleVideo "a" "TA" []).id ≠ (KG.sampleVideo "b" "TB" []).id)
  ∧ ((∃ ed ∈ KG.buildVideoRelationships
        [KG.sampleVideo "a" "TA" [], KG.sampleVideo "b" "TB" []]
        [KG.sampleEntityZ],
      ((ed.source = "video_" ++ (KG.sampleVideo "a" "TA" []).id ∧
        ed.target = "video_" ++ (KG.sampleVideo "b" "TB" []).id) ∨
       (ed.source = "video_" ++ (KG.sampleVideo "b" "TB" []).id ∧
        ed.target = "video_" ++ (KG.sampleVideo "a" "TA" []).id)) ∧
      ed.weight = KG.jaccard [KG.sampleEntityZ]
        (KG.sampleVideo "a" "TA" []).id (KG.sampleVideo "b" "TB" []).id ∧
      ed.sharedEntities = some (KG.sharedEntityIds [KG.sampleEntityZ]
        (KG.sampleVideo "a" "TA" []).id (KG.sampleVideo "b" "TB" []).id).length ∧
      (ed.type = "strong" ↔ 3/10 < KG.jaccard [KG.sampleEntityZ]
        (KG.sampleVideo "a" "TA" []).id (KG.sampleVideo "b" "TB" []).id) ∧
      (ed.type = "strong" ∨ ed.type = "moderate")) ↔
    KG.sharedEntityIds [KG.sampleEntityZ]
      (KG.sampleVideo "a" "TA" []).id (KG.sampleVideo "b" "TB" []).id ≠ []) :=
  ⟨⟨by decide, by decide, by decide, by decide, by decide⟩,
   (c6_jaccard_similarity
     [KG.sampleVideo "a" "TA" [], KG.sampleVideo "b" "TB" []]
     [KG.sampleEntityZ] (by decide) (by decide)
     (KG.sampleVideo "a" "TA" []) (KG.sampleVideo "b" "TB" [])
     (by decide) (by decide) (by decide)).2.2⟩

/-! ## Pipeline invariants for graph assembly -/

namespace KG

theorem extractFromWords_inv (point vid title : String) (idx : Nat)
    (ws : List String) :
    ∀ m ∈ extractFromWords point vid title idx ws,
      m.sourceVideo = vid ∧ m.sourceVideos = none := by
  induction ws with
  | nil => simp [extractFromWords]
  | cons w rest ih =>
    intro m hm
    simp only [extractFromWords, List.mem_append] at hm
    rcases hm with ((h | h) | h) | h
    · split at h
      · rcases List.mem_singleton.1 h with rfl
        exact ⟨rfl, rfl⟩
      · simp at h
    · split at h
      · split at h
        · rcases List.mem_singleton.1 h with rfl
          exact ⟨rfl, rfl⟩
        · simp at h
      · simp at h
    · split at h
      · split at h
        · rcases List.mem_singleton.1 h with rfl
          exact ⟨rfl, rfl⟩
        · simp at h
      · simp at h
    · exact ih m h

theorem extractEntities_inv (pts : List String) (vid title : String) :
    ∀ e ∈ extractEntitiesFromKeyPoints pts vid title,
      e.sourceVideo = vid ∧ sourceDocs e = [vid] := by
  unfold extractEntitiesFromKeyPoints
  apply mem_dedup_pred (fun e => e.sourceVideo = vid ∧ sourceDocs e = [vid])
  · intro x m hx hm
    refine ⟨hx.1, ?_⟩
    rw [sourceDocs_mergeInto, hx.2]
    have hms : m.sourceVideo = vid := hm.1
    rw [hms]
    rw [if_pos (List.mem_singleton.2 rfl)]
  · intro m hm
    rcases List.mem_flatMap.1 hm with ⟨p, _, hmw⟩
    have h := extractFromWords_inv p.2 vid title p.1 (tokenize p.2) m hmw
    refine ⟨h.1, ?_⟩
    rw [sourceDocs, h.2, Option.getD_none, h.1]

end KG

namespace KG

theorem videoMentions_inv (v : Video) (l : List Entity)
    (h : videoMentions v = .ok l) :
    ∀ e ∈ l, e.sourceVideo = v.id ∧ sourceDocs e = [v.id] := by
  unfold videoMentions at h
  split at h
  · cases h
    simp
  · cases h
    simp
  · split at h
    · cases h
      simp
    · split at h
      · split at h
        · split at h
          · split at h
            · rcases hsl : asStringList _ with err | pts
              · rw [hsl] at h
                simp [Except.map] at h
              · rw [hsl] at h
                simp only [Except.map] at h
                cases h
                intro e he
                exact extractEntities_inv pts v.id v.title e he
            · cases h
          · cases h
            simp
        · cases h
          simp
      · cases h
        simp

theorem mapM_mentions_inv (videos : List Video) (mls : List (List Entity))
    (h : videos.mapM videoMentions = .ok mls) :
    ∀ e ∈ mls.flatten, ∃ v ∈ videos,
      e.sourceVideo = v.id ∧ sourceDocs e = [v.id] := by
  induction videos generalizing mls with
  | nil =>
    rw [List.mapM_nil] at h
    cases h
    intro e he
    simp at he
  | cons v rest ih =>
    rw [List.mapM_cons] at h
    rcases hv : videoMentions v with err | a
    · rw [hv] at h
      cases h
    · rw [hv] at h
      rcases hr : rest.mapM videoMentions with err | as
      · rw [hr] at h
        cases h
      · rw [hr] at h
        cases h
        intro e he
        rw [List.flatten_cons] at he
        rcases List.mem_append.1 he with h1 | h2
        · exact ⟨v, List.mem_cons_self _ _, videoMentions_inv v a hv e h1⟩
        · rcases ih as hr e h2 with ⟨v', hv', hp⟩
          exact ⟨v', List.mem_cons_of_mem _ hv', hp⟩

theorem mem_coocEdges {vid : String} {ves : List Entity} {ed : Edge}
    (h : ed ∈ coocEdgesOfGroup vid ves) :
    ∃ p ∈ listPairs ves, ed.source = p.1.id ∧ ed.target = p.2.id := by
  rcases List.mem_filterMap.1 h with ⟨p, hp, hsome⟩
  by_cases hc : ((p.1.keyPointIndex : ℤ) - p.2.keyPointIndex).natAbs ≤ 2
  · rw [if_pos hc] at hsome
    cases hsome
    exact ⟨p, hp, rfl, rfl⟩
  · rw [if_neg hc] at hsome
    cases hsome

theorem mapPush_values {κ α : Type} [DecidableEq κ]
    (m : List (κ × List α)) (k : κ) (x : α) :
    ∀ g ∈ mapPush m k x, ∀ y ∈ g.2, (∃ g' ∈ m, y ∈ g'.2) ∨ y = x := by
  induction m with
  | nil =>
    intro g hg y hy
    rcases List.mem_singleton.1 hg with rfl
    rcases List.mem_singleton.1 hy with rfl
    exact Or.inr rfl
  | cons p rest ih =>
    intro g hg y hy
    simp only [mapPush] at hg
    split at hg
    · rcases List.mem_cons.1 hg with rfl | hg'
      · rcases List.mem_append.1 hy with h1 | h2
        · exact Or.inl ⟨p, List.mem_cons_self _ _, h1⟩
        · rcases List.mem_singleton.1 h2 with rfl
          exact Or.inr rfl
      · exact Or.inl ⟨g, List.mem_cons_of_mem _ hg', hy⟩
    · rcases List.mem_cons.1 hg with rfl | hg'
      · exact Or.inl ⟨g, List.mem_cons_self _ _, hy⟩
      · rcases ih g hg' y hy with ⟨g', hg'', hy'⟩ | hx
        · exact Or.inl ⟨g', List.mem_cons_of_mem _ hg'', hy'⟩
        · exact Or.inr hx

theorem entitiesByVideo_values (entities : List Entity) :
    ∀ g ∈ entitiesByVideo entities, ∀ e ∈ g.2, e ∈ entities := by
  suffices h : ∀ (l : List Entity) (acc : List (String × List Entity)),
      ∀ g ∈ l.foldl (fun m e => mapPush m e.sourceVideo e) acc, ∀ y ∈ g.2,
        (∃ g' ∈ acc, y ∈ g'.2) ∨ y ∈ l by
    intro g hg e he
    rcases h entities [] g hg e he with ⟨g', hg', _⟩ | hm
    · simp at hg'
    · exact hm
  intro l
  induction l with
  | nil =>
    intro acc g hg y hy
    exact Or.inl ⟨g, hg, hy⟩
  | cons e rest ih =>
    intro acc g hg y hy
    rw [List.foldl_cons] at hg
    rcases ih _ g hg y hy with ⟨g', hg', hy'⟩ | hm
    · rcases mapPush_values acc e.sourceVideo e g' hg' y hy' with ⟨g'', hg'', hy''⟩ | hx
      · exact Or.inl ⟨g'', hg'', hy''⟩
      · exact Or.inr (hx ▸ List.mem_cons_self _ _)
    · exact Or.inr (List.mem_cons_of_mem _ hm)

theorem buildGraph_ok_inversion (videos : List Video) (snap : Snapshot)
    (h : buildGraphFromVideos videos = .ok snap) :
    ∃ mls, videos.mapM videoMentions = .ok mls ∧
      snap.nodes = (videos.map mkVideoNode).map GNode.videoNode ++
        (deduplicateEntities mls.flatten).map GNode.entityNode ∧
      snap.edges = buildEntityRelationships (deduplicateEntities mls.flatten) ++
        buildVideoRelationships videos (deduplicateEntities mls.flatten) := by
  unfold buildGraphFromVideos at h
  rcases hm : videos.mapM videoMentions with err | mls
  · rw [hm] at h
    cases h
  · rw [hm] at h
    cases h
    exact ⟨mls, rfl, rfl, rfl⟩

end KG

/-! ## Claim C4 -/

/-- C4: every edge of a successfully assembled snapshot has both its
source id and its target id equal to the id of some node of that same
snapshot — no dangling edges. -/
theorem c4_no_dangling (videos : List KG.Video) (snap : KG.Snapshot)
    (h : KG.buildGraphFromVideos videos = .ok snap) :
    ∀ ed ∈ snap.edges,
      (∃ n ∈ snap.nodes, KG.GNode.id n = ed.source) ∧
      (∃ n ∈ snap.nodes, KG.GNode.id n = ed.target) := by
  rcases KG.buildGraph_ok_inversion videos snap h with ⟨mls, hm, hnodes, hedges⟩
  have hUinv : ∀ e ∈ KG.deduplicateEntities mls.flatten,
      (∃ v ∈ videos, e.sourceVideo = v.id) ∧
        ∀ x ∈ KG.sourceDocs e, ∃ v ∈ videos, x = v.id := by
    apply KG.mem_dedup_pred (fun e => (∃ v ∈ videos, e.sourceVideo = v.id) ∧
      ∀ x ∈ KG.sourceDocs e, ∃ v ∈ videos, x = v.id)
    · intro x m hx hm'
      refine ⟨hx.1, ?_⟩
      intro y hy
      rcases (KG.mem_sourceDocs_mergeInto x m y).1 hy with h1 | h1
      · exact hx.2 y h1
      · rcases hm'.1 with ⟨v, hv, hvid⟩
        exact ⟨v, hv, h1.trans hvid⟩
    · intro m hm'
      rcases KG.mapM_mentions_inv videos mls hm m hm' with ⟨v, hv, h1, h2⟩
      refine ⟨⟨v, hv, h1⟩, ?_⟩
      intro y hy
      rw [h2] at hy
      rcases List.mem_singleton.1 hy with rfl
      exact ⟨v, hv, rfl⟩
  have hUnode : ∀ e ∈ KG.deduplicateEntities mls.flatten,
      ∃ n ∈ snap.nodes, KG.GNode.id n = e.id := by
    intro e he
    refine ⟨KG.GNode.entityNode e, ?_, rfl⟩
    rw [hnodes]
    exact List.mem_append_right _ (List.mem_map.2 ⟨e, he, rfl⟩)
  have hVnode : ∀ v ∈ videos, ∃ n ∈ snap.nodes,
      KG.GNode.id n = "video_" ++ v.id := by
    intro v hv
    refine ⟨KG.GNode.videoNode (KG.mkVideoNode v), ?_, rfl⟩
    rw [hnodes]
    exact List.mem_append_left _
      (List.mem_map.2 ⟨KG.mkVideoNode v, List.mem_map.2 ⟨v, hv, rfl⟩, rfl⟩)
  intro ed hed
  rw [hedges] at hed
  rcases List.mem_append.1 hed with h1 | h2
  · unfold KG.buildEntityRelationships at h1
    rcases List.mem_append.1 h1 with hc | hx
    · rcases List.mem_flatMap.1 hc with ⟨g, hg, hin⟩
      rcases KG.mem_coocEdges hin with ⟨p, hp, hs, ht⟩
      have hmem := KG.mem_of_mem_listPairs hp
      have h1m := KG.entitiesByVideo_values _ g hg p.1 hmem.1
      have h2m := KG.entitiesByVideo_values _ g hg p.2 hmem.2
      constructor
      · rcases hUnode p.1 h1m with ⟨n, hn, hid⟩
        exact ⟨n, hn, hid.trans hs.symm⟩
      · rcases hUnode p.2 h2m with ⟨n, hn, hid⟩
        exact ⟨n, hn, hid.trans ht.symm⟩
    · rcases List.mem_flatMap.1 hx with ⟨e', he', hin⟩
      rcases hsv : e'.sourceVideos with _ | svs
      · rw [KG.crossVideoEdges_none e' hsv] at hin
        simp at hin
      · have hf := KG.mem_appearsInEdge_fields e' hsv hin
        constructor
        · rcases hUnode e' he' with ⟨n, hn, hid⟩
          exact ⟨n, hn, hid.trans hf.1.symm⟩
        · rcases hf.2.2.2 with ⟨y, hy, hty⟩
          have hy' : y ∈ KG.sourceDocs e' := by
            rw [KG.sourceDocs, hsv, Option.getD_some]
            exact hy
          rcases (hUinv e' he').2 y hy' with ⟨v, hv, rfl⟩
          rcases hVnode v hv with ⟨n, hn, hid⟩
          exact ⟨n, hn, hid.trans hty.symm⟩
  · rcases (KG.mem_buildVideoRel videos _ ed).1 h2 with ⟨p, hp, _, rfl⟩
    have hmem := KG.mem_of_mem_listPairs hp
    constructor
    · rcases hVnode p.1 hmem.1 with ⟨n, hn, hid⟩
      exact ⟨n, hn, hid⟩
    · rcases hVnode p.2 hmem.2 with ⟨n, hn, hid⟩
      exact ⟨n, hn, hid⟩

/-- Witness for C4 on the concrete three-document input. -/
theorem c4_witness :
    ∃ snap, KG.buildGraphFromVideos KG.videosThreeDocs = .ok snap ∧
      ∀ ed ∈ snap.edges,
        (∃ n ∈ snap.nodes, KG.GNode.id n = ed.source) ∧
        (∃ n ∈ snap.nodes, KG.GNode.id n = ed.target) := by
  rcases hok : KG.buildGraphFromVideos KG.videosThreeDocs with err | snap
  · have hisok : (KG.buildGraphFromVideos KG.videosThreeDocs).isOk = true := by
      decide
    rw [hok] at hisok
    cases hisok
  · exact ⟨snap, rfl, c4_no_dangling KG.videosThreeDocs snap hok⟩

/-! ## RAG sorting lemmas -/

namespace RAG

theorem mem_insertBySim (r : Rel) (l : List Rel) (a : Rel) :
    a ∈ insertBySim r l ↔ a = r ∨ a ∈ l := by
  induction l with
  | nil =>
    unfold insertBySim
    simp
  | cons x xs ih =>
    unfold insertBySim
    by_cases hc : x.similarity < r.similarity
    · rw [if_pos hc]
      simp
    · rw [if_neg hc]
      rw [List.mem_cons, ih, List.mem_cons]
      tauto

theorem sorted_insertBySim (r : Rel) (l : List Rel)
    (h : l.Pairwise (fun a b => b.similarity ≤ a.similarity)) :
    (insertBySim r l).Pairwise (fun a b => b.similarity ≤ a.similarity) := by
  induction l with
  | nil =>
    unfold insertBySim
    simp
  | cons x xs ih =>
    rcases List.pairwise_cons.1 h with ⟨hx, hxs⟩
    unfold insertBySim
    by_cases hc : x.similarity < r.similarity
    · rw [if_pos hc]
      refine List.pairwise_cons.2 ⟨?_, h⟩
      intro y hy
      rcases List.mem_cons.1 hy with rfl | hy'
      · exact le_of_lt hc
      · exact le_trans (hx y hy') (le_of_lt hc)
    · rw [if_neg hc]
      refine List.pairwise_cons.2 ⟨?_, ih hxs⟩
      intro y hy
      rcases (mem_insertBySim r xs y).1 hy with rfl | hy'
      · exact not_lt.1 hc
      · exact hx y hy'

theorem sorted_sortRels (l : List Rel) :
    (sortRels l).Pairwise (fun a b => b.similarity ≤ a.similarity) := by
  induction l with
  | nil => simp [sortRels]
  | cons x xs ih => exact sorted_insertBySim x _ ih

theorem mem_sortRels (l : List Rel) (a : Rel) :
    a ∈ sortRels l ↔ a ∈ l := by
  induction l with
  | nil => simp [sortRels]
  | cons x xs ih =>
    show a ∈ insertBySim x (sortRels xs) ↔ _
    rw [mem_insertBySim, ih, List.mem_cons]

end RAG

/-! ## Claim C10 -/

/-- C10: whatever branch is taken (embedding fallback,
key-points-to-content, or key-points-to-key-points), a successful
`buildRelationships` call returns its relationship list sorted in
non-increasing order of `similarity`. -/
theorem c10_sorted (st : RAG.RAGState) (videoId : String)
    (summaryJson : Option RAG.Summary) (l : List RAG.Rel)
    (h : RAG.buildRelationships st videoId summaryJson = .ok l) :
    l.Pairwise (fun a b => b.similarity ≤ a.similarity) := by
  have hmapcase : ∀ x : Except Unit (List RAG.Rel),
      x.map RAG.sortRels = .ok l →
      l.Pairwise (fun a b => b.similarity ≤ a.similarity) := by
    intro x hx
    rcases x with err | l0
    · simp [Except.map] at hx
    · simp only [Except.map] at hx
      cases hx
      exact RAG.sorted_sortRels l0
  unfold RAG.buildRelationships at h
  split at h
  · cases h
    simp
  · by_cases hc : (RAG.summaryKeyPoints summaryJson).length = 0
    · rw [if_pos hc] at h
      exact hmapcase _ h
    · rw [if_neg hc] at h
      cases h
      exact RAG.sorted_sortRels _

/-- Witness for C10 at a concrete state (empty index). -/
theorem c10_witness :
    RAG.buildRelationships ⟨[], []⟩ "v" none = .ok [] ∧
      ([] : List RAG.Rel).Pairwise
        (fun a b => b.similarity ≤ a.similarity) :=
  ⟨rfl, c10_sorted ⟨[], []⟩ "v" none [] rfl⟩

/-! ## Cosine-similarity bounds -/

namespace RAG

theorem allWords_nodup (e1 e2 : Emb) : (allWords e1 e2).Nodup :=
  List.nodup_dedup _

theorem cast_listsum_map (ws : List String) (f : String → ℕ) :
    (((ws.map f).sum : ℕ) : ℝ) = (ws.map (fun w => (f w : ℝ))).sum := by
  induction ws with
  | nil => simp
  | cons w rest ih =>
    simp only [List.map_cons, List.sum_cons, Nat.cast_add, ih]

theorem listsum_toFinset (ws : List String) (hnd : ws.Nodup) (f : String → ℕ) :
    (((ws.map f).sum : ℕ) : ℝ) = ∑ w ∈ ws.toFinset, (f w : ℝ) := by
  rw [cast_listsum_map, List.sum_toFinset _ hnd]

theorem cs_bound (e1 e2 : Emb) :
    ((dotProduct e1 e2 (allWords e1 e2) : ℕ) : ℝ) ^ 2 ≤
      ((magSq e1 (allWords e1 e2) : ℕ) : ℝ) *
        ((magSq e2 (allWords e1 e2) : ℕ) : ℝ) := by
  unfold dotProduct magSq
  rw [listsum_toFinset _ (allWords_nodup e1 e2),
    listsum_toFinset _ (allWords_nodup e1 e2),
    listsum_toFinset _ (allWords_nodup e1 e2)]
  have h := Finset.sum_mul_sq_le_sq_mul_sq (allWords e1 e2).toFinset
    (fun w => (embVal e1 w : ℝ)) (fun w => (embVal e2 w : ℝ))
  have deq : ∑ w ∈ (allWords e1 e2).toFinset,
      ((embVal e1 w * embVal e2 w : ℕ) : ℝ) =
      ∑ w ∈ (allWords e1 e2).toFinset, (embVal e1 w : ℝ) * (embVal e2 w : ℝ) :=
    Finset.sum_congr rfl (fun x _ => by push_cast; ring)
  have e1eq : ∑ w ∈ (allWords e1 e2).toFinset,
      ((embVal e1 w * embVal e1 w : ℕ) : ℝ) =
      ∑ w ∈ (allWords e1 e2).toFinset, (embVal e1 w : ℝ) ^ 2 :=
    Finset.sum_congr rfl (fun x _ => by push_cast; rw [pow_two])
  have e2eq : ∑ w ∈ (allWords e1 e2).toFinset,
      ((embVal e2 w * embVal e2 w : ℕ) : ℝ) =
      ∑ w ∈ (allWords e1 e2).toFinset, (embVal e2 w : ℝ) ^ 2 :=
    Finset.sum_congr rfl (fun x _ => by push_cast; rw [pow_two])
  rw [deq, e1eq, e2eq]
  exact h

theorem cosineSimilarity_nonneg (e1 e2 : Emb) : 0 ≤ cosineSimilarity e1 e2 := by
  unfold cosineSimilarity
  split
  · exact le_refl 0
  · positivity

theorem cosineSimilarity_le_one (e1 e2 : Emb) : cosineSimilarity e1 e2 ≤ 1 := by
  unfold cosineSimilarity
  split
  next => exact zero_le_one
  next h =>
    push_neg at h
    have hm1 : (0:ℝ) < (magSq e1 (allWords e1 e2) : ℕ) := by
      exact_mod_cast Nat.pos_of_ne_zero h.1
    have hm2 : (0:ℝ) < (magSq e2 (allWords e1 e2) : ℕ) := by
      exact_mod_cast Nat.pos_of_ne_zero h.2
    rw [div_le_one (by positivity)]
    have hdot : (0:ℝ) ≤ (dotProduct e1 e2 (allWords e1 e2) : ℕ) :=
      Nat.cast_nonneg _
    calc ((dotProduct e1 e2 (allWords e1 e2) : ℕ) : ℝ)
        ≤ Real.sqrt (((magSq e1 (allWords e1 e2) : ℕ) : ℝ) *
            ((magSq e2 (allWords e1 e2) : ℕ) : ℝ)) := by
          rw [Real.le_sqrt hdot (by positivity)]
          exact cs_bound e1 e2
      _ = Real.sqrt ((magSq e1 (allWords e1 e2) : ℕ) : ℝ) *
            Real.sqrt ((magSq e2 (allWords e1 e2) : ℕ) : ℝ) :=
          Real.sqrt_mul (le_of_lt hm1) _
      _ ≤ _ := le_refl _

end RAG

/-! ## RAG loop characterisations -/

namespace RAG

theorem keyPointRecs_none {embeddings : List (String × Emb)} {oid : String}
    (videoId : String) (vkps : List String) (vemb : Emb) (oc : Content)
    (hkp : oc.keyPoints.length = 0) (hlk : KG.lookup embeddings oid = none) :
    keyPointRecs videoId vkps vemb embeddings oid oc = [] := by
  unfold keyPointRecs
  rw [if_pos hkp, hlk]

theorem keyPointRecs_some {embeddings : List (String × Emb)} {oid : String}
    {oemb : Emb} (videoId : String) (vkps : List String) (vemb : Emb)
    (oc : Content) (hkp : oc.keyPoints.length = 0)
    (hlk : KG.lookup embeddings oid = some oemb) :
    keyPointRecs videoId vkps vemb embeddings oid oc =
      if cosineSimilarity vemb oemb > 0.2 then
        [{ targetVideoId := oid, title := oc.title,
           similarity := cosineSimilarity vemb oemb,
           type := if cosineSimilarity vemb oemb > 0.5
             then "strong" else "moderate",
           reason := "Key points to content similarity" }]
      else [] := by
  unfold keyPointRecs
  rw [if_pos hkp, hlk]

theorem keyPointRecs_kp (videoId : String) (vkps : List String) (vemb : Emb)
    (embeddings : List (String × Emb)) (oid : String) (oc : Content)
    (hkp : ¬ oc.keyPoints.length = 0) :
    keyPointRecs videoId vkps vemb embeddings oid oc =
      if cosineSimilarity vemb
          (generateSimpleEmbedding (toLowerStr (joinSpace oc.keyPoints)))
          > 0.2 ∨
          (findCommonThemes vkps oc.keyPoints).length > 0 then
        [{ targetVideoId := oid, title := oc.title,
           similarity := max (cosineSimilarity vemb
             (generateSimpleEmbedding (toLowerStr (joinSpace oc.keyPoints))))
             (((findCommonThemes vkps oc.keyPoints).length : ℝ) * 0.2),
           type := if cosineSimilarity vemb
               (generateSimpleEmbedding (toLowerStr (joinSpace oc.keyPoints)))
               > 0.5 ∨
               (findCommonThemes vkps oc.keyPoints).length ≥ 2
             then "strong" else "moderate",
           reason := if (findCommonThemes vkps oc.keyPoints).length > 0
             then "Common themes: " ++ String.intercalate ", "
               ((findCommonThemes vkps oc.keyPoints).take 3)
             else "Key points similarity",
           commonThemes := some (findCommonThemes vkps oc.keyPoints) }]
      else [] := by
  unfold keyPointRecs
  rw [if_neg hkp]

theorem keyPointRecs_target (videoId : String) (vkps : List String)
    (vemb : Emb) (embeddings : List (String × Emb)) (oid : String)
    (oc : Content) :
    ∀ r ∈ keyPointRecs videoId vkps vemb embeddings oid oc,
      r.targetVideoId = oid := by
  intro r hr
  by_cases hkp : oc.keyPoints.length = 0
  · rcases hlk : KG.lookup embeddings oid with _ | oemb
    · rw [keyPointRecs_none videoId vkps vemb oc hkp hlk] at hr
      simp at hr
    · rw [keyPointRecs_some videoId vkps vemb oc hkp hlk] at hr
      split at hr
      · rcases List.mem_singleton.1 hr with rfl
        rfl
      · simp at hr
  · rw [keyPointRecs_kp videoId vkps vemb embeddings oid oc hkp] at hr
    split at hr
    · rcases List.mem_singleton.1 hr with rfl
      rfl
    · simp at hr

theorem keyPointRecs_bounded (videoId : String) (vkps : List String)
    (vemb : Emb) (embeddings : List (String × Emb)) (oid : String)
    (oc : Content) :
    ∀ r ∈ keyPointRecs videoId vkps vemb embeddings oid oc,
      0 ≤ r.similarity ∧
        r.similarity ≤ max 1 (((r.commonThemes.getD []).length : ℝ) * 0.2) := by
  intro r hr
  by_cases hkp : oc.keyPoints.length = 0
  · rcases hlk : KG.lookup embeddings oid with _ | oemb
    · rw [keyPointRecs_none videoId vkps vemb oc hkp hlk] at hr
      simp at hr
    · rw [keyPointRecs_some videoId vkps vemb oc hkp hlk] at hr
      split at hr
      · rcases List.mem_singleton.1 hr with rfl
        exact ⟨cosineSimilarity_nonneg _ _,
          le_trans (cosineSimilarity_le_one _ _) (le_max_left _ _)⟩
      · simp at hr
  · rw [keyPointRecs_kp videoId vkps vemb embeddings oid oc hkp] at hr
    split at hr
    · rcases List.mem_singleton.1 hr with rfl
      constructor
      · exact le_trans (cosineSimilarity_nonneg _ _) (le_max_left _ _)
      · exact max_le_max (cosineSimilarity_le_one _ _) (le_refl _)
    · simp at hr

theorem keyPointRels_targets (videoId : String) (vkps : List String)
    (vemb : Emb) (embeddings : List (String × Emb))
    (entries : List (String × Content)) :
    ∀ r ∈ keyPointRels videoId vkps vemb embeddings entries,
      ∃ oc, (r.targetVideoId, oc) ∈ entries := by
  induction entries with
  | nil =>
    intro r hr
    simp [keyPointRels] at hr
  | cons p rest ih =>
    obtain ⟨oid', oc'⟩ := p
    intro r hr
    unfold keyPointRels at hr
    split at hr
    · rcases ih r hr with ⟨oc'', hm⟩
      exact ⟨oc'', List.mem_cons_of_mem _ hm⟩
    · rcases List.mem_append.1 hr with h1 | h2
      · have ht := keyPointRecs_target videoId vkps vemb embeddings oid' oc' r h1
        rw [ht]
        exact ⟨oc', List.mem_cons_self _ _⟩
      · rcases ih r h2 with ⟨oc'', hm⟩
        exact ⟨oc'', List.mem_cons_of_mem _ hm⟩

theorem keyPointRels_bounded (videoId : String) (vkps : List String)
    (vemb : Emb) (embeddings : List (String × Emb))
    (entries : List (String × Content)) :
    ∀ r ∈ keyPointRels videoId vkps vemb embeddings entries,
      0 ≤ r.similarity ∧
        r.similarity ≤ max 1 (((r.commonThemes.getD []).length : ℝ) * 0.2) := by
  induction entries with
  | nil =>
    intro r hr
    simp [keyPointRels] at hr
  | cons p rest ih =>
    obtain ⟨oid', oc'⟩ := p
    intro r hr
    unfold keyPointRels at hr
    split at hr
    · exact ih r hr
    · rcases List.mem_append.1 hr with h1 | h2
      · exact keyPointRecs_bounded videoId vkps vemb embeddings oid' oc' r h1
      · exact ih r h2

end RAG

namespace RAG

theorem keyPointRels_spec (videoId : String) (vkps : List String) (vemb : Emb)
    (embeddings : List (String × Emb)) (entries : List (String × Content))
    (hkeys : (entries.map Prod.fst).Nodup) (oid : String) (oc : Content)
    (hmem : (oid, oc) ∈ entries) (hne : ¬ oid = videoId)
    (hkp : ¬ oc.keyPoints.length = 0) :
    ((∃ r ∈ keyPointRels videoId vkps vemb embeddings entries,
        r.targetVideoId = oid) ↔
      (cosineSimilarity vemb
        (generateSimpleEmbedding (toLowerStr (joinSpace oc.keyPoints))) > 0.2 ∨
        (findCommonThemes vkps oc.keyPoints).length > 0)) ∧
    (∀ r ∈ keyPointRels videoId vkps vemb embeddings entries,
      r.targetVideoId = oid →
      r.similarity = max (cosineSimilarity vemb
          (generateSimpleEmbedding (toLowerStr (joinSpace oc.keyPoints))))
          (((findCommonThemes vkps oc.keyPoints).length : ℝ) * 0.2) ∧
      (r.type = "strong" ↔ (cosineSimilarity vemb
          (generateSimpleEmbedding (toLowerStr (joinSpace oc.keyPoints))) > 0.5 ∨
          2 ≤ (findCommonThemes vkps oc.keyPoints).length)) ∧
      (r.type = "strong" ∨ r.type = "moderate") ∧
      r.commonThemes = some (findCommonThemes vkps oc.keyPoints)) := by
  induction entries with
  | nil => simp at hmem
  | cons p rest ih =>
    obtain ⟨oid', oc'⟩ := p
    rw [List.map_cons] at hkeys
    have hkc := List.nodup_cons.1 hkeys
    by_cases hid : oid' = videoId
    · have hmem' : (oid, oc) ∈ rest := by
        rcases List.mem_cons.1 hmem with heq | h
        · exact absurd ((Prod.ext_iff.1 heq).1.trans hid) hne
        · exact h
      unfold keyPointRels
      rw [if_pos hid]
      exact ih hkc.2 hmem'
    · unfold keyPointRels
      rw [if_neg hid]
      by_cases hoid : oid' = oid
      · subst hoid
        have hoc : oc' = oc := by
          rcases List.mem_cons.1 hmem with heq | h
          · exact ((Prod.ext_iff.1 heq).2).symm
          · exact absurd (List.mem_map.2 ⟨(oid', oc), h, rfl⟩) hkc.1
        subst hoc
        constructor
        · constructor
          · rintro ⟨r, hr, hrt⟩
            rcases List.mem_append.1 hr with h1 | h2
            · rw [keyPointRecs_kp _ _ _ _ _ _ hkp] at h1
              split at h1
              next hcond => exact hcond
              next => simp at h1
            · exfalso
              rcases keyPointRels_targets _ _ _ _ rest r h2 with ⟨oc'', hm⟩
              rw [hrt] at hm
              exact hkc.1 (List.mem_map.2 ⟨(oid', oc''), hm, rfl⟩)
          · intro hcond
            rw [keyPointRecs_kp _ _ _ _ _ _ hkp, if_pos hcond]
            exact ⟨_, List.mem_cons_self _ _, rfl⟩
        · intro r hr hrt
          rcases List.mem_append.1 hr with h1 | h2
          · rw [keyPointRecs_kp _ _ _ _ _ _ hkp] at h1
            split at h1
            next =>
              rcases List.mem_singleton.1 h1 with rfl
              refine ⟨rfl, ?_, ?_, rfl⟩
              · show (if cosineSimilarity vemb
                    (generateSimpleEmbedding (toLowerStr (joinSpace oc'.keyPoints)))
                    > 0.5 ∨
                    (findCommonThemes vkps oc'.keyPoints).length ≥ 2
                  then "strong" else "moderate") = "strong" ↔ _
                by_cases hc5 : cosineSimilarity vemb
                    (generateSimpleEmbedding (toLowerStr (joinSpace oc'.keyPoints)))
                    > 0.5 ∨
                    (findCommonThemes vkps oc'.keyPoints).length ≥ 2
                · rw [if_pos hc5]
                  exact ⟨fun _ => hc5, fun _ => rfl⟩
                · rw [if_neg hc5]
                  exact ⟨fun hh => absurd hh (by decide),
                    fun hh => absurd hh hc5⟩
              · show (if cosineSimilarity vemb
                    (generateSimpleEmbedding (toLowerStr (joinSpace oc'.keyPoints)))
                    > 0.5 ∨
                    (findCommonThemes vkps oc'.keyPoints).length ≥ 2
                  then "strong" else "moderate") = "strong" ∨ _
                by_cases hc5 : cosineSimilarity vemb
                    (generateSimpleEmbedding (toLowerStr (joinSpace oc'.keyPoints)))
                    > 0.5 ∨
                    (findCommonThemes vkps oc'.keyPoints).length ≥ 2
                · rw [if_pos hc5]
                  exact Or.inl rfl
                · rw [if_neg hc5]
                  exact Or.inr rfl
            next => simp at h1
          · exfalso
            rcases keyPointRels_targets _ _ _ _ rest r h2 with ⟨oc'', hm⟩
            rw [hrt] at hm
            exact hkc.1 (List.mem_map.2 ⟨(oid', oc''), hm, rfl⟩)
      · have hmem' : (oid, oc) ∈ rest := by
          rcases List.mem_cons.1 hmem with heq | h
          · exact absurd (Prod.ext_iff.1 heq).1.symm hoid
          · exact h
        have ihres := ih hkc.2 hmem'
        constructor
        · constructor
          · rintro ⟨r, hr, hrt⟩
            rcases List.mem_append.1 hr with h1 | h2
            · have ht := keyPointRecs_target _ _ _ _ _ _ r h1
              exact absurd (ht.symm.trans hrt) hoid
            · exact ihres.1.1 ⟨r, h2, hrt⟩
          · intro hcond
            rcases ihres.1.2 hcond with ⟨r, hr, hrt⟩
            exact ⟨r, List.mem_append_right _ hr, hrt⟩
        · intro r hr hrt
          rcases List.mem_append.1 hr with h1 | h2
          · have ht := keyPointRecs_target _ _ _ _ _ _ r h1
            exact absurd (ht.symm.trans hrt) hoid
          · exact ihres.2 r h2 hrt

end RAG

namespace RAG

theorem buildRelationships_some (st : RAGState) (videoId : String)
    (summaryJson : Option Summary) (c : Content)
    (hlk : KG.lookup st.index videoId = some c) :
    buildRelationships st videoId summaryJson =
      if (summaryKeyPoints summaryJson).length = 0 then
        (embeddingRels videoId (KG.lookup st.embeddings videoId) st.embeddings
          st.index).map sortRels
      else
        .ok (sortRels (keyPointRels videoId (summaryKeyPoints summaryJson)
          (generateSimpleEmbedding (toLowerStr (joinSpace
            (summaryKeyPoints summaryJson))))
          st.embeddings st.index)) := by
  unfold buildRelationships
  rw [hlk]

end RAG

/-! ## Claim C7 -/

/-- C7: for an indexed video whose summary has key points and any other
indexed document that also has key points, the successful
`buildRelationships` output contains a relationship targeting the other
document if and only if the cosine similarity of the key-point
term-frequency embeddings exceeds 0.2 or at least one common theme
exists; and every relationship targeting it carries similarity
`max(cosine, 0.2 * number of common themes)`, is typed `strong` exactly
when the cosine exceeds 0.5 or there are at least 2 common themes and
`moderate` otherwise, and records the common-theme list. -/
theorem c7_keypoint_similarity (st : RAG.RAGState) (videoId : String)
    (summaryJson : Option RAG.Summary) (rels : List RAG.Rel)
    (c : RAG.Content) (hkeys : (st.index.map Prod.fst).Nodup)
    (hlk : KG.lookup st.index videoId = some c)
    (hvkps : ¬ (RAG.summaryKeyPoints summaryJson).length = 0)
    (oid : String) (oc : RAG.Content) (hmem : (oid, oc) ∈ st.index)
    (hne : ¬ oid = videoId) (hkp : ¬ oc.keyPoints.length = 0)
    (hok : RAG.buildRelationships st videoId summaryJson = .ok rels) :
    ((∃ r ∈ rels, r.targetVideoId = oid) ↔
      (RAG.cosineSimilarity
          (RAG.generateSimpleEmbedding (toLowerStr (joinSpace
            (RAG.summaryKeyPoints summaryJson))))
          (RAG.generateSimpleEmbedding (toLowerStr (joinSpace oc.keyPoints)))
          > 0.2 ∨
        (RAG.findCommonThemes (RAG.summaryKeyPoints summaryJson)
          oc.keyPoints).length > 0)) ∧
    (∀ r ∈ rels, r.targetVideoId = oid →
      r.similarity = max (RAG.cosineSimilarity
          (RAG.generateSimpleEmbedding (toLowerStr (joinSpace
            (RAG.summaryKeyPoints summaryJson))))
          (RAG.generateSimpleEmbedding (toLowerStr (joinSpace oc.keyPoints))))
          (((RAG.findCommonThemes (RAG.summaryKeyPoints summaryJson)
            oc.keyPoints).length : ℝ) * 0.2) ∧
      (r.type = "strong" ↔ (RAG.cosineSimilarity
          (RAG.generateSimpleEmbedding (toLowerStr (joinSpace
            (RAG.summaryKeyPoints summaryJson))))
          (RAG.generateSimpleEmbedding (toLowerStr (joinSpace oc.keyPoints)))
          > 0.5 ∨
        2 ≤ (RAG.findCommonThemes (RAG.summaryKeyPoints summaryJson)
          oc.keyPoints).length)) ∧
      (r.type = "strong" ∨ r.type = "moderate") ∧
      r.commonThemes = some (RAG.findCommonThemes
        (RAG.summaryKeyPoints summaryJson) oc.keyPoints)) := by
  rw [RAG.buildRelationships_some st videoId summaryJson c hlk,
    if_neg hvkps] at hok
  cases hok
  have hspec := RAG.keyPointRels_spec videoId
    (RAG.summaryKeyPoints summaryJson)
    (RAG.generateSimpleEmbedding (toLowerStr (joinSpace
      (RAG.summaryKeyPoints summaryJson))))
    st.embeddings st.index hkeys oid oc hmem hne hkp
  constructor
  · constructor
    · rintro ⟨r, hr, hrt⟩
      exact hspec.1.1 ⟨r, (RAG.mem_sortRels _ r).1 hr, hrt⟩
    · intro hc
      rcases hspec.1.2 hc with ⟨r, hr, hrt⟩
      exact ⟨r, (RAG.mem_sortRels _ r).2 hr, hrt⟩
  · intro r hr hrt
    exact hspec.2 r ((RAG.mem_sortRels _ r).1 hr) hrt

/-- Witness for C7 at the two-video state with identical key point
`"quantum"`: the relationship targeting the other video exists. -/
theorem c7_witness :
    ∃ r ∈ RAG.sortRels (RAG.keyPointRels "v1"
        (RAG.summaryKeyPoints (some ⟨some ["quantum"]⟩))
        (RAG.generateSimpleEmbedding (toLowerStr (joinSpace
          (RAG.summaryKeyPoints (some ⟨some ["quantum"]⟩)))))
        RAG.quantumState.embeddings RAG.quantumState.index),
      r.targetVideoId = "v2" := by
  have h := c7_keypoint_similarity RAG.quantumState "v1"
      (some ⟨some ["quantum"]⟩)
      (RAG.sortRels (RAG.keyPointRels "v1"
        (RAG.summaryKeyPoints (some ⟨some ["quantum"]⟩))
        (RAG.generateSimpleEmbedding (toLowerStr (joinSpace
          (RAG.summaryKeyPoints (some ⟨some ["quantum"]⟩)))))
        RAG.quantumState.embeddings RAG.quantumState.index))
      RAG.quantumContent (by decide) rfl (by decide) "v2" RAG.quantumContent
      (by decide) (by decide) (by decide)
      (by rw [RAG.buildRelationships_some RAG.quantumState "v1" _
          RAG.quantumContent rfl, if_neg (by decide)])
  exact h.1.2 (Or.inr (by decide))

/-! ## Claim C3: bounds on all produced weights -/

namespace KG

theorem mem_coocEdges_weight {vid : String} {ves : List Entity} {ed : Edge}
    (h : ed ∈ coocEdgesOfGroup vid ves) :
    ∃ d : ℕ, d ≤ 2 ∧ ed.weight = 1 / ((d : ℚ) + 1) := by
  rcases List.mem_filterMap.1 h with ⟨p, hp, hsome⟩
  by_cases hc : ((p.1.keyPointIndex : ℤ) - p.2.keyPointIndex).natAbs ≤ 2
  · rw [if_pos hc] at hsome
    cases hsome
    exact ⟨_, hc, rfl⟩
  · rw [if_neg hc] at hsome
    cases hsome

end KG

namespace RAG

theorem keyPointRels_nil (videoId : String) (vkps : List String) (vemb : Emb)
    (embeddings : List (String × Emb)) :
    keyPointRels videoId vkps vemb embeddings [] = [] := rfl

theorem keyPointRels_cons_self (videoId : String) (vkps : List String)
    (vemb : Emb) (embeddings : List (String × Emb)) (oid : String)
    (oc : Content) (rest : List (String × Content)) (h : oid = videoId) :
    keyPointRels videoId vkps vemb embeddings ((oid, oc) :: rest) =
      keyPointRels videoId vkps vemb embeddings rest := by
  conv_lhs => unfold keyPointRels
  rw [if_pos h]

theorem keyPointRels_cons_other (videoId : String) (vkps : List String)
    (vemb : Emb) (embeddings : List (String × Emb)) (oid : String)
    (oc : Content) (rest : List (String × Content)) (h : ¬ oid = videoId) :
    keyPointRels videoId vkps vemb embeddings ((oid, oc) :: rest) =
      keyPointRecs videoId vkps vemb embeddings oid oc ++
        keyPointRels videoId vkps vemb embeddings rest := by
  conv_lhs => unfold keyPointRels
  rw [if_neg h]

theorem embeddingRels_cons_self (videoId : String) (vemb : Option Emb)
    (embeddings : List (String × Emb)) (oid : String) (oc : Content)
    (rest : List (String × Content)) (h : oid = videoId) :
    embeddingRels videoId vemb embeddings ((oid, oc) :: rest) =
      embeddingRels videoId vemb embeddings rest := by
  conv_lhs => unfold embeddingRels
  rw [if_pos h]

theorem embeddingRels_cons_nolookup (videoId : String) (vemb : Option Emb)
    (embeddings : List (String × Emb)) (oid : String) (oc : Content)
    (rest : List (String × Content)) (h : ¬ oid = videoId)
    (hlk : KG.lookup embeddings oid = none) :
    embeddingRels videoId vemb embeddings ((oid, oc) :: rest) =
      embeddingRels videoId vemb embeddings rest := by
  conv_lhs => unfold embeddingRels
  rw [if_neg h, hlk]

theorem embeddingRels_cons_noemb (videoId : String)
    (embeddings : List (String × Emb)) (oid : String) (oc : Content)
    (rest : List (String × Content)) {oemb : Emb} (h : ¬ oid = videoId)
    (hlk : KG.lookup embeddings oid = some oemb) :
    embeddingRels videoId none embeddings ((oid, oc) :: rest) =
      .error () := by
  conv_lhs => unfold embeddingRels
  rw [if_neg h, hlk]

theorem embeddingRels_cons_emb (videoId : String) (vE : Emb)
    (embeddings : List (String × Emb)) (oid : String) (oc : Content)
    (rest : List (String × Content)) {oemb : Emb} (h : ¬ oid = videoId)
    (hlk : KG.lookup embeddings oid = some oemb) :
    embeddingRels videoId (some vE) embeddings ((oid, oc) :: rest) =
      (embeddingRels videoId (some vE) embeddings rest).map (fun tail =>
        (if cosineSimilarity vE oemb > 0.3 then
          [{ targetVideoId := oid, title := oc.title,
             similarity := cosineSimilarity vE oemb,
             type := if cosineSimilarity vE oemb > 0.6
               then "strong" else "moderate",
             reason := "Content similarity" }]
         else []) ++ tail) := by
  conv_lhs => unfold embeddingRels
  rw [if_neg h, hlk]

theorem embeddingRels_bounded (videoId : String) (vemb : Option Emb)
    (embeddings : List (String × Emb)) (entries : List (String × Content))
    (l : List Rel) (h : embeddingRels videoId vemb embeddings entries = .ok l) :
    ∀ r ∈ l, 0 ≤ r.similarity ∧
      r.similarity ≤ max 1 (((r.commonThemes.getD []).length : ℝ) * 0.2) := by
  induction entries generalizing l with
  | nil =>
    cases h
    intro r hr
    simp at hr
  | cons p rest ih =>
    obtain ⟨oid, oc⟩ := p
    intro r hr
    by_cases hid : oid = videoId
    · rw [embeddingRels_cons_self videoId vemb embeddings oid oc rest hid] at h
      exact ih l h r hr
    · rcases hlk : KG.lookup embeddings oid with _ | oemb
      · rw [embeddingRels_cons_nolookup videoId vemb embeddings oid oc rest
          hid hlk] at h
        exact ih l h r hr
      · rcases vemb with _ | vE
        · rw [embeddingRels_cons_noemb videoId embeddings oid oc rest
            hid hlk] at h
          cases h
        · rw [embeddingRels_cons_emb videoId vE embeddings oid oc rest
            hid hlk] at h
          rcases htl : embeddingRels videoId (some vE) embeddings rest
            with err | tail
          · rw [htl] at h
            simp [Except.map] at h
          · rw [htl] at h
            simp only [Except.map] at h
            cases h
            rcases List.mem_append.1 hr with h1 | h2
            · by_cases hsim : cosineSimilarity vE oemb > 0.3
              · rw [if_pos hsim] at h1
                rcases List.mem_singleton.1 h1 with rfl
                exact ⟨cosineSimilarity_nonneg _ _,
                  le_trans (cosineSimilarity_le_one _ _) (le_max_left _ _)⟩
              · rw [if_neg hsim] at h1
                simp at h1
            · exact ih tail htl r h2

end RAG

/-- C3 counterexample: on two indexed videos sharing six long keywords
in their key points, a successful `buildRelationships` call returns a
relationship record whose similarity exceeds 1 (it is
`max(cosine, 6 * 0.2) ≥ 1.2`), refuting the claim that every produced
weight or similarity lies in `[0,1]`. -/
theorem c3_counterexample :
    ∃ rels, RAG.buildRelationships RAG.themesState "v1"
        (some ⟨some RAG.themesKeyPoints⟩) = .ok rels ∧
      ∃ r ∈ rels, 1 < r.similarity := by
  refine ⟨RAG.sortRels (RAG.keyPointRels "v1"
      (RAG.summaryKeyPoints (some ⟨some RAG.themesKeyPoints⟩))
      (RAG.generateSimpleEmbedding (toLowerStr (joinSpace
        (RAG.summaryKeyPoints (some ⟨some RAG.themesKeyPoints⟩)))))
      RAG.themesState.embeddings RAG.themesState.index), ?_, ?_⟩
  · rw [RAG.buildRelationships_some RAG.themesState "v1" _
      RAG.themesContent rfl, if_neg (by decide)]
  · have hidx : RAG.themesState.index =
        [("v1", RAG.themesContent), ("v2", RAG.themesContent)] := rfl
    have hemb : RAG.themesState.embeddings = ([] : List (String × RAG.Emb)) :=
      rfl
    rw [hidx, hemb,
      RAG.keyPointRels_cons_self _ _ _ _ _ _ _ rfl,
      RAG.keyPointRels_cons_other _ _ _ _ _ _ _ (by decide),
      RAG.keyPointRels_nil, List.append_nil,
      RAG.keyPointRecs_kp _ _ _ _ _ _ (by decide),
      if_pos (Or.inr (by decide))]
    refine ⟨_, (RAG.mem_sortRels _ _).2 (List.mem_singleton_self _), ?_⟩
    refine lt_of_lt_of_le ?_ (le_max_right _ _)
    have h6 : (RAG.findCommonThemes
        (RAG.summaryKeyPoints (some ⟨some RAG.themesKeyPoints⟩))
        RAG.themesContent.keyPoints).length = 6 := by decide
    rw [h6]
    norm_num

/-- C3 (amended): every edge of a successfully assembled snapshot —
co-occurs, appears-in, and document-similarity — carries a weight in
`[0,1]`; every record of a successful per-document relationship build
has nonnegative similarity bounded by
`max 1 (0.2 * number of recorded common themes)` (the key-point branch
exceeds 1 exactly when the theme signal `0.2 * themes` does). -/
theorem c3_amended (videos : List KG.Video) (snap : KG.Snapshot)
    (hsnap : KG.buildGraphFromVideos videos = .ok snap)
    (st : RAG.RAGState) (videoId : String) (summaryJson : Option RAG.Summary)
    (rels : List RAG.Rel)
    (hrels : RAG.buildRelationships st videoId summaryJson = .ok rels) :
    (∀ ed ∈ snap.edges, 0 ≤ ed.weight ∧ ed.weight ≤ 1) ∧
    (∀ r ∈ rels, 0 ≤ r.similarity ∧
      r.similarity ≤ max 1 (((r.commonThemes.getD []).length : ℝ) * 0.2)) := by
  rcases KG.buildGraph_ok_inversion videos snap hsnap with ⟨mls, hm, _, hedges⟩
  have hids := KG.dedup_ids_nodup mls.flatten
  have hdocs : ∀ e ∈ KG.deduplicateEntities mls.flatten,
      (KG.sourceDocs e).Nodup := by
    apply KG.mem_dedup_pred (fun e => (KG.sourceDocs e).Nodup)
    · intro x m hx _
      exact KG.sourceDocs_nodup_mergeInto x m hx
    · intro m hm'
      rcases KG.mapM_mentions_inv videos mls hm m hm' with ⟨v, _, _, h2⟩
      rw [h2]
      exact List.nodup_singleton _
  constructor
  · intro ed hed
    rw [hedges] at hed
    rcases List.mem_append.1 hed with h1 | h2
    · unfold KG.buildEntityRelationships at h1
      rcases List.mem_append.1 h1 with hc | hx
      · rcases List.mem_flatMap.1 hc with ⟨g, _, hin⟩
        rcases KG.mem_coocEdges_weight hin with ⟨d, _, hw⟩
        rw [hw]
        constructor
        · positivity
        · rw [div_le_one (by positivity)]
          have hd : (0:ℚ) ≤ (d:ℚ) := Nat.cast_nonneg d
          linarith
      · rcases List.mem_flatMap.1 hx with ⟨e', _, hin⟩
        rcases hsv : e'.sourceVideos with _ | svs
        · rw [KG.crossVideoEdges_none e' hsv] at hin
          simp at hin
        · have hf := KG.mem_appearsInEdge_fields e' hsv hin
          rw [hf.2.2.1]
          norm_num
    · rcases (KG.mem_buildVideoRel videos _ ed).1 h2 with ⟨p, _, _, rfl⟩
      exact ⟨KG.jaccard_nonneg _ _ _, KG.jaccard_le_one _ hids hdocs _ _⟩
  · intro r hr
    unfold RAG.buildRelationships at hrels
    split at hrels
    · cases hrels
      simp at hr
    · by_cases hc : (RAG.summaryKeyPoints summaryJson).length = 0
      · rw [if_pos hc] at hrels
        rcases hre : RAG.embeddingRels videoId (KG.lookup st.embeddings videoId)
            st.embeddings st.index with err | l0
        · rw [hre] at hrels
          simp [Except.map] at hrels
        · rw [hre] at hrels
          simp only [Except.map] at hrels
          cases hrels
          exact RAG.embeddingRels_bounded _ _ _ _ l0 hre r
            ((RAG.mem_sortRels _ r).1 hr)
      · rw [if_neg hc] at hrels
        cases hrels
        exact RAG.keyPointRels_bounded _ _ _ _ _ r
          ((RAG.mem_sortRels _ r).1 hr)

/-- Witness for C3 (amended) at the three-document snapshot and the
empty RAG state. -/
theorem c3_witness :
    ∃ snap, KG.buildGraphFromVideos KG.videosThreeDocs = .ok snap ∧
      ((∀ ed ∈ snap.edges, 0 ≤ ed.weight ∧ ed.weight ≤ 1) ∧
       (∀ r ∈ ([] : List RAG.Rel), 0 ≤ r.similarity ∧
         r.similarity ≤ max 1
           (((r.commonThemes.getD []).length : ℝ) * 0.2))) := by
  rcases hok : KG.buildGraphFromVideos KG.videosThreeDocs with err | snap
  · have hisok : (KG.buildGraphFromVideos KG.videosThreeDocs).isOk = true := by
      decide
    rw [hok] at hisok
    cases hisok
  · exact ⟨snap, rfl,
      c3_amended KG.videosThreeDocs snap hok ⟨[], []⟩ "v" none [] rfl⟩

/-! ## Claim C9: id/type shape of pipeline nodes -/

namespace KG

theorem detectEntityType_ne_video (phrase context : String) :
    detectEntityType phrase context ≠ "video" := by
  simp only [detectEntityType]
  split
  · decide
  · split
    · decide
    · split
      · decide
      · split
        · decide
        · decide

theorem extractFromWords_shape (point vid title : String) (idx : Nat)
    (ws : List String) :
    ∀ m ∈ extractFromWords point vid title idx ws,
      m.id.data.head? = some 'e' ∧ m.type ≠ "video" := by
  induction ws with
  | nil => simp [extractFromWords]
  | cons w rest ih =>
    intro m hm
    simp only [extractFromWords, List.mem_append] at hm
    rcases hm with ((h | h) | h) | h
    · split at h
      · rcases List.mem_singleton.1 h with rfl
        exact ⟨rfl, detectEntityType_ne_video _ _⟩
      · simp at h
    · split at h
      · split at h
        · rcases List.mem_singleton.1 h with rfl
          exact ⟨rfl, detectEntityType_ne_video _ _⟩
        · simp at h
      · simp at h
    · split at h
      · split at h
        · rcases List.mem_singleton.1 h with rfl
          exact ⟨rfl, detectEntityType_ne_video _ _⟩
        · simp at h
      · simp at h
    · exact ih m h

theorem extractEntities_shape (pts : List String) (vid title : String) :
    ∀ e ∈ extractEntitiesFromKeyPoints pts vid title,
      e.id.data.head? = some 'e' ∧ e.type ≠ "video" := by
  unfold extractEntitiesFromKeyPoints
  apply mem_dedup_pred (fun e => e.id.data.head? = some 'e' ∧ e.type ≠ "video")
  · intro x m hx _
    rw [mergeInto_id, mergeInto_type]
    exact hx
  · intro m hm
    rcases List.mem_flatMap.1 hm with ⟨p, _, hmw⟩
    exact extractFromWords_shape p.2 vid title p.1 (tokenize p.2) m hmw

theorem videoMentions_shape (v : Video) (l : List Entity)
    (h : videoMentions v = .ok l) :
    ∀ e ∈ l, e.id.data.head? = some 'e' ∧ e.type ≠ "video" := by
  unfold videoMentions at h
  split at h
  · cases h
    simp
  · cases h
    simp
  · split at h
    · cases h
      simp
    · split at h
      · split at h
        · split at h
          · split at h
            · rcases hsl : asStringList _ with err | pts
              · rw [hsl] at h
                simp [Except.map] at h
              · rw [hsl] at h
                simp only [Except.map] at h
                cases h
                intro e he
                exact extractEntities_shape pts v.id v.title e he
            · cases h
          · cases h
            simp
        · cases h
          simp
      · cases h
        simp

theorem mapM_mentions_shape (videos : List Video) (mls : List (List Entity))
    (h : videos.mapM videoMentions = .ok mls) :
    ∀ e ∈ mls.flatten, e.id.data.head? = some 'e' ∧ e.type ≠ "video" := by
  induction videos generalizing mls with
  | nil =>
    rw [List.mapM_nil] at h
    cases h
    intro e he
    simp at he
  | cons v rest ih =>
    rw [List.mapM_cons] at h
    rcases hv : videoMentions v with err | a
    · rw [hv] at h
      cases h
    · rw [hv] at h
      rcases hr : rest.mapM videoMentions with err | as
      · rw [hr] at h
        cases h
      · rw [hr] at h
        cases h
        intro e he
        rw [List.flatten_cons] at he
        rcases List.mem_append.1 he with h1 | h2
        · exact videoMentions_shape v a hv e h1
        · exact ih as hr e h2

theorem dedup_mentions_shape (videos : List Video) (mls : List (List Entity))
    (h : videos.mapM videoMentions = .ok mls) :
    ∀ e ∈ deduplicateEntities mls.flatten,
      e.id.data.head? = some 'e' ∧ e.type ≠ "video" := by
  apply mem_dedup_pred (fun e => e.id.data.head? = some 'e' ∧ e.type ≠ "video")
  · intro x m hx _
    rw [mergeInto_id, mergeInto_type]
    exact hx
  · exact mapM_mentions_shape videos mls h

theorem lookup_of_mem_nodup {κ α : Type} [DecidableEq κ] {m : List (κ × α)}
    (hnd : (m.map Prod.fst).Nodup) {k : κ} {x : α} (h : (k, x) ∈ m) :
    lookup m k = some x := by
  induction m with
  | nil => simp at h
  | cons p rest ih =>
    rw [List.map_cons] at hnd
    have hnc := List.nodup_cons.1 hnd
    rw [lookup_cons]
    rcases List.mem_cons.1 h with heq | hrest
    · rw [← heq]
      rw [if_pos rfl]
    · have hne : ¬ p.1 = k := by
        intro hpk
        exact hnc.1 (hpk ▸ List.mem_map.2 ⟨(k, x), hrest, rfl⟩)
      rw [if_neg hne]
      exact ih hnc.2 hrest

end KG

namespace Proj

theorem findNode_some {nodes : List KG.GNode} {i : String} {n : KG.GNode}
    (h : findNode nodes i = some n) : n ∈ nodes ∧ KG.GNode.id n = i := by
  unfold findNode at h
  refine ⟨List.mem_of_find?_eq_some h, ?_⟩
  have hp := List.find?_some h
  simpa using hp

theorem findNode_exists {nodes : List KG.GNode} {x : KG.GNode} (hx : x ∈ nodes)
    {i : String} (hid : KG.GNode.id x = i) :
    ∃ n, findNode nodes i = some n := by
  have hsome : (nodes.find? (fun n => KG.GNode.id n == i)).isSome = true :=
    List.find?_isSome.2 ⟨x, hx, by rw [hid]; simp⟩
  rcases hfind : findNode nodes i with _ | n
  · unfold findNode at hfind
    rw [hfind] at hsome
    cases hsome
  · exact ⟨n, rfl⟩

theorem pushOf_ss {nodes : List KG.GNode} {e : KG.Edge} {s t : KG.GNode}
    (hs : findNode nodes e.source = some s)
    (ht : findNode nodes e.target = some t) :
    pushOf nodes e =
      if KG.GNode.type s = "video" ∧
          (some t).map KG.GNode.type ≠ some "video" then
        some (KG.GNode.id s, some t)
      else if KG.GNode.type t = "video" ∧ KG.GNode.type s ≠ "video" then
        some (KG.GNode.id t, some s)
      else none := by
  unfold pushOf
  rw [hs, ht]

theorem pushOf_sn {nodes : List KG.GNode} {e : KG.Edge} {s : KG.GNode}
    (hs : findNode nodes e.source = some s)
    (ht : findNode nodes e.target = none) :
    pushOf nodes e =
      if KG.GNode.type s = "video" ∧
          (none : Option KG.GNode).map KG.GNode.type ≠ some "video" then
        some (KG.GNode.id s, none)
      else none := by
  unfold pushOf
  rw [hs, ht]

theorem pushOf_ns {nodes : List KG.GNode} {e : KG.Edge} {t : KG.GNode}
    (hs : findNode nodes e.source = none)
    (ht : findNode nodes e.target = some t) :
    pushOf nodes e =
      if KG.GNode.type t = "video" then some (KG.GNode.id t, none)
      else none := by
  unfold pushOf
  rw [hs, ht]

theorem pushOf_nn {nodes : List KG.GNode} {e : KG.Edge}
    (hs : findNode nodes e.source = none)
    (ht : findNode nodes e.target = none) :
    pushOf nodes e = none := by
  unfold pushOf
  rw [hs, ht]

theorem pushOf_inv {nodes : List KG.GNode} {e : KG.Edge}
    {kv : String × Option KG.GNode} (h : pushOf nodes e = some kv) :
    kv.2 = none ∨ ∃ n ∈ nodes, kv.2 = some n ∧ KG.GNode.type n ≠ "video" := by
  rcases hs : findNode nodes e.source with _ | s
  · rcases ht : findNode nodes e.target with _ | t
    · rw [pushOf_nn hs ht] at h
      cases h
    · rw [pushOf_ns hs ht] at h
      by_cases hc : KG.GNode.type t = "video"
      · rw [if_pos hc] at h
        cases h
        exact Or.inl rfl
      · rw [if_neg hc] at h
        cases h
  · rcases ht : findNode nodes e.target with _ | t
    · rw [pushOf_sn hs ht] at h
      by_cases hc : KG.GNode.type s = "video" ∧
          (none : Option KG.GNode).map KG.GNode.type ≠ some "video"
      · rw [if_pos hc] at h
        cases h
        exact Or.inl rfl
      · rw [if_neg hc] at h
        cases h
    · rw [pushOf_ss hs ht] at h
      by_cases hc1 : KG.GNode.type s = "video" ∧
          (some t).map KG.GNode.type ≠ some "video"
      · rw [if_pos hc1] at h
        cases h
        refine Or.inr ⟨t, (findNode_some ht).1, rfl, ?_⟩
        intro htv
        exact hc1.2 (congrArg some htv)
      · rw [if_neg hc1] at h
        by_cases hc2 : KG.GNode.type t = "video" ∧ KG.GNode.type s ≠ "video"
        · rw [if_pos hc2] at h
          cases h
          exact Or.inr ⟨s, (findNode_some hs).1, rfl, hc2.2⟩
        · rw [if_neg hc2] at h
          cases h

end Proj

namespace Proj

theorem entityByVideo_values (nodes : List KG.GNode) (edges : List KG.Edge) :
    ∀ g ∈ entityByVideo nodes edges, ∀ x ∈ g.2,
      ∃ e ∈ edges, ∃ kv, pushOf nodes e = some kv ∧ kv.2 = x := by
  suffices h : ∀ (l : List KG.Edge) (acc : List (String × List (Option KG.GNode))),
      ∀ g ∈ l.foldl (fun m e =>
          match pushOf nodes e with
          | some kv => KG.mapPush m kv.1 kv.2
          | none => m) acc, ∀ x ∈ g.2,
        (∃ g' ∈ acc, x ∈ g'.2) ∨
          ∃ e ∈ l, ∃ kv, pushOf nodes e = some kv ∧ kv.2 = x by
    intro g hg x hx
    rcases h edges [] g hg x hx with ⟨g', hg', _⟩ | hm
    · simp at hg'
    · exact hm
  intro l
  induction l with
  | nil =>
    intro acc g hg x hx
    exact Or.inl ⟨g, hg, hx⟩
  | cons e rest ih =>
    intro acc g hg x hx
    rw [List.foldl_cons] at hg
    rcases hp : pushOf nodes e with _ | kv
    · rw [hp] at hg
      rcases ih acc g hg x hx with h1 | ⟨e', he', hkv⟩
      · exact Or.inl h1
      · exact Or.inr ⟨e', List.mem_cons_of_mem _ he', hkv⟩
    · rw [hp] at hg
      rcases ih (KG.mapPush acc kv.1 kv.2) g hg x hx with ⟨g', hg', hx'⟩ | ⟨e', he', hkv⟩
      · rcases KG.mapPush_values acc kv.1 kv.2 g' hg' x hx' with ⟨g'', hg'', hx''⟩ | hxkv
        · exact Or.inl ⟨g'', hg'', hx''⟩
        · exact Or.inr ⟨e, List.mem_cons_self _ _, kv, hp, hxkv.symm⟩
      · exact Or.inr ⟨e', List.mem_cons_of_mem _ he', hkv⟩

end Proj

namespace KG

theorem mem_crossVideoEdges_docs (e : Entity) {svs : List String}
    (hsv : e.sourceVideos = some svs) {ed : Edge}
    (hin : ed ∈ crossVideoEdges e) : 2 ≤ (sourceDocs e).length := by
  rw [crossVideoEdges_some e hsv] at hin
  by_cases hl : svs.length > 1
  · rw [sourceDocs, hsv, Option.getD_some]
    omega
  · rw [if_neg hl] at hin
    simp at hin

theorem head_clash {i : String} (h1 : i.data.head? = some 'v')
    (h2 : i.data.head? = some 'e') : False := by
  rw [h1] at h2
  cases h2

theorem pipeline_node_classify {videos : List Video} {D : List Entity}
    {nodes : List GNode}
    (hnodes : nodes = (videos.map mkVideoNode).map GNode.videoNode ++
      D.map GNode.entityNode)
    {n : GNode} (hn : n ∈ nodes) :
    (∃ v ∈ videos, n = GNode.videoNode (mkVideoNode v)) ∨
      ∃ ent ∈ D, n = GNode.entityNode ent := by
  rw [hnodes] at hn
  rcases List.mem_append.1 hn with h1 | h2
  · rcases List.mem_map.1 h1 with ⟨vn, hvn, heq⟩
    rcases List.mem_map.1 hvn with ⟨v, hv, heq2⟩
    rw [← heq, ← heq2]
    exact Or.inl ⟨v, hv, rfl⟩
  · rcases List.mem_map.1 h2 with ⟨ent, hent, heq⟩
    rw [← heq]
    exact Or.inr ⟨ent, hent, rfl⟩

theorem pipeline_find_entity {videos : List Video} {D : List Entity}
    {nodes : List GNode}
    (hnodes : nodes = (videos.map mkVideoNode).map GNode.videoNode ++
      D.map GNode.entityNode)
    (hshape : ∀ ent ∈ D, ent.id.data.head? = some 'e' ∧ ent.type ≠ "video")
    {i : String} (hhead : i.data.head? = some 'e') {n : GNode}
    (h : Proj.findNode nodes i = some n) :
    ∃ ent ∈ D, n = GNode.entityNode ent ∧ ent.id = i := by
  have hf := Proj.findNode_some h
  rcases pipeline_node_classify hnodes hf.1 with ⟨v, hv, heq⟩ | ⟨ent, hent, heq⟩
  · exfalso
    have hvhead : i.data.head? = some 'v' := by
      rw [← hf.2, heq]
      rfl
    exact head_clash hvhead hhead
  · refine ⟨ent, hent, heq, ?_⟩
    rw [← hf.2, heq]
    rfl

theorem pipeline_find_video {videos : List Video} {D : List Entity}
    {nodes : List GNode}
    (hnodes : nodes = (videos.map mkVideoNode).map GNode.videoNode ++
      D.map GNode.entityNode)
    (hshape : ∀ ent ∈ D, ent.id.data.head? = some 'e' ∧ ent.type ≠ "video")
    {i : String} (hhead : i.data.head? = some 'v') {n : GNode}
    (h : Proj.findNode nodes i = some n) :
    GNode.type n = "video" := by
  have hf := Proj.findNode_some h
  rcases pipeline_node_classify hnodes hf.1 with ⟨v, hv, heq⟩ | ⟨ent, hent, heq⟩
  · rw [heq]
    rfl
  · exfalso
    have hehead : i.data.head? = some 'e' := by
      rw [← hf.2, heq]
      exact (hshape ent hent).1
    exact head_clash hhead hehead

theorem pipeline_push_inv (videos : List Video) (snap : Snapshot)
    (hok : buildGraphFromVideos videos = .ok snap)
    (mls : List (List Entity)) (hm : videos.mapM videoMentions = .ok mls) :
    ∀ ed ∈ snap.edges, ∀ kv, Proj.pushOf snap.nodes ed = some kv →
      ∃ ent ∈ deduplicateEntities mls.flatten,
        kv.2 = some (GNode.entityNode ent) ∧ 2 ≤ (sourceDocs ent).length := by
  rcases buildGraph_ok_inversion videos snap hok with ⟨mls', hm', hnodes, hedges⟩
  rw [hm] at hm'
  cases hm'
  have hshape := dedup_mentions_shape videos mls hm
  intro ed hed kv hpush
  rw [hedges] at hed
  rcases List.mem_append.1 hed with h1 | h2
  · unfold buildEntityRelationships at h1
    rcases List.mem_append.1 h1 with hc | hx
    · exfalso
      rcases List.mem_flatMap.1 hc with ⟨g, hg, hin⟩
      rcases mem_coocEdges hin with ⟨p, hp, hsrc, htgt⟩
      have hmemp := mem_of_mem_listPairs hp
      have h1m := entitiesByVideo_values _ g hg p.1 hmemp.1
      have h2m := entitiesByVideo_values _ g hg p.2 hmemp.2
      have hh1 : ed.source.data.head? = some 'e' := by
        rw [hsrc]
        exact (hshape p.1 h1m).1
      have hh2 : ed.target.data.head? = some 'e' := by
        rw [htgt]
        exact (hshape p.2 h2m).1
      rcases hs : Proj.findNode snap.nodes ed.source with _ | s
      · rcases ht : Proj.findNode snap.nodes ed.target with _ | t
        · rw [Proj.pushOf_nn hs ht] at hpush
          cases hpush
        · rcases pipeline_find_entity hnodes hshape hh2 ht with ⟨ent, hent, heq, _⟩
          have hne2 : ¬ GNode.type t = "video" := by
            rw [heq]
            exact (hshape ent hent).2
          rw [Proj.pushOf_ns hs ht, if_neg hne2] at hpush
          cases hpush
      · rcases pipeline_find_entity hnodes hshape hh1 hs with ⟨ent1, hent1, heq1, _⟩
        have hne1 : ¬ GNode.type s = "video" := by
          rw [heq1]
          exact (hshape ent1 hent1).2
        rcases ht : Proj.findNode snap.nodes ed.target with _ | t
        · rw [Proj.pushOf_sn hs ht,
            if_neg (fun hcc => hne1 hcc.1)] at hpush
          cases hpush
        · rcases pipeline_find_entity hnodes hshape hh2 ht with ⟨ent2, hent2, heq2, _⟩
          have hne2 : ¬ GNode.type t = "video" := by
            rw [heq2]
            exact (hshape ent2 hent2).2
          rw [Proj.pushOf_ss hs ht,
            if_neg (fun hcc => hne1 hcc.1),
            if_neg (fun hcc => hne2 hcc.1)] at hpush
          cases hpush
    · rcases List.mem_flatMap.1 hx with ⟨e', he', hin⟩
      rcases hsv : e'.sourceVideos with _ | svs
      · rw [crossVideoEdges_none e' hsv] at hin
        simp at hin
      · have hf := mem_appearsInEdge_fields e' hsv hin
        have hdocs2 := mem_crossVideoEdges_docs e' hsv hin
        have hh1 : ed.source.data.head? = some 'e' := by
          rw [hf.1]
          exact (hshape e' he').1
        rcases hf.2.2.2 with ⟨v, hvsv, htgt⟩
        have hh2 : ed.target.data.head? = some 'v' := by
          rw [htgt]
          rfl
        rcases hs : Proj.findNode snap.nodes ed.source with _ | s
        · exfalso
          have hsmem : GNode.entityNode e' ∈ snap.nodes := by
            rw [hnodes]
            exact List.mem_append_right _ (List.mem_map.2 ⟨e', he', rfl⟩)
          have hid : GNode.id (GNode.entityNode e') = ed.source := by
            rw [hf.1]
            rfl
          rcases Proj.findNode_exists hsmem hid with ⟨n0, hn0⟩
          rw [hs] at hn0
          cases hn0
        · rcases pipeline_find_entity hnodes hshape hh1 hs with ⟨ent, hent, heq, hentid⟩
          have hne : ¬ GNode.type s = "video" := by
            rw [heq]
            exact (hshape ent hent).2
          have hide : ent = e' := by
            apply List.inj_on_of_nodup_map (dedup_ids_nodup mls.flatten) hent he'
            rw [hentid, hf.1]
          rcases ht : Proj.findNode snap.nodes ed.target with _ | t
          · rw [Proj.pushOf_sn hs ht,
              if_neg (fun hcc => hne hcc.1)] at hpush
            cases hpush
          · have htv : GNode.type t = "video" :=
              pipeline_find_video hnodes hshape hh2 ht
            rw [Proj.pushOf_ss hs ht,
              if_neg (fun hcc => hne hcc.1),
              if_pos ⟨htv, hne⟩] at hpush
            cases hpush
            exact ⟨ent, hent, congrArg some heq, hide ▸ hdocs2⟩
  · exfalso
    rcases (mem_buildVideoRel videos _ ed).1 h2 with ⟨p, hp, _, heqed⟩
    have hmemp := mem_of_mem_listPairs hp
    have hh1 : ed.source.data.head? = some 'v' := by
      rw [heqed]
      rfl
    have hh2 : ed.target.data.head? = some 'v' := by
      rw [heqed]
      rfl
    have hsmem : GNode.videoNode (mkVideoNode p.1) ∈ snap.nodes := by
      rw [hnodes]
      exact List.mem_append_left _
        (List.mem_map.2 ⟨mkVideoNode p.1, List.mem_map.2 ⟨p.1, hmemp.1, rfl⟩, rfl⟩)
    have htmem : GNode.videoNode (mkVideoNode p.2) ∈ snap.nodes := by
      rw [hnodes]
      exact List.mem_append_left _
        (List.mem_map.2 ⟨mkVideoNode p.2, List.mem_map.2 ⟨p.2, hmemp.2, rfl⟩, rfl⟩)
    have hids : GNode.id (GNode.videoNode (mkVideoNode p.1)) = ed.source := by
      rw [heqed]
      rfl
    have hidt : GNode.id (GNode.videoNode (mkVideoNode p.2)) = ed.target := by
      rw [heqed]
      rfl
    rcases hs : Proj.findNode snap.nodes ed.source with _ | s
    · rcases Proj.findNode_exists hsmem hids with ⟨n0, hn0⟩
      rw [hs] at hn0
      cases hn0
    · rcases ht : Proj.findNode snap.nodes ed.target with _ | t
      · rcases Proj.findNode_exists htmem hidt with ⟨n0, hn0⟩
        rw [ht] at hn0
        cases hn0
      · have hsv2 := pipeline_find_video hnodes hshape hh1 hs
        have htv := pipeline_find_video hnodes hshape hh2 ht
        rw [Proj.pushOf_ss hs ht,
          if_neg (fun hcc => hcc.2 (congrArg some htv)),
          if_neg (fun hcc => hcc.2 hsv2)] at hpush
        cases hpush

end KG

namespace Proj

theorem pairKey_comp (x y : String) :
    ((pairKey x y).1 = x ∨ (pairKey x y).1 = y) ∧
      ((pairKey x y).2 = x ∨ (pairKey x y).2 = y) := by
  unfold pairKey
  by_cases h : strLtb y.data x.data = true
  · rw [if_pos h]
    exact ⟨Or.inr rfl, Or.inl rfl⟩
  · rw [if_neg h]
    exact ⟨Or.inl rfl, Or.inr rfl⟩

theorem lookup_bumpCount (m : List ((String × String) × Nat))
    (k' k : String × String) :
    (KG.lookup (bumpCount m k') k).getD 0 =
      (KG.lookup m k).getD 0 + (if k' = k then 1 else 0) := by
  induction m with
  | nil =>
    simp only [bumpCount]
    rw [KG.lookup_cons, KG.lookup_nil]
    by_cases h : k' = k
    · simp [h]
    · simp [h]
  | cons p rest ih =>
    simp only [bumpCount]
    by_cases hp : p.1 = k'
    · rw [if_pos hp]
      rw [KG.lookup_cons, KG.lookup_cons]
      by_cases hk : p.1 = k
      · simp only [hk, if_pos rfl]
        have hk' : k' = k := by rw [← hp, hk]
        rw [if_pos hk']
        simp
      · simp only [if_neg hk]
        have hk' : ¬ k' = k := fun hh => hk (hp.trans hh)
        rw [if_neg hk']
        simp
    · rw [if_neg hp]
      rw [KG.lookup_cons, KG.lookup_cons]
      by_cases hk : p.1 = k
      · rw [if_pos hk, if_pos hk]
        have hk' : ¬ k' = k := fun hh => hp (hk.trans hh.symm)
        rw [if_neg hk']
        simp
      · rw [if_neg hk, if_neg hk]
        exact ih

theorem bumpCount_keys (m : List ((String × String) × Nat))
    (k' : String × String) :
    ∀ k ∈ (bumpCount m k').map Prod.fst, k ∈ m.map Prod.fst ∨ k = k' := by
  induction m with
  | nil =>
    intro k hk
    simp [bumpCount] at hk
    exact Or.inr hk
  | cons p rest ih =>
    intro k hk
    simp only [bumpCount] at hk
    by_cases hp : p.1 = k'
    · rw [if_pos hp] at hk
      rw [List.map_cons] at hk
      rcases List.mem_cons.1 hk with heq | hk'
      · exact Or.inl (heq ▸ List.mem_map.2 ⟨p, List.mem_cons_self _ _, rfl⟩)
      · exact Or.inl (List.mem_map.2
          (by rcases List.mem_map.1 hk' with ⟨q, hq, hqk⟩
              exact ⟨q, List.mem_cons_of_mem _ hq, hqk⟩))
    · rw [if_neg hp] at hk
      rw [List.map_cons] at hk
      rcases List.mem_cons.1 hk with heq | hk'
      · exact Or.inl (heq ▸ List.mem_map.2 ⟨p, List.mem_cons_self _ _, rfl⟩)
      · rcases ih k hk' with h1 | h1
        · exact Or.inl (List.mem_map.2
            (by rcases List.mem_map.1 h1 with ⟨q, hq, hqk⟩
                exact ⟨q, List.mem_cons_of_mem _ hq, hqk⟩))
        · exact Or.inr h1

theorem bumpCount_keys_nodup (m : List ((String × String) × Nat))
    (k' : String × String) (hnd : (m.map Prod.fst).Nodup) :
    ((bumpCount m k').map Prod.fst).Nodup := by
  induction m with
  | nil => simp [bumpCount]
  | cons p rest ih =>
    rw [List.map_cons] at hnd
    have hnc := List.nodup_cons.1 hnd
    simp only [bumpCount]
    by_cases hp : p.1 = k'
    · rw [if_pos hp, List.map_cons]
      exact List.nodup_cons.2 ⟨hnc.1, hnc.2⟩
    · rw [if_neg hp, List.map_cons]
      refine List.nodup_cons.2 ⟨?_, ih hnc.2⟩
      intro hmem
      rcases bumpCount_keys rest k' p.1 hmem with h1 | h1
      · exact hnc.1 h1
      · exact hp h1

theorem foldl_bump_lookup (x : String) (l : List String)
    (m : List ((String × String) × Nat)) (k : String × String) :
    (KG.lookup (l.foldl (fun m' y => bumpCount m' (pairKey x y)) m) k).getD 0 =
      (KG.lookup m k).getD 0 + l.countP (fun y => pairKey x y == k) := by
  induction l generalizing m with
  | nil => simp
  | cons y ys ih =>
    rw [List.foldl_cons, ih, lookup_bumpCount, List.countP_cons]
    have hsame : (if pairKey x y = k then 1 else 0) =
        (if (pairKey x y == k) = true then 1 else 0) := by
      by_cases h : pairKey x y = k
      · rw [if_pos h, if_pos (by simp [h])]
      · rw [if_neg h, if_neg (by simp [h])]
    rw [hsame]
    omega

theorem foldl_bump_keys (x : String) (l : List String)
    (m : List ((String × String) × Nat)) :
    ∀ k ∈ (l.foldl (fun m' y => bumpCount m' (pairKey x y)) m).map Prod.fst,
      k ∈ m.map Prod.fst ∨ ∃ y ∈ l, k = pairKey x y := by
  induction l generalizing m with
  | nil =>
    intro k hk
    exact Or.inl hk
  | cons y ys ih =>
    intro k hk
    rw [List.foldl_cons] at hk
    rcases ih (bumpCount m (pairKey x y)) k hk with h1 | ⟨y', hy', hk'⟩
    · rcases bumpCount_keys m (pairKey x y) k h1 with h2 | h2
      · exact Or.inl h2
      · exact Or.inr ⟨y, List.mem_cons_self _ _, h2⟩
    · exact Or.inr ⟨y', List.mem_cons_of_mem _ hy', hk'⟩

theorem foldl_bump_nodup (x : String) (l : List String)
    (m : List ((String × String) × Nat)) (hnd : (m.map Prod.fst).Nodup) :
    ((l.foldl (fun m' y => bumpCount m' (pairKey x y)) m).map Prod.fst).Nodup := by
  induction l generalizing m with
  | nil => exact hnd
  | cons y ys ih =>
    rw [List.foldl_cons]
    exact ih _ (bumpCount_keys_nodup m (pairKey x y) hnd)

theorem foldPairs_lookup (l : List String)
    (m : List ((String × String) × Nat)) (k : String × String) :
    (KG.lookup (foldPairs m l) k).getD 0 =
      (KG.lookup m k).getD 0 +
        (KG.listPairs l).countP (fun p => pairKey p.1 p.2 == k) := by
  induction l generalizing m with
  | nil => simp [foldPairs, KG.listPairs]
  | cons x ys ih =>
    show (KG.lookup (foldPairs
        (ys.foldl (fun m' y => bumpCount m' (pairKey x y)) m) ys) k).getD 0 = _
    rw [ih, foldl_bump_lookup]
    have hlp : KG.listPairs (x :: ys) =
        (ys.map (fun y => (x, y))) ++ KG.listPairs ys := rfl
    rw [hlp, List.countP_append, List.countP_map]
    have hcong : ((fun p : String × String => pairKey p.1 p.2 == k) ∘
        fun y => (x, y)) = fun y => pairKey x y == k := rfl
    rw [hcong]
    omega

theorem foldPairs_keys (l : List String)
    (m : List ((String × String) × Nat)) :
    ∀ k ∈ (foldPairs m l).map Prod.fst,
      k ∈ m.map Prod.fst ∨ (k.1 ∈ l ∧ k.2 ∈ l) := by
  induction l generalizing m with
  | nil =>
    intro k hk
    exact Or.inl hk
  | cons x ys ih =>
    intro k hk
    rcases ih (ys.foldl (fun m' y => bumpCount m' (pairKey x y)) m) k hk
      with h1 | ⟨h1, h2⟩
    · rcases foldl_bump_keys x ys m k h1 with h2 | ⟨y, hy, hk'⟩
      · exact Or.inl h2
      · right
        have hc := pairKey_comp x y
        rw [hk']
        constructor
        · rcases hc.1 with h | h
          · rw [h]; exact List.mem_cons_self _ _
          · rw [h]; exact List.mem_cons_of_mem _ hy
        · rcases hc.2 with h | h
          · rw [h]; exact List.mem_cons_self _ _
          · rw [h]; exact List.mem_cons_of_mem _ hy
    · exact Or.inr ⟨List.mem_cons_of_mem _ h1, List.mem_cons_of_mem _ h2⟩

theorem foldPairs_nodup (l : List String)
    (m : List ((String × String) × Nat)) (hnd : (m.map Prod.fst).Nodup) :
    ((foldPairs m l).map Prod.fst).Nodup := by
  induction l generalizing m with
  | nil => exact hnd
  | cons x ys ih =>
    exact ih _ (foldl_bump_nodup x ys m hnd)

end Proj

namespace Proj

theorem foldl_foldPairs_lookup (lists : List (List String))
    (m : List ((String × String) × Nat)) (k : String × String) :
    (KG.lookup (lists.foldl foldPairs m) k).getD 0 =
      (KG.lookup m k).getD 0 + pairTally lists k := by
  induction lists generalizing m with
  | nil => simp [pairTally]
  | cons l ls ih =>
    rw [List.foldl_cons, ih, foldPairs_lookup]
    simp only [pairTally, List.map_cons, List.sum_cons]
    omega

theorem foldl_foldPairs_keys (lists : List (List String))
    (m : List ((String × String) × Nat)) :
    ∀ k ∈ (lists.foldl foldPairs m).map Prod.fst,
      k ∈ m.map Prod.fst ∨ ∃ l ∈ lists, k.1 ∈ l ∧ k.2 ∈ l := by
  induction lists generalizing m with
  | nil =>
    intro k hk
    exact Or.inl hk
  | cons l ls ih =>
    intro k hk
    rw [List.foldl_cons] at hk
    rcases ih (foldPairs m l) k hk with h1 | ⟨l', hl', hk'⟩
    · rcases foldPairs_keys l m k h1 with h2 | h2
      · exact Or.inl h2
      · exact Or.inr ⟨l, List.mem_cons_self _ _, h2⟩
    · exact Or.inr ⟨l', List.mem_cons_of_mem _ hl', hk'⟩

theorem foldl_foldPairs_nodup (lists : List (List String))
    (m : List ((String × String) × Nat)) (hnd : (m.map Prod.fst).Nodup) :
    ((lists.foldl foldPairs m).map Prod.fst).Nodup := by
  induction lists generalizing m with
  | nil => exact hnd
  | cons l ls ih =>
    rw [List.foldl_cons]
    exact ih _ (foldPairs_nodup l m hnd)

theorem idsOf_length {l : List (Option KG.GNode)} {ids : List String}
    (h : idsOf l = .ok ids) : ids.length = l.length := by
  induction l generalizing ids with
  | nil =>
    cases h
    rfl
  | cons o rest ih =>
    cases o with
    | none => cases h
    | some n =>
      unfold idsOf at h
      rcases hr : idsOf rest with err | ids'
      · rw [hr] at h
        simp [Except.map] at h
      · rw [hr] at h
        simp only [Except.map] at h
        cases h
        simp [ih hr]

theorem idsOf_mem {l : List (Option KG.GNode)} {ids : List String}
    (h : idsOf l = .ok ids) {x : String} (hx : x ∈ ids) :
    ∃ n, some n ∈ l ∧ KG.GNode.id n = x := by
  induction l generalizing ids with
  | nil =>
    cases h
    simp at hx
  | cons o rest ih =>
    cases o with
    | none => cases h
    | some n =>
      unfold idsOf at h
      rcases hr : idsOf rest with err | ids'
      · rw [hr] at h
        simp [Except.map] at h
      · rw [hr] at h
        simp only [Except.map] at h
        cases h
        rcases List.mem_cons.1 hx with heq | hx'
        · exact ⟨n, List.mem_cons_self _ _, heq.symm⟩
        · rcases ih hr hx' with ⟨n', hn', hid⟩
          exact ⟨n', List.mem_cons_of_mem _ hn', hid⟩

theorem idsOf_all_some {l : List (Option KG.GNode)}
    (h : ∀ x ∈ l, x ≠ none) : ∃ ids, idsOf l = .ok ids := by
  induction l with
  | nil => exact ⟨[], rfl⟩
  | cons o rest ih =>
    cases o with
    | none => exact absurd rfl (h none (List.mem_cons_self _ _))
    | some n =>
      rcases ih (fun x hx => h x (List.mem_cons_of_mem _ hx)) with ⟨ids, hids⟩
      refine ⟨KG.GNode.id n :: ids, ?_⟩
      unfold idsOf
      rw [hids]
      rfl

theorem mapM_idsOf_ok (entries : List (String × List (Option KG.GNode)))
    (h : ∀ p ∈ entries, ∀ x ∈ p.2, x ≠ none) :
    ∃ lists, entries.mapM (fun p => idsOf p.2) = .ok lists := by
  induction entries with
  | nil => exact ⟨[], rfl⟩
  | cons p rest ih =>
    rcases idsOf_all_some (h p (List.mem_cons_self _ _)) with ⟨ids, hids⟩
    rcases ih (fun q hq => h q (List.mem_cons_of_mem _ hq)) with ⟨tails, htails⟩
    refine ⟨ids :: tails, ?_⟩
    rw [List.mapM_cons, hids, htails]
    rfl

theorem foldPairs_small (m : List ((String × String) × Nat))
    {l : List String} (h : l.length < 2) : foldPairs m l = m := by
  rcases l with _ | ⟨x, rest⟩
  · rfl
  · rcases rest with _ | ⟨y, rest2⟩
    · rfl
    · simp at h
      omega

theorem buildCounts_eq (entries : List (String × List (Option KG.GNode)))
    (lists : List (List String))
    (h : entries.mapM (fun p => idsOf p.2) = .ok lists)
    (m : List ((String × String) × Nat)) :
    entries.foldlM (fun m p => countStep m p.2) m =
      .ok (lists.foldl foldPairs m) := by
  induction entries generalizing lists m with
  | nil =>
    cases h
    rfl
  | cons p rest ih =>
    rw [List.mapM_cons] at h
    rcases hi : idsOf p.2 with err | ids
    · rw [hi] at h
      cases h
    · rw [hi] at h
      rcases hr : rest.mapM (fun p => idsOf p.2) with err | tails
      · rw [hr] at h
        cases h
      · rw [hr] at h
        cases h
        rw [List.foldlM_cons]
        have hstep : countStep m p.2 = .ok (foldPairs m ids) := by
          unfold countStep
          by_cases hlen : p.2.length < 2
          · rw [if_pos hlen,
              foldPairs_small m (by rw [idsOf_length hi]; exact hlen)]
          · rw [if_neg hlen, hi]
            rfl
        rw [hstep]
        exact ih tails hr (foldPairs m ids)

end Proj

namespace Proj

theorem mapM_idsOf_mem (entries : List (String × List (Option KG.GNode)))
    (lists : List (List String))
    (h : entries.mapM (fun p => idsOf p.2) = .ok lists) :
    ∀ l ∈ lists, ∃ p ∈ entries, idsOf p.2 = .ok l := by
  induction entries generalizing lists with
  | nil =>
    cases h
    intro l hl
    simp at hl
  | cons p rest ih =>
    rw [List.mapM_cons] at h
    rcases hi : idsOf p.2 with err | ids
    · rw [hi] at h
      cases h
    · rw [hi] at h
      rcases hr : rest.mapM (fun p => idsOf p.2) with err | tails
      · rw [hr] at h
        cases h
      · rw [hr] at h
        cases h
        intro l hl
        rcases List.mem_cons.1 hl with heq | hl'
        · exact ⟨p, List.mem_cons_self _ _, heq ▸ hi⟩
        · rcases ih tails hr l hl' with ⟨q, hq, hql⟩
          exact ⟨q, List.mem_cons_of_mem _ hq, hql⟩

theorem buildCooccurrenceGraph_ok_inversion (data : KG.Snapshot)
    (proj : ProjGraph) (h : buildCooccurrenceGraph data = .ok proj) :
    ∃ counts, buildCounts (entityByVideo data.nodes data.edges) = .ok counts ∧
      proj.edges = counts.map mkCoEdge ∧
      proj.nodes = (data.nodes.filter (fun n => n.type != "video")).filter
        (fun n => (connectedNodeIds (counts.map mkCoEdge)).contains
          (KG.GNode.id n)) := by
  unfold buildCooccurrenceGraph at h
  rcases hc : buildCounts (entityByVideo data.nodes data.edges) with err | counts
  · rw [hc] at h
    cases h
  · rw [hc] at h
    cases h
    exact ⟨counts, rfl, rfl, rfl⟩

end Proj

/-- C9 (amended): a successful co-occurrence projection contains only
non-video (entity) nodes; every output node has an incident edge, so an
entity mentioned in at most one source document (for pipeline
snapshots) never appears in the output node list; every output edge
stores the normalised value `min(count/3, 1)` in its `similarity` field
while its `weight` field is the raw pair tally of the per-video
association lists (the claim's `min(c/3,1)`-valued weight and
document-count interpretation of `c` are both refuted by
`c9_counterexample`). -/
theorem c9_amended (data : KG.Snapshot) (proj : Proj.ProjGraph)
    (h : Proj.buildCooccurrenceGraph data = .ok proj) :
    (∀ n ∈ proj.nodes, KG.GNode.type n ≠ "video") ∧
    (∀ n ∈ proj.nodes, ∃ ed ∈ proj.edges,
      ed.source = KG.GNode.id n ∨ ed.target = KG.GNode.id n) ∧
    (∀ ed ∈ proj.edges, ed.similarity = min ((ed.weight : ℚ) / 3) 1) ∧
    (∀ lists, Proj.assocIdLists data = .ok lists →
      ∀ ed ∈ proj.edges,
        ed.weight = Proj.pairTally lists (ed.source, ed.target)) ∧
    (∀ videos mls, videos.mapM KG.videoMentions = .ok mls →
      KG.buildGraphFromVideos videos = .ok data →
      ∀ ent ∈ KG.deduplicateEntities mls.flatten,
        (KG.sourceDocs ent).length ≤ 1 →
        ∀ n ∈ proj.nodes, KG.GNode.id n ≠ ent.id) := by
  rcases Proj.buildCooccurrenceGraph_ok_inversion data proj h
    with ⟨counts, hc, hedges, hnodes⟩
  refine ⟨?_, ?_, ?_, ?_, ?_⟩
  · intro n hn
    rw [hnodes] at hn
    have h1 := (List.mem_filter.1 (List.mem_filter.1 hn).1).2
    simpa using h1
  · intro n hn
    rw [hnodes] at hn
    have h2 := (List.mem_filter.1 hn).2
    have hmem : KG.GNode.id n ∈
        Proj.connectedNodeIds (counts.map Proj.mkCoEdge) :=
      List.elem_iff.1 h2
    rcases List.mem_flatMap.1 hmem with ⟨ed, hed, hin⟩
    rw [hedges]
    rcases List.mem_cons.1 hin with heq | hin2
    · exact ⟨ed, hed, Or.inl heq.symm⟩
    · rcases List.mem_cons.1 hin2 with heq | hin3
      · exact ⟨ed, hed, Or.inr heq.symm⟩
      · simp at hin3
  · intro ed hed
    rw [hedges] at hed
    rcases List.mem_map.1 hed with ⟨p, hp, heq⟩
    rw [← heq]
    rfl
  · intro lists hlists ed hed
    unfold Proj.assocIdLists at hlists
    have hbc := Proj.buildCounts_eq _ lists hlists []
    unfold Proj.buildCounts at hc
    rw [hc] at hbc
    injection hbc with hceq
    subst hceq
    rw [hedges] at hed
    rcases List.mem_map.1 hed with ⟨p, hp, heq⟩
    have hnd : ((lists.foldl Proj.foldPairs
        ([] : List ((String × String) × Nat))).map Prod.fst).Nodup :=
      Proj.foldl_foldPairs_nodup lists [] (by simp)
    have hp' : (p.1, p.2) ∈ lists.foldl Proj.foldPairs [] := by
      rw [Prod.mk.eta]
      exact hp
    have h1 := Proj.foldl_foldPairs_lookup lists [] p.1
    rw [KG.lookup_of_mem_nodup hnd hp'] at h1
    rw [← heq]
    show p.2 = Proj.pairTally lists (p.1.1, p.1.2)
    have hkey : (p.1.1, p.1.2) = p.1 := Prod.mk.eta
    rw [hkey]
    rw [KG.lookup_nil] at h1
    simpa using h1
  · intro videos mls hm hok ent hent hdoc1 n hn heq
    have hpush := KG.pipeline_push_inv videos data hok mls hm
    have hall : ∀ g ∈ Proj.entityByVideo data.nodes data.edges,
        ∀ x ∈ g.2, x ≠ none := by
      intro g hg x hx
      rcases Proj.entityByVideo_values data.nodes data.edges g hg x hx
        with ⟨e0, he0, kv, hkv, hkvx⟩
      rcases hpush e0 he0 kv hkv with ⟨ent', _, hval, _⟩
      rw [← hkvx, hval]
      simp
    rcases Proj.mapM_idsOf_ok _ hall with ⟨lists, hlists⟩
    have hbc := Proj.buildCounts_eq _ lists hlists []
    unfold Proj.buildCounts at hc
    rw [hc] at hbc
    injection hbc with hceq
    subst hceq
    rw [hnodes] at hn
    have h2 := (List.mem_filter.1 hn).2
    have hmem : KG.GNode.id n ∈
        Proj.connectedNodeIds (lists.foldl Proj.foldPairs [] |>.map Proj.mkCoEdge) :=
      List.elem_iff.1 h2
    rcases List.mem_flatMap.1 hmem with ⟨ed, hed, hin⟩
    rcases List.mem_map.1 hed with ⟨p, hp, heqed⟩
    have hkmem : p.1 ∈ (lists.foldl Proj.foldPairs
        ([] : List ((String × String) × Nat))).map Prod.fst :=
      List.mem_map.2 ⟨p, hp, rfl⟩
    have hcomp : KG.GNode.id n = p.1.1 ∨ KG.GNode.id n = p.1.2 := by
      rcases List.mem_cons.1 hin with h3 | hin2
      · rw [← heqed] at h3
        exact Or.inl h3
      · rcases List.mem_cons.1 hin2 with h3 | hin3
        · rw [← heqed] at h3
          exact Or.inr h3
        · simp at hin3
    rcases Proj.foldl_foldPairs_keys lists [] p.1 hkmem with h4 | ⟨l, hl, hl1, hl2⟩
    · simp at h4
    · have hidl : KG.GNode.id n ∈ l := by
        rcases hcomp with h5 | h5
        · rw [h5]
          exact hl1
        · rw [h5]
          exact hl2
      rcases Proj.mapM_idsOf_mem _ lists hlists l hl with ⟨g, hg, hgl⟩
      rcases Proj.idsOf_mem hgl hidl with ⟨gn, hgn, hgnid⟩
      rcases Proj.entityByVideo_values data.nodes data.edges g hg (some gn) hgn
        with ⟨e0, he0, kv, hkv, hkvx⟩
      rcases hpush e0 he0 kv hkv with ⟨ent', hent', hval, hdocs2⟩
      rw [hval] at hkvx
      injection hkvx with hgneq
      have hident : ent' = ent := by
        apply List.inj_on_of_nodup_map (KG.dedup_ids_nodup mls.flatten)
          hent' hent
        have : KG.GNode.id gn = ent'.id := by
          rw [← hgneq]
          rfl
        rw [← this, hgnid, heq]
      rw [hident] at hdocs2
      omega

/-- C9 counterexample: on the three-document pipeline the projection
emits an edge between `entity_alpha` and `entity_beta` whose `weight`
field is the raw (inflated) pair count 4 — a value that is not
`min(c/3, 1)` for any count `c`, refuting the claimed weight formula
(the normalised value lives in the separate `similarity` field, and the
tally double-counts entities pushed once per redundant appears-in
edge). -/
theorem c9_counterexample :
    (∃ snap proj, KG.buildGraphFromVideos KG.videosThreeDocs = .ok snap ∧
      Proj.buildCooccurrenceGraph snap = .ok proj ∧
      ∃ ed ∈ proj.edges, ed.source = "entity_alpha" ∧
        ed.target = "entity_beta" ∧ ed.weight = 4) ∧
    ∀ c : ℕ, min ((c : ℚ) / 3) 1 ≠ ((4 : ℕ) : ℚ) := by
  constructor
  · have hco : (match (KG.buildGraphFromVideos KG.videosThreeDocs).bind
        Proj.buildCooccurrenceGraph with
      | .ok pr => pr.edges.any (fun ed => ed.source == "entity_alpha" &&
          ed.target == "entity_beta" && ed.weight == 4)
      | .error _ => false) = true := by decide
    rcases hok : KG.buildGraphFromVideos KG.videosThreeDocs with err | snap
    · rw [hok] at hco
      cases hco
    · rw [hok] at hco
      have hco2 : (match Proj.buildCooccurrenceGraph snap with
        | .ok pr => pr.edges.any (fun ed => ed.source == "entity_alpha" &&
            ed.target == "entity_beta" && ed.weight == 4)
        | .error _ => false) = true := hco
      rcases hpr : Proj.buildCooccurrenceGraph snap with err | proj
      · rw [hpr] at hco2
        cases hco2
      · rw [hpr] at hco2
        rcases List.any_eq_true.1 hco2 with ⟨ed, hed, hb⟩
        simp only [Bool.and_eq_true, beq_iff_eq] at hb
        exact ⟨snap, proj, rfl, hpr, ed, hed, hb.1.1, hb.1.2, hb.2⟩
  · intro c hcontra
    have h1 : min ((c : ℚ) / 3) 1 ≤ 1 := min_le_right _ _
    rw [hcontra] at h1
    norm_num at h1

/-- Witness for C9 (amended) on the three-document pipeline snapshot
and its co-occurrence projection. -/
theorem c9_witness :
    ∃ snap proj, KG.buildGraphFromVideos KG.videosThreeDocs = .ok snap ∧
      Proj.buildCooccurrenceGraph snap = .ok proj ∧
      ((∀ n ∈ proj.nodes, KG.GNode.type n ≠ "video") ∧
       (∀ n ∈ proj.nodes, ∃ ed ∈ proj.edges,
         ed.source = KG.GNode.id n ∨ ed.target = KG.GNode.id n) ∧
       (∀ ed ∈ proj.edges, ed.similarity = min ((ed.weight : ℚ) / 3) 1) ∧
       (∀ lists, Proj.assocIdLists snap = .ok lists →
         ∀ ed ∈ proj.edges,
           ed.weight = Proj.pairTally lists (ed.source, ed.target)) ∧
       (∀ videos mls, videos.mapM KG.videoMentions = .ok mls →
         KG.buildGraphFromVideos videos = .ok snap →
         ∀ ent ∈ KG.deduplicateEntities mls.flatten,
           (KG.sourceDocs ent).length ≤ 1 →
           ∀ n ∈ proj.nodes, KG.GNode.id n ≠ ent.id)) := by
  rcases hok : KG.buildGraphFromVideos KG.videosThreeDocs with err | snap
  · have hisok : (KG.buildGraphFromVideos KG.videosThreeDocs).isOk = true := by
      decide
    rw [hok] at hisok
    cases hisok
  · have hprok : (Proj.buildCooccurrenceGraph snap).isOk = true := by
      have hco : ((KG.buildGraphFromVideos KG.videosThreeDocs).bind
          Proj.buildCooccurrenceGraph).isOk = true := by decide
      rw [hok] at hco
      exact hco
    rcases hpr : Proj.buildCooccurrenceGraph snap with err | proj
    · rw [hpr] at hprok
      cases hprok
    · exact ⟨snap, proj, rfl, hpr, c9_amended snap proj hpr⟩
